import Mathlib

/-!
# Multimedia catalog: entity model, Manager, text persistence

A shallow embedding of the C++ sources `multimedia.*`, `photo.*`, `video.*`,
`film.*`, `group.*` and `manager.*`, and of the request callback of `main.cpp`.

Conventions of the embedding

* `std::string` is a list of characters (`Str`).
* `int` is a mathematical integer kept inside the 32-bit range (`isInt`);
  `size_t` is a natural number.
* A C array reached through a pointer is `Option (List Int)`: `none` is
  `nullptr`, `some xs` an array holding exactly the elements `xs`.
* A thrown exception, a call of `exit` and undefined behaviour are explicit
  outcomes (`Err`); operations of the Manager return the catalog after the call
  together with that outcome, so that a failing call still shows its state.
* `std::shared_ptr` handles are represented by the entity they point at: no
  operation of the Manager mutates an entity through a handle (`ManagerObj`,
  where the maps hold addresses, is the place where this is proved).
* Diagnostics printed on `std::cout` / `std::cerr` are not part of the state
  (`Group.displayOn` alone describes a render whose stream is `std::cout`), and
  `new` is taken to find the memory it asks for.
-/

set_option autoImplicit false

namespace MediaCatalog

/-! ## Text -/

/-- Sequence of characters standing for a `std::string` or for a file content. -/
abbrev Str := List Char

/-- Classification `isspace` of the C locale: space, `\t`, `\n`, `\v`, `\f`, `\r`. -/
def isspace (c : Char) : Bool :=
  c == ' ' || c == '\t' || c == '\n' || c == '\x0b' || c == '\x0c' || c == '\r'

/-- Classification `isdigit`. -/
def isdigit (c : Char) : Bool :=
  c == '0' || c == '1' || c == '2' || c == '3' || c == '4' ||
  c == '5' || c == '6' || c == '7' || c == '8' || c == '9'

/-- Decimal digit character of a number below ten. -/
def digitChar : Nat → Char
  | 0 => '0' | 1 => '1' | 2 => '2' | 3 => '3' | 4 => '4'
  | 5 => '5' | 6 => '6' | 7 => '7' | 8 => '8' | _ => '9'

/-- Value of a decimal digit character (zero for any other character). -/
def digitVal (c : Char) : Nat :=
  if c = '1' then 1 else if c = '2' then 2 else if c = '3' then 3
  else if c = '4' then 4 else if c = '5' then 5 else if c = '6' then 6
  else if c = '7' then 7 else if c = '8' then 8 else if c = '9' then 9 else 0

/-! ## Formatted output of integers (`operator<<` on `int` and `size_t`) -/

/-- Decimal digits of `n`, most significant first; `fuel` bounds the number of digits. -/
def putNatAux : Nat → Nat → Str
  | 0, _ => []
  | fuel + 1, n =>
    if n < 10 then [digitChar n]
    else putNatAux fuel (n / 10) ++ [digitChar (n % 10)]

/-- Text written by `os << n` for an unsigned value (`size_t`). -/
def putNat (n : Nat) : Str := putNatAux (n + 1) n

/-- Text written by `os << i` for an `int`. -/
def putInt (i : Int) : Str :=
  if i < 0 then '-' :: putNat i.natAbs else putNat i.natAbs

/-! ## Machine integers -/

/-- Largest value of `int`. -/
def INT_MAX : Int := 2147483647

/-- Smallest value of `int`. -/
def INT_MIN : Int := -2147483648

/-- Range of the type `int`. -/
def isInt (i : Int) : Prop := INT_MIN ≤ i ∧ i ≤ INT_MAX

instance (i : Int) : Decidable (isInt i) := by
  unfold isInt; exact inferInstance

/-- Conversion of a `long` to `int`: the value modulo `2^32` taken in `[-2^31, 2^31)`. -/
def toInt32 (l : Int) : Int := (l + 2147483648) % 4294967296 - 2147483648

/-- Saturation of `strtol` to the range of a 64-bit `long`. -/
def clampLong (l : Int) : Int :=
  if l < -9223372036854775808 then -9223372036854775808
  else if 9223372036854775807 < l then 9223372036854775807
  else l

/-- Value of a sequence of decimal digits. -/
def parseNat (ds : Str) : Nat := ds.foldl (fun a c => 10 * a + digitVal c) 0

/-- Library function `atoi`, as `(int) strtol(s, NULL, 10)`: leading white space is
skipped, an optional sign is read, then the longest run of decimal digits; no
digit gives `0`. A value outside `long` saturates and the result is converted
to `int`. -/
def atoi (s : Str) : Int :=
  let s1 := s.dropWhile isspace
  let neg : Bool := match s1 with
    | '-' :: _ => true
    | _ => false
  let s2 : Str := match s1 with
    | '-' :: r => r
    | '+' :: r => r
    | _ => s1
  let mag : Int := (parseNat (s2.takeWhile isdigit) : Nat)
  toInt32 (clampLong (if neg then -mag else mag))

/-! ## Formatted input (`operator>>` on `std::string`, `std::getline`) -/

/-- Extraction `ss >> word`: white space is skipped, then characters are taken up
to the next white space. The result is the word and the rest of the stream.
At the end of the stream the word is empty and so is the rest, so every later
extraction yields the empty word too (the stream has failed and the target
strings of `read` are freshly declared). -/
def extractWord (s : Str) : Str × Str :=
  let t := s.dropWhile isspace
  (t.takeWhile (fun c => !isspace c), t.dropWhile (fun c => !isspace c))

/-- Lines that successive calls of `std::getline` deliver: `cur` holds the
characters of the line being read. A final line without `\n` is delivered when
it is not empty. -/
def linesAux : Str → Str → List Str
  | [], cur => if cur = [] then [] else [cur]
  | c :: cs, cur => if c = '\n' then cur :: linesAux cs [] else linesAux cs (cur ++ [c])

/-- Lines of a file, in the order `while (std::getline(f, line))` visits them. -/
def fileLines (content : Str) : List Str := linesAux content []

/-! ## Binary64 floating point (`double`) and its text form

The source writes a `double` with `os << x` under the stream defaults and
reads it back with `atof`. Both are library functions; they are modelled here
on the bit pattern of the IEEE 754 binary64 format: `os << x` is the conversion
`%g` with precision 6, `atof` is `strtod` with correct rounding to nearest,
ties to even. -/

/-- Value of type `double` given by the three fields of its binary64 pattern. -/
structure Dbl where
  /-- Sign bit, `true` for a negative value. -/
  sign : Bool
  /-- Biased exponent field, `0 .. 2047`. -/
  expo : Nat
  /-- Fraction field, `0 .. 2^52 - 1`. -/
  frac : Nat
deriving DecidableEq, Repr

/-- Integer significand: the fraction, with the hidden bit for a normal number. -/
def Dbl.mant (d : Dbl) : Nat := if d.expo = 0 then d.frac else 2 ^ 52 + d.frac

/-- Exponent field with the subnormal exponent mapped to one: the magnitude is
`mant * 2 ^ (bexp - 1075)`. -/
def Dbl.bexp (d : Dbl) : Nat := if d.expo = 0 then 1 else d.expo

/-- Numerator of the magnitude of a finite value. -/
def Dbl.num (d : Dbl) : Nat := d.mant * 2 ^ (d.bexp - 1075)

/-- Denominator of the magnitude of a finite value. -/
def Dbl.den (d : Dbl) : Nat := 2 ^ (1075 - d.bexp)

/-- Quotient `n / d` rounded to the nearest integer, ties to even. -/
def roundHalfEven (n d : Nat) : Nat :=
  let q := n / d
  let r := n % d
  if d < 2 * r then q + 1
  else if 2 * r = d ∧ q % 2 = 1 then q + 1
  else q

/-- Least `k` at or above the start value with `den ≤ num * b ^ k`, searched for
`fuel` steps. -/
def negExp (b : Nat) : Nat → Nat → Nat → Nat → Nat
  | 0, k, _, _ => k
  | fuel + 1, k, num, den =>
    if den ≤ num * b ^ k then k else negExp b fuel (k + 1) num den

/-- Decimal exponent of the positive rational `num / den`: the integer `x` with
`10 ^ x ≤ num / den < 10 ^ (x + 1)`. -/
def decExp (num den : Nat) : Int :=
  if den ≤ num then ((putNatAux (num / den + 1) (num / den)).length : Int) - 1
  else -(negExp 10 400 1 num den : Int)

/-- Six significant decimal digits of `num / den` (as a number between `10^5`
and `10^6 - 1`) with the decimal exponent of the rounded value. -/
def sigDigits (num den : Nat) : Nat × Int :=
  let x := decExp num den
  let q := if x ≤ 5 then roundHalfEven (num * 10 ^ (5 - x).toNat) den
    else roundHalfEven num (den * 10 ^ (x - 5).toNat)
  if q = 1000000 then (100000, x + 1) else (q, x)

/-- Removal of the trailing zeros of a digit sequence. -/
def stripZeros (s : Str) : Str := (s.reverse.dropWhile (fun c => c == '0')).reverse

/-- Fractional part as `%g` prints it: trailing zeros removed, and no decimal
point when nothing remains. -/
def fracText (s : Str) : Str :=
  if stripZeros s = [] then [] else '.' :: stripZeros s

/-- Exponent part of the style `e`: sign and at least two digits. -/
def expText (x : Int) : Str :=
  'e' :: (if x < 0 then '-' else '+') ::
    (if x.natAbs < 10 then '0' :: putNat x.natAbs else putNat x.natAbs)

/-- Conversion `%g` with precision 6 of the positive rational `num / den`: style
`f` when the decimal exponent `x` satisfies `-4 ≤ x < 6`, style `e` otherwise. -/
def putFinite (num den : Nat) : Str :=
  let q := (sigDigits num den).1
  let x := (sigDigits num den).2
  let ds := putNat q
  if -4 ≤ x ∧ x < 6 then
    if 0 ≤ x then ds.take (x.toNat + 1) ++ fracText (ds.drop (x.toNat + 1))
    else '0' :: fracText (List.replicate ((-x).toNat - 1) '0' ++ ds)
  else
    ds.take 1 ++ fracText (ds.drop 1) ++ expText x

/-- Text written by `os << x` for a `double` under the stream defaults. -/
def putDouble (d : Dbl) : Str :=
  let body : Str :=
    if 2047 ≤ d.expo then (if d.frac = 0 then ['i', 'n', 'f'] else ['n', 'a', 'n'])
    else if d.mant = 0 then ['0']
    else putFinite d.num d.den
  if d.sign then '-' :: body else body

/-- Binary logarithm rounded down, by repeated halving; `fuel` bounds the steps. -/
def log2Aux : Nat → Nat → Nat
  | 0, _ => 0
  | fuel + 1, n => if n < 2 then 0 else log2Aux fuel (n / 2) + 1

/-- Binary logarithm of a positive number, rounded down. -/
def log2Floor (n : Nat) : Nat := log2Aux n n

/-- Nearest `double` (ties to even) of the positive rational `num / den`, with
the given sign; a value beyond the largest finite number gives infinity. -/
def roundToDbl (sign : Bool) (num den : Nat) : Dbl :=
  let e : Int :=
    if num * 2 ^ 1022 < den then -1022
    else if den ≤ num then (log2Floor (num / den) : Int)
    else -(negExp 2 1022 1 num den : Int)
  let q0 := if e ≤ 52 then roundHalfEven (num * 2 ^ (52 - e).toNat) den
    else roundHalfEven num (den * 2 ^ (e - 52).toNat)
  let q := if q0 = 2 ^ 53 then 2 ^ 52 else q0
  let e1 := if q0 = 2 ^ 53 then e + 1 else e
  if q < 2 ^ 52 then ⟨sign, 0, q⟩
  else if 1023 < e1 then ⟨sign, 2047, 0⟩
  else ⟨sign, (e1 + 1023).toNat, q - 2 ^ 52⟩

/-- Value of a hexadecimal digit. -/
def hexVal (c : Char) : Option Nat :=
  if isdigit c then some (digitVal c)
  else if c = 'a' ∨ c = 'A' then some 10
  else if c = 'b' ∨ c = 'B' then some 11
  else if c = 'c' ∨ c = 'C' then some 12
  else if c = 'd' ∨ c = 'D' then some 13
  else if c = 'e' ∨ c = 'E' then some 14
  else if c = 'f' ∨ c = 'F' then some 15
  else none

/-- Classification `isxdigit`. -/
def isxdigit (c : Char) : Bool := (hexVal c).isSome

/-- Value of a sequence of hexadecimal digits. -/
def parseHex (ds : Str) : Nat := ds.foldl (fun a c => 16 * a + (hexVal c).getD 0) 0

/-- Test that `s` starts with the lower-case word `p`, letter case ignored. -/
def startsWithCI (p s : Str) : Bool :=
  decide (p.length ≤ s.length) && ((s.take p.length).map Char.toLower == p)

/-- Exponent part of a floating literal after its marker (`e` or `p`): an optional
sign and decimal digits; without a digit there is no exponent part. -/
def expValue (t : Str) : Int :=
  match t with
  | '-' :: u => -(parseNat (u.takeWhile isdigit) : Int)
  | '+' :: u => (parseNat (u.takeWhile isdigit) : Int)
  | u => (parseNat (u.takeWhile isdigit) : Int)

/-- Digits after an optional point at the head of `r`. -/
def pointDigits (dig : Char → Bool) (r : Str) : Str :=
  match r with
  | '.' :: t => t.takeWhile dig
  | _ => []

/-- Rest of the text after an optional point and its digits at the head of `r`. -/
def pointRest (dig : Char → Bool) (r : Str) : Str :=
  match r with
  | '.' :: t => t.dropWhile dig
  | _ => r

/-- Exponent of a literal whose text after the digits is `r`, for the marker
characters `lo` and `up`. -/
def expPart (lo up : Char) (r : Str) : Int :=
  match r with
  | c :: t => if c = lo ∨ c = up then expValue t else 0
  | [] => 0

/-- Decimal floating literal `digits [. digits] [e [sign] digits]` at the head of
`s`; without any digit no conversion is performed and the result is `+0.0`. -/
def atofDecimal (sign : Bool) (s : Str) : Dbl :=
  let ip := s.takeWhile isdigit
  let fp := pointDigits isdigit (s.dropWhile isdigit)
  let r := pointRest isdigit (s.dropWhile isdigit)
  if ip = [] ∧ fp = [] then ⟨false, 0, 0⟩
  else
    let m := parseNat (ip ++ fp)
    let ex : Int := expPart 'e' 'E' r - (fp.length : Int)
    let nd : Int := ((putNat m).length : Int)
    if m = 0 then ⟨sign, 0, 0⟩
    else if 310 < ex + nd then ⟨sign, 2047, 0⟩
    else if ex + nd < -330 then ⟨sign, 0, 0⟩
    else if 0 ≤ ex then roundToDbl sign (m * 10 ^ ex.toNat) 1
    else roundToDbl sign m (10 ^ (-ex).toNat)

/-- Hexadecimal floating literal after its `0x`:
`hexdigits [. hexdigits] [p [sign] digits]`; `none` without any digit. -/
def atofHex (sign : Bool) (s : Str) : Option Dbl :=
  let ip := s.takeWhile isxdigit
  let fp := pointDigits isxdigit (s.dropWhile isxdigit)
  let r := pointRest isxdigit (s.dropWhile isxdigit)
  if ip = [] ∧ fp = [] then none
  else
    let m := parseHex (ip ++ fp)
    let ex : Int := expPart 'p' 'P' r - 4 * (fp.length : Int)
    let nb : Int := (log2Floor m : Int) + 1
    if m = 0 then some ⟨sign, 0, 0⟩
    else if 1100 < ex + nb then some ⟨sign, 2047, 0⟩
    else if ex + nb < -1100 then some ⟨sign, 0, 0⟩
    else if 0 ≤ ex then some (roundToDbl sign (m * 2 ^ ex.toNat) 1)
    else some (roundToDbl sign m (2 ^ (-ex).toNat))

/-- Library function `atof`, as `strtod(s, NULL)`: leading white space is skipped,
an optional sign is read, then `inf`, `nan`, a hexadecimal or a decimal
floating literal; text that follows is ignored. A `nan` is the default quiet
one. -/
def atof (s : Str) : Dbl :=
  let s1 := s.dropWhile isspace
  let sign : Bool := match s1 with
    | '-' :: _ => true
    | _ => false
  let s2 : Str := match s1 with
    | '-' :: r => r
    | '+' :: r => r
    | _ => s1
  if startsWithCI ['i', 'n', 'f'] s2 then ⟨sign, 2047, 0⟩
  else if startsWithCI ['n', 'a', 'n'] s2 then ⟨sign, 2047, 2 ^ 51⟩
  else if startsWithCI ['0', 'x'] s2 then
    match atofHex sign (s2.drop 2) with
    | some d => d
    | none => ⟨sign, 0, 0⟩
  else atofDecimal sign s2

/-! ## Outcomes -/

/-- Ways in which a call does not return normally. -/
inductive Err where
  /-- Exception `NamingError` with its message. -/
  | namingError (what : Str)
  /-- Exception `std::invalid_argument` with its message. -/
  | invalidArgument (what : Str)
  /-- Exception `std::bad_array_new_length` of `new int[n]` with a negative `n`. -/
  | badArrayNewLength
  /-- Termination of the process by a call `exit(status)`. -/
  | exit (status : Nat)
  /-- Undefined behaviour: an array is read outside its bounds or after its release. -/
  | undefined
deriving DecidableEq, Repr

/-- Test that the outcome is an exception derived from `std::exception`, which a
handler `catch (const std::exception &)` intercepts. -/
def Err.isException : Err → Bool
  | .namingError _ => true
  | .invalidArgument _ => true
  | .badArrayNewLength => true
  | .exit _ => false
  | .undefined => false

deriving instance DecidableEq for Except

/-- Value of `EXIT_FAILURE`. -/
def EXIT_FAILURE : Nat := 1

/-- Effect of a call that writes to an output stream: the characters appended to
the stream, in order, and the failure that ended the call, if any. -/
structure Output where
  /-- Characters appended to the stream. -/
  text : Str
  /-- Failure ending the call, `none` when it returns. -/
  fail : Option Err
deriving DecidableEq, Repr

/-- Effect of a call of `play`: the command lines handed to `system`, in order,
and the failure that ended the call, if any. -/
structure PlayLog where
  /-- Command lines handed to `system`. -/
  commands : List Str
  /-- Failure ending the call, `none` when it returns. -/
  fail : Option Err
deriving DecidableEq, Repr

/-- Files by name: `none` for a file that cannot be opened for reading. -/
abbrev Files := Str → Option Str

/-- Write through `std::ofstream f(filename, std::ios::app)`: the text is appended,
the file being created when absent (the open is taken to succeed). -/
def appendFile (fs : Files) (filename : Str) (text : Str) : Files :=
  fun n => if n = filename then some ((fs n).getD [] ++ text) else fs n

/-! ## Entities -/

/-- Object of class `Photo`: the members of `Multimedia` and the coordinates. -/
structure Photo where
  name : Str
  filepath : Str
  latitude : Dbl
  longitude : Dbl
deriving DecidableEq, Repr

/-- Object of class `Video`: the members of `Multimedia` and the duration. -/
structure Video where
  name : Str
  filepath : Str
  duration : Int
deriving DecidableEq, Repr

/-- Object of class `Film`: the members of `Video`, the pointer `chapters` with the
array it points at (`none` for `nullptr`) and the count `n_chapters`. -/
structure Film where
  name : Str
  filepath : Str
  duration : Int
  chapters : Option (List Int)
  n_chapters : Nat
deriving DecidableEq, Repr

/-- Object reached through a `std::shared_ptr<Multimedia>`, with its dynamic type. -/
inductive Multimedia where
  | photo (p : Photo)
  | video (v : Video)
  | film (f : Film)
deriving DecidableEq, Repr

/-- Member `Photo::display`. -/
def Photo.display (p : Photo) : Output :=
  ⟨"Name: ".toList ++ p.name ++ ", ".toList ++ "filepath: ".toList ++ p.filepath
    ++ ", ".toList ++ "Latitude: ".toList ++ putDouble p.latitude ++ ", ".toList
    ++ "Longitude: ".toList ++ putDouble p.longitude ++ ['\n'], none⟩

/-- Member `Video::display`. -/
def Video.display (v : Video) : Output :=
  ⟨"Name: ".toList ++ v.name ++ ", ".toList ++ "filepath: ".toList ++ v.filepath
    ++ ", ".toList ++ "Duration: ".toList ++ putInt v.duration ++ ['\n'], none⟩

/-- Loop `for (size_t i = ...; i < n_chapters; ++i) os << piece(i, chapters[i])` with
`k` iterations left at index `i`; reading `chapters[i]` outside the array is
undefined behaviour. -/
def chapterLoop (piece : Nat → Int → Str) (cs : List Int) : Nat → Nat → Output
  | 0, _ => ⟨[], none⟩
  | k + 1, i =>
    match cs[i]? with
    | none => ⟨[], some Err.undefined⟩
    | some d =>
      ⟨piece i d ++ (chapterLoop piece cs k (i + 1)).text, (chapterLoop piece cs k (i + 1)).fail⟩

/-- Line that `Film::display` writes for the chapter of index `i` and duration `d`. -/
def chapterLine (i : Nat) (d : Int) : Str :=
  "The duration for chapter ".toList ++ putNat i ++ " of the film is ".toList
    ++ putInt d ++ ['\n']

/-- Member `Film::display`: one line per chapter, and `exit(EXIT_FAILURE)` when the
count is zero or the pointer null. -/
def Film.display (f : Film) : Output :=
  match f.chapters with
  | some cs =>
    if f.n_chapters ≠ 0 then chapterLoop chapterLine cs f.n_chapters 0
    else ⟨[], some (Err.exit EXIT_FAILURE)⟩
  | none => ⟨[], some (Err.exit EXIT_FAILURE)⟩

/-- Virtual call `m->display(os)`. -/
def Multimedia.display : Multimedia → Output
  | .photo p => p.display
  | .video v => v.display
  | .film f => f.display

/-- Member `Multimedia::getName`. -/
def Multimedia.getName : Multimedia → Str
  | .photo p => p.name
  | .video v => v.name
  | .film f => f.name

/-- Member `Multimedia::getFilepath`. -/
def Multimedia.getFilepath : Multimedia → Str
  | .photo p => p.filepath
  | .video v => v.filepath
  | .film f => f.filepath

/-- Call `system(cmd)` followed by `exit(EXIT_FAILURE)` on a nonzero status; the
function `system` gives the status the environment returns for a command. -/
def runCommand (system : Str → Int) (cmd : Str) : PlayLog :=
  ⟨[cmd], if system cmd ≠ 0 then some (Err.exit EXIT_FAILURE) else none⟩

/-- Member `Photo::play`. -/
def Photo.play (system : Str → Int) (p : Photo) : PlayLog :=
  runCommand system ("imagej ".toList ++ p.filepath ++ " &".toList)

/-- Member `Video::play`. -/
def Video.play (system : Str → Int) (v : Video) : PlayLog :=
  runCommand system ("mpv ".toList ++ v.filepath ++ " &".toList)

/-- Virtual call `m->play()`; `Film` inherits `Video::play`. -/
def Multimedia.play (system : Str → Int) : Multimedia → PlayLog
  | .photo p => p.play system
  | .video v => v.play system
  | .film f => Video.play system ⟨f.name, f.filepath, f.duration⟩

/-- Member `Photo::write`: one line appended to the file. -/
def Photo.write (p : Photo) (filename : Str) (fs : Files) : Files × Option Err :=
  (appendFile fs filename ("Photo ".toList ++ p.name ++ " ".toList ++ p.filepath
    ++ " ".toList ++ putDouble p.latitude ++ " ".toList ++ putDouble p.longitude
    ++ ['\n']), none)

/-- Member `Video::write`: one line appended to the file. -/
def Video.write (v : Video) (filename : Str) (fs : Files) : Files × Option Err :=
  (appendFile fs filename ("Video ".toList ++ v.name ++ " ".toList ++ v.filepath
    ++ " ".toList ++ putInt v.duration ++ ['\n']), none)

/-- Chapter fields that `Film::write` appends after the count. -/
def Film.writeChapters (f : Film) : Output :=
  match f.chapters with
  | some cs =>
    if f.n_chapters ≠ 0 then chapterLoop (fun _ d => ' ' :: putInt d) cs f.n_chapters 0
    else ⟨[], none⟩
  | none => ⟨[], none⟩

/-- Member `Film::write`: one line appended to the file. -/
def Film.write (f : Film) (filename : Str) (fs : Files) : Files × Option Err :=
  match f.writeChapters.fail with
  | some e => (fs, some e)
  | none =>
    (appendFile fs filename ("Film ".toList ++ f.name ++ " ".toList ++ f.filepath
      ++ " ".toList ++ putInt f.duration ++ " ".toList ++ putNat f.n_chapters
      ++ f.writeChapters.text ++ ['\n']), none)

/-- Virtual call `m->write(filename)`. -/
def Multimedia.write : Multimedia → Str → Files → Files × Option Err
  | .photo p => p.write
  | .video v => v.write
  | .film f => f.write

/-- Constructor `Film::Film(name, filepath, duration, c, n_c)`: a null `c` is
rejected, otherwise the first `n_c` elements of `c` are copied into a new array. -/
def Film.construct (name filepath : Str) (duration : Int) (c : Option (List Int))
    (n_c : Nat) : Except Err Film :=
  match c with
  | none => .error (.invalidArgument "Chapters cannot be empty!".toList)
  | some xs =>
    if n_c ≤ xs.length then .ok ⟨name, filepath, duration, some (xs.take n_c), n_c⟩
    else .error .undefined

/-- Copy constructor `Film::Film(const Film &otherFilm)`. Its initializer list is
`Video(otherFilm)` alone, so the member `n_chapters` of the new object is never
assigned: the tests `n_chapters > 0` and `i < n_chapters` read the value `indet`
that the storage of the new object happens to hold. -/
def Film.copyConstruct (indet : Nat) (otherFilm : Film) : Except Err Film :=
  match otherFilm.chapters with
  | some xs =>
    if 0 < indet then
      if indet ≤ xs.length then
        .ok ⟨otherFilm.name, otherFilm.filepath, otherFilm.duration, some (xs.take indet), indet⟩
      else .error .undefined
    else .ok ⟨otherFilm.name, otherFilm.filepath, otherFilm.duration, none, indet⟩
  | none => .ok ⟨otherFilm.name, otherFilm.filepath, otherFilm.duration, none, indet⟩

/-! ## Groups -/

/-- Object of class `Group`: its name and the list of handles it inherits from
`std::list`. -/
structure Group where
  name : Str
  elems : List Multimedia
deriving DecidableEq, Repr

/-- Loop `for (const mmptr &m : *this) m->display(os)` of `Group::display`, for a
stream `os` other than `std::cout`: the statement `std::cout << std::endl` of
the loop body then writes nothing to `os`. -/
def Group.displayLoop : List Multimedia → Output
  | [] => ⟨[], none⟩
  | m :: ms =>
    match m.display.fail with
    | some e => ⟨m.display.text, some e⟩
    | none => ⟨m.display.text ++ (Group.displayLoop ms).text, (Group.displayLoop ms).fail⟩

/-- Member `Group::display`. -/
def Group.display (g : Group) : Output :=
  ⟨"Group Name: ".toList ++ g.name ++ ['\n'] ++ (Group.displayLoop g.elems).text,
    (Group.displayLoop g.elems).fail⟩

/-- Call `g->push_back(m)`. -/
def Group.push_back (g : Group) (m : Multimedia) : Group := ⟨g.name, g.elems ++ [m]⟩

/-! ## Manager -/

/-- Container `std::map<std::string, V>`: the value stored under each key. -/
abbrev NameMap (V : Type) := Str → Option V

/-- Call `map.count(key)`. -/
def NameMap.count {V : Type} (m : NameMap V) (key : Str) : Nat :=
  if (m key).isSome then 1 else 0

/-- Assignment `map[key] = v`. -/
def NameMap.assign {V : Type} (m : NameMap V) (key : Str) (v : V) : NameMap V :=
  fun k => if k = key then some v else m k

/-- Call `map.erase(it)` for the iterator `it` found for `key`. -/
def NameMap.erase {V : Type} (m : NameMap V) (key : Str) : NameMap V :=
  fun k => if k = key then none else m k

/-- Object of class `Manager`: the two maps. -/
structure Manager where
  mediaCollection : NameMap Multimedia
  mediaGroups : NameMap Group

/-- Manager after its default constructor: both maps empty. -/
def Manager.empty : Manager := ⟨fun _ => none, fun _ => none⟩

/-- Member `Manager::createPhoto`. -/
def Manager.createPhoto (m : Manager) (name filepath : Str) (latitude longitude : Dbl) :
    Manager × Except Err Photo :=
  let p : Photo := ⟨name, filepath, latitude, longitude⟩
  if m.mediaCollection.count name > 0 then
    (m, .error (.namingError "Photo name already exists!".toList))
  else (⟨m.mediaCollection.assign name (.photo p), m.mediaGroups⟩, .ok p)

/-- Member `Manager::createVideo`. -/
def Manager.createVideo (m : Manager) (name filepath : Str) (duration : Int) :
    Manager × Except Err Video :=
  let v : Video := ⟨name, filepath, duration⟩
  if m.mediaCollection.count name > 0 then
    (m, .error (.namingError "Video name already exists!".toList))
  else (⟨m.mediaCollection.assign name (.video v), m.mediaGroups⟩, .ok v)

/-- Member `Manager::createFilm`: the Film is constructed first, then the name is
looked up. -/
def Manager.createFilm (m : Manager) (name filepath : Str) (duration : Int)
    (chapters : Option (List Int)) (n_chapters : Nat) : Manager × Except Err Film :=
  match Film.construct name filepath duration chapters n_chapters with
  | .error e => (m, .error e)
  | .ok f =>
    if m.mediaCollection.count name > 0 then
      (m, .error (.namingError "Film name already exists!".toList))
    else (⟨m.mediaCollection.assign name (.film f), m.mediaGroups⟩, .ok f)

/-- Member `Manager::copyAndCreateFilm`; `indet` is the value the copy constructor
reads for the unassigned member `n_chapters`. -/
def Manager.copyAndCreateFilm (indet : Nat) (m : Manager) (otherFilm : Film) :
    Manager × Except Err Film :=
  match Film.copyConstruct indet otherFilm with
  | .error e => (m, .error e)
  | .ok f => (⟨m.mediaCollection.assign otherFilm.name (.film f), m.mediaGroups⟩, .ok f)

/-- Member `Manager::createGroup`. -/
def Manager.createGroup (m : Manager) (groupName : Str) : Manager × Except Err Group :=
  let group : Group := ⟨groupName, []⟩
  if m.mediaGroups.count groupName > 0 then
    (m, .error (.namingError "Group name already exists!".toList))
  else (⟨m.mediaCollection, m.mediaGroups.assign groupName group⟩, .ok group)

/-- Member `Manager::searchAndDisplay` (a `const` member): the catalog after the
call and the effect on the stream `os`. -/
def Manager.searchAndDisplay (m : Manager) (name : Str) : Manager × Output :=
  match m.mediaCollection name with
  | some media => (m, media.display)
  | none =>
    match m.mediaGroups name with
    | some group => (m, group.display)
    | none =>
      (m, ⟨[], some (.namingError "No group or multimedia with this name exists!".toList)⟩)

/-- Member `Manager::playMedia` (a `const` member): the catalog after the call and
the commands run. -/
def Manager.playMedia (system : Str → Int) (m : Manager) (name : Str) : Manager × PlayLog :=
  match m.mediaCollection name with
  | some media => (m, media.play system)
  | none => (m, ⟨[], none⟩)

/-- Member `Manager::deleteByName`. -/
def Manager.deleteByName (m : Manager) (name : Str) : Manager × Except Err Unit :=
  match m.mediaCollection name with
  | some _ => (⟨m.mediaCollection.erase name, m.mediaGroups⟩, .ok ())
  | none =>
    match m.mediaGroups name with
    | some _ => (⟨m.mediaCollection, m.mediaGroups.erase name⟩, .ok ())
    | none =>
      (m, .error (.namingError ("No multimedia or group found with the name ".toList ++ name)))

/-- Member `Manager::getMedias`: a copy of the map of entities. -/
def Manager.getMedias (m : Manager) : NameMap Multimedia := m.mediaCollection

/-- Loop of `Manager::read` that fills `chapters[i]` from the next `k` words of the
line. -/
def readChapters : Nat → Str → List Int
  | 0, _ => []
  | k + 1, ss => atoi (extractWord ss).1 :: readChapters k (extractWord ss).2

/-- Handler `catch (const std::exception &e) ... return;` around a create call of
`Manager::read`: `none` lets the loop go on, `some r` leaves `read` with `r`. -/
def afterCreate {α : Type} (r : Manager × Except Err α) : Manager × Option (Except Err Unit) :=
  match r.2 with
  | .ok _ => (r.1, none)
  | .error e => if e.isException then (r.1, some (.ok ())) else (r.1, some (.error e))

/-- Branch `className == "Photo"` of `Manager::read`; `ss` is the line after its
first word. -/
def Manager.readPhoto (m : Manager) (ss : Str) : Manager × Option (Except Err Unit) :=
  let Name := (extractWord ss).1
  let s1 := (extractWord ss).2
  let Filepath := (extractWord s1).1
  let s2 := (extractWord s1).2
  let Latitude := (extractWord s2).1
  let s3 := (extractWord s2).2
  let Longitude := (extractWord s3).1
  afterCreate (m.createPhoto Name Filepath (atof Latitude) (atof Longitude))

/-- Branch `className == "Video"` of `Manager::read`; `ss` is the line after its
first word. -/
def Manager.readVideo (m : Manager) (ss : Str) : Manager × Option (Except Err Unit) :=
  let Name := (extractWord ss).1
  let s1 := (extractWord ss).2
  let Filepath := (extractWord s1).1
  let s2 := (extractWord s1).2
  let Duration := (extractWord s2).1
  afterCreate (m.createVideo Name Filepath (atoi Duration))

/-- Branch `className == "Film"` of `Manager::read`; `ss` is the line after its
first word. A negative count makes `new int[chaptersNum]` throw, a zero count
throws `std::invalid_argument`; both leave `read` since no handler encloses
them. -/
def Manager.readFilm (m : Manager) (ss : Str) : Manager × Option (Except Err Unit) :=
  let Name := (extractWord ss).1
  let s1 := (extractWord ss).2
  let Filepath := (extractWord s1).1
  let s2 := (extractWord s1).2
  let Duration := (extractWord s2).1
  let s3 := (extractWord s2).2
  let N_chapters := (extractWord s3).1
  let s4 := (extractWord s3).2
  let chaptersNum := atoi N_chapters
  let durationNum := atoi Duration
  if chaptersNum ≠ 0 then
    if chaptersNum < 0 then (m, some (.error .badArrayNewLength))
    else
      afterCreate (m.createFilm Name Filepath durationNum
        (some (readChapters chaptersNum.toNat s4)) chaptersNum.toNat)
  else (m, some (.error (.invalidArgument "Chapters cannot be empty!".toList)))

/-- Body of the loop of `Manager::read` for one line: `none` lets the loop go on,
`some r` leaves `read` with `r`. A line with another first word is skipped. -/
def Manager.readLine (m : Manager) (line : Str) : Manager × Option (Except Err Unit) :=
  let className := (extractWord line).1
  let ss := (extractWord line).2
  if className = "Photo".toList then m.readPhoto ss
  else if className = "Video".toList then m.readVideo ss
  else if className = "Film".toList then m.readFilm ss
  else (m, none)

/-- Loop `while (std::getline(f, line))` of `Manager::read` over the lines left. -/
def Manager.readLines (m : Manager) : List Str → Manager × Except Err Unit
  | [] => (m, .ok ())
  | line :: rest =>
    match (m.readLine line).2 with
    | none => Manager.readLines (m.readLine line).1 rest
    | some r => ((m.readLine line).1, r)

/-- Member `Manager::read`. -/
def Manager.read (m : Manager) (fs : Files) (filename : Str) : Manager × Except Err Unit :=
  match fs filename with
  | none => (m, .ok ())
  | some content => m.readLines (fileLines content)

/-! ## Film objects and their chapter arrays in memory

The members `chapters` of two Film objects may hold the same address. To state
what copies share, the chapter arrays are placed in a heap and a Film object
holds the address of its array. -/

/-- Heap of `int` arrays: the array live at each address, `none` where none is. -/
abbrev Heap := Nat → Option (List Int)

/-- Heap after `new int[n]` returned the address `addr` and the array was filled
with `xs`. -/
def Heap.store (h : Heap) (addr : Nat) (xs : List Int) : Heap :=
  fun a => if a = addr then some xs else h a

/-- Statement `delete[] p`: nothing for `nullptr`, release of a live array, and
undefined behaviour for an address without a live array. -/
def Heap.release (h : Heap) (p : Option Nat) : Except Err Heap :=
  match p with
  | none => .ok h
  | some a =>
    match h a with
    | some _ => .ok (fun k => if k = a then none else h k)
    | none => .error .undefined

/-- Reads `c[0] .. c[n-1]`: undefined behaviour when no array is live at `c` or
when it is shorter than `n`. -/
def Heap.readArray (h : Heap) (c : Nat) (n : Nat) : Except Err (List Int) :=
  match h c with
  | some xs => if n ≤ xs.length then .ok (xs.take n) else .error .undefined
  | none => .error .undefined

/-- Film object in memory: the members of `Video`, the pointer `chapters` as an
address of the heap (`none` for `nullptr`) and the count `n_chapters`. -/
structure FilmObj where
  name : Str
  filepath : Str
  duration : Int
  chapters : Option Nat
  n_chapters : Nat
deriving DecidableEq, Repr

/-- Chapter array reached through `getChapters()`. -/
def FilmObj.seq (h : Heap) (f : FilmObj) : Option (List Int) := f.chapters.bind h

/-- Test that the pointer `chapters` is null or the address of a live array. -/
def FilmObj.owns (h : Heap) (f : FilmObj) : Bool :=
  match f.chapters with
  | none => true
  | some p => (h p).isSome

/-- Test that `new` may return `fresh` right after `delete[] p`: no array is
live there, or the array just released was. -/
def Heap.freeAfter (h : Heap) (p : Option Nat) (fresh : Nat) : Bool :=
  (h fresh).isNone || p == some fresh

/-- Member `Film::setChapters(c, n)` on the object `self`; `fresh` is the address
`new int[n]` returns. -/
def FilmObj.setChapters (fresh : Nat) (h : Heap) (self : FilmObj) (c : Option Nat) (n : Nat) :
    Except Err (FilmObj × Heap) :=
  match h.release self.chapters with
  | .error e => .error e
  | .ok h1 =>
    match c with
    | none => .ok (⟨self.name, self.filepath, self.duration, none, 0⟩, h1)
    | some p =>
      if n = 0 then .ok (⟨self.name, self.filepath, self.duration, none, 0⟩, h1)
      else
        match h1.readArray p n with
        | .error e => .error e
        | .ok xs => .ok (⟨self.name, self.filepath, self.duration, some fresh, n⟩, h1.store fresh xs)

/-- Copy constructor `Film::Film(const Film &otherFilm)` in memory; `indet` is the
value read for the unassigned member `n_chapters`, `fresh` the address
`new int[n_chapters]` returns. -/
def FilmObj.copyConstruct (indet fresh : Nat) (h : Heap) (otherFilm : FilmObj) :
    Except Err (FilmObj × Heap) :=
  match otherFilm.chapters with
  | some p =>
    if 0 < indet then
      match h.readArray p indet with
      | .error e => .error e
      | .ok xs =>
        .ok (⟨otherFilm.name, otherFilm.filepath, otherFilm.duration, some fresh, indet⟩,
          h.store fresh xs)
    else .ok (⟨otherFilm.name, otherFilm.filepath, otherFilm.duration, none, indet⟩, h)
  | none => .ok (⟨otherFilm.name, otherFilm.filepath, otherFilm.duration, none, indet⟩, h)

/-- Copy assignment `Film::operator=` on the object `self`; `same` tells that
`otherFilm` is the object `self` itself, `fresh` is the address
`new int[n_chapters]` returns. -/
def FilmObj.assign (same : Bool) (fresh : Nat) (h : Heap) (self otherFilm : FilmObj) :
    Except Err (FilmObj × Heap) :=
  if same then .ok (self, h)
  else
    match h.release self.chapters with
    | .error e => .error e
    | .ok h1 =>
      match otherFilm.chapters with
      | some p =>
        if 0 < otherFilm.n_chapters then
          match h1.readArray p otherFilm.n_chapters with
          | .error e => .error e
          | .ok xs =>
            .ok (⟨otherFilm.name, otherFilm.filepath, otherFilm.duration, some fresh,
              otherFilm.n_chapters⟩, h1.store fresh xs)
        else
          .ok (⟨otherFilm.name, otherFilm.filepath, otherFilm.duration, none,
            otherFilm.n_chapters⟩, h1)
      | none =>
        .ok (⟨otherFilm.name, otherFilm.filepath, otherFilm.duration, none,
          otherFilm.n_chapters⟩, h1)

/-- List of characters none of which is white space. -/
def noSpace (s : Str) : Prop := ∀ c ∈ s, isspace c = false

instance (s : Str) : Decidable (noSpace s) := by
  unfold noSpace; exact inferInstance

/-- Text that is empty or begins with white space: what may follow a word. -/
def startsBlank : Str → Bool
  | [] => true
  | c :: _ => isspace c

/-- Chapter fields of a Film record for the chapters `cs`: each duration after one
space. -/
def chaptersText : List Int → Str
  | [] => []
  | d :: ds => ' ' :: (putInt d ++ chaptersText ds)

/-! ## Words and records of a persistence file -/

/-- Word of index `k` (from zero) that successive extractions `ss >> word` deliver. -/
def nthWord : Nat → Str → Str
  | 0, s => (extractWord s).1
  | k + 1, s => nthWord k (extractWord s).2

/-- Rest of a stream after `k` extractions `ss >> word`. -/
def dropWords : Nat → Str → Str
  | 0, s => s
  | k + 1, s => dropWords k (extractWord s).2

/-- First word of a line: the `className` of `Manager::read`. -/
def recordTag (line : Str) : Str := nthWord 0 line

/-- Second word of a line: the `Name` of `Manager::read`. -/
def recordName (line : Str) : Str := nthWord 1 line

/-- Value `atoi` gives for the fifth word of a line: the `chaptersNum` of the Film
branch of `Manager::read`. -/
def recordCount (line : Str) : Int := atoi (nthWord 4 line)

/-- Test that the first word of a line is `Photo`, `Video` or `Film`. -/
def knownTag (line : Str) : Bool :=
  decide (recordTag line = "Photo".toList) || decide (recordTag line = "Video".toList)
    || decide (recordTag line = "Film".toList)

/-- Content of the file whose lines are `ls`, each ended by `\n`. -/
def joinLines : List Str → Str
  | [] => []
  | l :: ls => l ++ '\n' :: joinLines ls

/-- Words `ws` written one after the other, each after one space. -/
def tailWords : List Str → Str
  | [] => []
  | w :: ws => ' ' :: (w ++ tailWords ws)

/-- Line made of the words `ws` separated by single spaces. -/
def joinWords : List Str → Str
  | [] => []
  | w :: ws => w ++ tailWords ws

/-- Field of a record: a non-empty word free of white space. -/
def goodWord (w : Str) : Prop := w ≠ [] ∧ noSpace w

instance (w : Str) : Decidable (goodWord w) := by
  unfold goodWord; exact inferInstance

/-- Test that a word is a decimal integer: an optional sign, then digits, at least
one. -/
def isIntToken (t : Str) : Bool :=
  match t with
  | '-' :: r => !r.isEmpty && r.all isdigit
  | '+' :: r => !r.isEmpty && r.all isdigit
  | r => !r.isEmpty && r.all isdigit

/-- Integer that a decimal integer word denotes. -/
def intTokenValue (t : Str) : Int :=
  match t with
  | '-' :: r => -(parseNat r : Int)
  | '+' :: r => (parseNat r : Int)
  | r => (parseNat r : Int)

/-- Test that the text `atoi` reads (after white space) begins with a minus sign. -/
def signNeg (t : Str) : Bool :=
  match t with
  | '-' :: _ => true
  | _ => false

/-- Text after the optional sign that `atoi` reads. -/
def unsigned (t : Str) : Str :=
  match t with
  | '-' :: r => r
  | '+' :: r => r
  | _ => t

/-- Run of digits that `atoi` reads after the optional sign. -/
def digitRun (t : Str) : Str := (unsigned t).takeWhile isdigit

/-- Value of the leading number of a word: its run of digits with its sign, zero
when the run is empty. -/
def leadValue (t : Str) : Int :=
  if signNeg t then -(parseNat (digitRun t) : Int) else (parseNat (digitRun t) : Int)

/-- Numeric field of a record: a decimal integer word whose value is an `int`. -/
def intToken (t : Str) : Prop := isIntToken t = true ∧ isInt (intTokenValue t)

instance (t : Str) : Decidable (intToken t) := by
  unfold intToken; exact inferInstance

/-- Record of the persistence format, with its fields as they are written. -/
inductive Record where
  /-- Line `Photo <name> <filepath> <latitude> <longitude>`. -/
  | photo (name filepath latitude longitude : Str)
  /-- Line `Video <name> <filepath> <duration>`. -/
  | video (name filepath duration : Str)
  /-- Line `Film <name> <filepath> <duration> <count> <chapter> ...`. -/
  | film (name filepath duration count : Str) (chapters : List Str)
deriving DecidableEq, Repr

/-- Words of a record. -/
def Record.words : Record → List Str
  | .photo n f la lo => ["Photo".toList, n, f, la, lo]
  | .video n f d => ["Video".toList, n, f, d]
  | .film n f d c chs => "Film".toList :: n :: f :: d :: c :: chs

/-- Line of a record: its words separated by single spaces. -/
def Record.line (r : Record) : Str := joinWords r.words

/-- Name field of a record. -/
def Record.name : Record → Str
  | .photo n _ _ _ => n
  | .video n _ _ => n
  | .film n _ _ _ _ => n

/-- Well-formed record: name, file path and coordinates are non-empty words free of
white space, duration and chapters are decimal integers within `int`, and the
count of a Film is a decimal integer equal to the number of chapter fields,
which is at least one. -/
def Record.wellFormed : Record → Prop
  | .photo n f la lo => goodWord n ∧ goodWord f ∧ goodWord la ∧ goodWord lo
  | .video n f d => goodWord n ∧ goodWord f ∧ intToken d
  | .film n f d c chs =>
    goodWord n ∧ goodWord f ∧ intToken d ∧ intToken c ∧
      intTokenValue c = (chs.length : Int) ∧ 1 ≤ chs.length ∧ ∀ t ∈ chs, intToken t

instance (r : Record) : Decidable r.wellFormed := by
  cases r <;> unfold Record.wellFormed <;> exact inferInstance

/-- Entity that a record denotes: its variant, name, file path and the values of
its numeric fields (for a coordinate, the `double` that `strtod` gives). -/
def Record.entity : Record → Multimedia
  | .photo n f la lo => .photo ⟨n, f, atof la, atof lo⟩
  | .video n f d => .video ⟨n, f, intTokenValue d⟩
  | .film n f d _ chs => .film ⟨n, f, intTokenValue d, some (chs.map intTokenValue), chs.length⟩

/-- Catalog in which the loop of `Manager::read` reaches the line that follows the
lines `pre`: `none` when a line of `pre` leaves the loop. -/
def Manager.reach (m : Manager) : List Str → Option Manager
  | [] => some m
  | line :: rest =>
    match (m.readLine line).2 with
    | none => Manager.reach (m.readLine line).1 rest
    | some _ => none

/-! ## Groups on the standard output, requests -/

/-- Loop of `Group::display` where `cout` tells that the stream `os` is `std::cout`
itself: the statement `std::cout << std::endl` that follows the render of each
member then writes to the same stream. -/
def Group.displayLoopOn (cout : Bool) : List Multimedia → Output
  | [] => ⟨[], none⟩
  | m :: ms =>
    match m.display.fail with
    | some e => ⟨m.display.text, some e⟩
    | none =>
      ⟨m.display.text ++ (if cout then ['\n'] else []) ++ (Group.displayLoopOn cout ms).text,
        (Group.displayLoopOn cout ms).fail⟩

/-- Member `Group::display` where `cout` tells that the stream `os` is `std::cout`. -/
def Group.displayOn (cout : Bool) (g : Group) : Output :=
  ⟨"Group Name: ".toList ++ g.name ++ ['\n'] ++ (Group.displayLoopOn cout g.elems).text,
    (Group.displayLoopOn cout g.elems).fail⟩

/-- Effect of one call of the request callback of `main`: the string `response` when
the call ends, the command lines handed to `system`, and the value returned or
the failure that ended the call. -/
structure Reply where
  /-- Content of `response` when the call ends. -/
  response : Str
  /-- Command lines handed to `system`. -/
  commands : List Str
  /-- Value the callback returns, or the failure that ended it. -/
  result : Except Err Bool
deriving DecidableEq

/-- Callback that `main` hands to the `TCPServer`: `request` is the line received,
`response` the content of the string the server passes by reference. The
handler `catch (const std::exception &)` around `searchAndDisplay` intercepts
exceptions, not the end of the process by `exit`. -/
def requestCallback (system : Str → Int) (m : Manager) (request response : Str) :
    Manager × Reply :=
  let action := (extractWord request).1
  let name := (extractWord (extractWord request).2).1
  if action = "search".toList then
    let r := m.searchAndDisplay name
    match r.2.fail with
    | none => (r.1, ⟨r.2.text, [], .ok true⟩)
    | some e =>
      if e.isException then (r.1, ⟨r.2.text, [], .ok true⟩)
      else (r.1, ⟨response, [], .error e⟩)
  else
    let r := m.playMedia system name
    match r.2.fail with
    | none => (r.1, ⟨response, r.2.commands, .ok true⟩)
    | some e => (r.1, ⟨response, r.2.commands, .error e⟩)

/-! ## Sequences of calls on a catalog -/

/-- Call of a member of `Manager` that may change a store, with its arguments; for
`copyAndCreateFilm`, `indet` is the value the copy constructor reads for the
unassigned member `n_chapters`. -/
inductive Op where
  | createPhoto (name filepath : Str) (latitude longitude : Dbl)
  | createVideo (name filepath : Str) (duration : Int)
  | createFilm (name filepath : Str) (duration : Int) (chapters : Option (List Int))
      (n_chapters : Nat)
  | copyAndCreateFilm (indet : Nat) (otherFilm : Film)
  | createGroup (groupName : Str)
  | deleteByName (name : Str)
  | read (fs : Files) (filename : Str)

/-- Catalog after one call, whether the call returned or raised. -/
def Manager.apply (m : Manager) : Op → Manager
  | .createPhoto name filepath latitude longitude =>
    (m.createPhoto name filepath latitude longitude).1
  | .createVideo name filepath duration => (m.createVideo name filepath duration).1
  | .createFilm name filepath duration chapters n_chapters =>
    (m.createFilm name filepath duration chapters n_chapters).1
  | .copyAndCreateFilm indet otherFilm => (m.copyAndCreateFilm indet otherFilm).1
  | .createGroup groupName => (m.createGroup groupName).1
  | .deleteByName name => (m.deleteByName name).1
  | .read fs filename => (m.read fs filename).1

/-- Catalog after a sequence of calls, the first of the list first. -/
def Manager.run (m : Manager) : List Op → Manager
  | [] => m
  | op :: ops => Manager.run (m.apply op) ops

/-- Every key of the entity store is the name of the entity stored under it, and
every key of the group store is the name of the group stored under it. -/
def Manager.wellNamed (m : Manager) : Prop :=
  (∀ k e, m.mediaCollection k = some e → e.getName = k) ∧
  (∀ k g, m.mediaGroups k = some g → g.name = k)

/-! ## The Manager and the objects that its handles own

A `std::shared_ptr` is the address of an object, and the copy of the entity map
that `getMedias` returns holds the addresses that the map of the Manager holds.
To state what later calls do to the objects reached from the copy, the entities
are placed at addresses and the maps hold these addresses. -/

/-- Entities owned through `std::shared_ptr`: the entity living at each address,
`none` where none lives. -/
abbrev Objects := Nat → Option Multimedia

/-- Objects after `new` placed the entity `e` at the address `a`. -/
def Objects.store (o : Objects) (a : Nat) (e : Multimedia) : Objects :=
  fun k => if k = a then some e else o k

/-- Release of the handles held for the addresses `released`: the object at such an
address is destroyed unless another handle still owns it, which `kept` tells. -/
def Objects.release (kept : Nat → Bool) (o : Objects) (released : List Nat) : Objects :=
  fun k => if k ∈ released ∧ kept k = false then none else o k

/-- Entity reached through the handle that a map of handles holds for the key `k`. -/
def Objects.reach (o : Objects) (handles : NameMap Nat) (k : Str) : Option Multimedia :=
  (handles k).bind o

/-- Object of class `Group` with the handles of its members. -/
structure GroupObj where
  name : Str
  elems : List Nat

/-- Object of class `Manager` with the handles that its two maps hold, and the
entities that live. -/
structure ManagerObj where
  objects : Objects
  mediaCollection : NameMap Nat
  mediaGroups : NameMap GroupObj

/-- Member `Manager::getMedias`: a copy of the map of handles. -/
def ManagerObj.getMedias (s : ManagerObj) : NameMap Nat := s.mediaCollection

/-- Member `Manager::createPhoto`; `fresh` is the address `new` returns. When the
name exists, the new object goes with its only handle `p`. -/
def ManagerObj.createPhoto (fresh : Nat) (s : ManagerObj) (name filepath : Str)
    (latitude longitude : Dbl) : ManagerObj × Except Err Nat :=
  if s.mediaCollection.count name > 0 then
    (s, .error (.namingError "Photo name already exists!".toList))
  else
    (⟨s.objects.store fresh (.photo ⟨name, filepath, latitude, longitude⟩),
      s.mediaCollection.assign name fresh, s.mediaGroups⟩, .ok fresh)

/-- Member `Manager::createVideo`; `fresh` is the address `new` returns. -/
def ManagerObj.createVideo (fresh : Nat) (s : ManagerObj) (name filepath : Str)
    (duration : Int) : ManagerObj × Except Err Nat :=
  if s.mediaCollection.count name > 0 then
    (s, .error (.namingError "Video name already exists!".toList))
  else
    (⟨s.objects.store fresh (.video ⟨name, filepath, duration⟩),
      s.mediaCollection.assign name fresh, s.mediaGroups⟩, .ok fresh)

/-- Member `Manager::createFilm`; `fresh` is the address `new` returns. -/
def ManagerObj.createFilm (fresh : Nat) (s : ManagerObj) (name filepath : Str)
    (duration : Int) (chapters : Option (List Int)) (n_chapters : Nat) :
    ManagerObj × Except Err Nat :=
  match Film.construct name filepath duration chapters n_chapters with
  | .error e => (s, .error e)
  | .ok f =>
    if s.mediaCollection.count name > 0 then
      (s, .error (.namingError "Film name already exists!".toList))
    else
      (⟨s.objects.store fresh (.film f), s.mediaCollection.assign name fresh, s.mediaGroups⟩,
        .ok fresh)

/-- Member `Manager::copyAndCreateFilm`; `fresh` is the address `new` returns. The
assignment `mediaCollection[name] = f` releases the handle that the map held
for the name, if any. -/
def ManagerObj.copyAndCreateFilm (indet fresh : Nat) (kept : Nat → Bool) (s : ManagerObj)
    (otherFilm : Film) : ManagerObj × Except Err Nat :=
  match Film.copyConstruct indet otherFilm with
  | .error e => (s, .error e)
  | .ok f =>
    (⟨(s.objects.store fresh (.film f)).release kept (s.mediaCollection otherFilm.name).toList,
      s.mediaCollection.assign otherFilm.name fresh, s.mediaGroups⟩, .ok fresh)

/-- Member `Manager::deleteByName`: the erased entry releases its handle; an erased
group releases the handles of its members when the `Group` object goes, that
is unless another `gPtr` owns it, which `groupKept` tells. -/
def ManagerObj.deleteByName (kept : Nat → Bool) (groupKept : Bool) (s : ManagerObj)
    (name : Str) : ManagerObj × Except Err Unit :=
  match s.mediaCollection name with
  | some a =>
    (⟨s.objects.release kept [a], s.mediaCollection.erase name, s.mediaGroups⟩, .ok ())
  | none =>
    match s.mediaGroups name with
    | some g =>
      (⟨if groupKept then s.objects else s.objects.release kept g.elems, s.mediaCollection,
        s.mediaGroups.erase name⟩, .ok ())
    | none =>
      (s, .error (.namingError ("No multimedia or group found with the name ".toList ++ name)))

/-- Handler around a create call of `Manager::read`, as `afterCreate`. -/
def ManagerObj.afterCreate {α : Type} (r : ManagerObj × Except Err α) :
    ManagerObj × Option (Except Err Unit) :=
  match r.2 with
  | .ok _ => (r.1, none)
  | .error e => if e.isException then (r.1, some (.ok ())) else (r.1, some (.error e))

/-- Body of the loop of `Manager::read` for one line; `alloc o` is the address `new`
returns when the objects are `o`. -/
def ManagerObj.readLine (alloc : Objects → Nat) (s : ManagerObj) (line : Str) :
    ManagerObj × Option (Except Err Unit) :=
  let className := (extractWord line).1
  let ss := (extractWord line).2
  if className = "Photo".toList then
    let Name := (extractWord ss).1
    let s1 := (extractWord ss).2
    let Filepath := (extractWord s1).1
    let s2 := (extractWord s1).2
    let Latitude := (extractWord s2).1
    let s3 := (extractWord s2).2
    let Longitude := (extractWord s3).1
    ManagerObj.afterCreate
      (s.createPhoto (alloc s.objects) Name Filepath (atof Latitude) (atof Longitude))
  else if className = "Video".toList then
    let Name := (extractWord ss).1
    let s1 := (extractWord ss).2
    let Filepath := (extractWord s1).1
    let s2 := (extractWord s1).2
    let Duration := (extractWord s2).1
    ManagerObj.afterCreate (s.createVideo (alloc s.objects) Name Filepath (atoi Duration))
  else if className = "Film".toList then
    let Name := (extractWord ss).1
    let s1 := (extractWord ss).2
    let Filepath := (extractWord s1).1
    let s2 := (extractWord s1).2
    let Duration := (extractWord s2).1
    let s3 := (extractWord s2).2
    let N_chapters := (extractWord s3).1
    let s4 := (extractWord s3).2
    let chaptersNum := atoi N_chapters
    let durationNum := atoi Duration
    if chaptersNum ≠ 0 then
      if chaptersNum < 0 then (s, some (.error .badArrayNewLength))
      else
        ManagerObj.afterCreate (s.createFilm (alloc s.objects) Name Filepath durationNum
          (some (readChapters chaptersNum.toNat s4)) chaptersNum.toNat)
    else (s, some (.error (.invalidArgument "Chapters cannot be empty!".toList)))
  else (s, none)

/-- Loop of `Manager::read` over the lines left. -/
def ManagerObj.readLines (alloc : Objects → Nat) (s : ManagerObj) :
    List Str → ManagerObj × Except Err Unit
  | [] => (s, .ok ())
  | line :: rest =>
    match (s.readLine alloc line).2 with
    | none => ManagerObj.readLines alloc (s.readLine alloc line).1 rest
    | some r => ((s.readLine alloc line).1, r)

/-- Member `Manager::read`. -/
def ManagerObj.read (alloc : Objects → Nat) (s : ManagerObj) (fs : Files) (filename : Str) :
    ManagerObj × Except Err Unit :=
  match fs filename with
  | none => (s, .ok ())
  | some content => s.readLines alloc (fileLines content)

/-- Call of a member of `Manager` that may change the entity map, with its
arguments, the addresses `new` returns in it and the handles that remain after
its releases. -/
inductive Call where
  | createPhoto (fresh : Nat) (name filepath : Str) (latitude longitude : Dbl)
  | createVideo (fresh : Nat) (name filepath : Str) (duration : Int)
  | createFilm (fresh : Nat) (name filepath : Str) (duration : Int)
      (chapters : Option (List Int)) (n_chapters : Nat)
  | copyAndCreateFilm (indet fresh : Nat) (kept : Nat → Bool) (otherFilm : Film)
  | deleteByName (kept : Nat → Bool) (groupKept : Bool) (name : Str)
  | read (alloc : Objects → Nat) (fs : Files) (filename : Str)

/-- Manager and objects after one call, whether the call returned or raised. -/
def ManagerObj.call (s : ManagerObj) : Call → ManagerObj
  | .createPhoto fresh name filepath latitude longitude =>
    (s.createPhoto fresh name filepath latitude longitude).1
  | .createVideo fresh name filepath duration => (s.createVideo fresh name filepath duration).1
  | .createFilm fresh name filepath duration chapters n_chapters =>
    (s.createFilm fresh name filepath duration chapters n_chapters).1
  | .copyAndCreateFilm indet fresh kept otherFilm =>
    (s.copyAndCreateFilm indet fresh kept otherFilm).1
  | .deleteByName kept groupKept name => (s.deleteByName kept groupKept name).1
  | .read alloc fs filename => (s.read alloc fs filename).1

/-- Manager and objects after a sequence of calls, the first of the list first. -/
def ManagerObj.calls (s : ManagerObj) : List Call → ManagerObj
  | [] => s
  | c :: cs => ManagerObj.calls (s.call c) cs

/-- The call is one that can be made while the copy `snap` of the entity map lives:
the handles of the copy own their objects, so that `new` returns none of their
addresses and the releases of the call keep their objects. -/
def Call.spares (snap : NameMap Nat) : Call → Prop
  | .createPhoto fresh _ _ _ _ => ∀ k, snap k ≠ some fresh
  | .createVideo fresh _ _ _ => ∀ k, snap k ≠ some fresh
  | .createFilm fresh _ _ _ _ _ => ∀ k, snap k ≠ some fresh
  | .copyAndCreateFilm _ fresh kept _ =>
    (∀ k, snap k ≠ some fresh) ∧ ∀ k a, snap k = some a → kept a = true
  | .deleteByName kept _ _ => ∀ k a, snap k = some a → kept a = true
  | .read alloc _ _ => ∀ o k, snap k ≠ some (alloc o)

/-- The count of the Film is the number of values of the array it owns: zero for a
null pointer. -/
def FilmObj.counted (h : Heap) (f : FilmObj) : Prop :=
  match f.chapters with
  | none => f.n_chapters = 0
  | some p => ∃ xs, h p = some xs ∧ xs.length = f.n_chapters

/-! ## Sample values of the library functions -/

/-- Sample values of the integer conversions and of the stream extractions. -/
theorem text_samples :
    putInt (-2147483648) = "-2147483648".toList ∧
    putNat 0 = "0".toList ∧
    atoi "-2147483648".toList = -2147483648 ∧
    atoi "12ab".toList = 12 ∧
    atoi "  +7".toList = 7 ∧
    atoi "abc".toList = 0 ∧
    atoi [] = 0 ∧
    extractWord " ab  cd".toList = ("ab".toList, "  cd".toList) ∧
    extractWord [] = ([], []) ∧
    fileLines "a\n\nb".toList = ["a".toList, [], "b".toList] ∧
    fileLines "a\n".toList = ["a".toList] := by
  decide

set_option maxRecDepth 100000 in
set_option exponentiation.threshold 3000 in
/-- Text of sample values, as `printf("%g")` gives it: `10`, `0.1`, `1 + 2^-30`,
`1234.5678`, `1e21`, `1e-5`, `123456789`, `-0.0`, `999999.5`, the least positive value
and infinity. -/
theorem putDouble_samples :
    putDouble ⟨false, 1026, 1125899906842624⟩ = "10".toList ∧
    putDouble ⟨false, 1019, 2702159776422298⟩ = "0.1".toList ∧
    putDouble ⟨false, 1023, 4194304⟩ = "1".toList ∧
    putDouble ⟨false, 1033, 926086978140845⟩ = "1234.57".toList ∧
    putDouble ⟨false, 1092, 3125794903879504⟩ = "1e+21".toList ∧
    putDouble ⟨false, 1006, 1399358476216561⟩ = "1e-05".toList ∧
    putDouble ⟨false, 1049, 3781445235507200⟩ = "1.23457e+08".toList ∧
    putDouble ⟨true, 0, 0⟩ = "-0".toList ∧
    putDouble ⟨false, 1042, 4086330669662208⟩ = "1e+06".toList ∧
    putDouble ⟨false, 0, 1⟩ = "4.94066e-324".toList ∧
    putDouble ⟨false, 2047, 0⟩ = "inf".toList := by
  decide

set_option maxRecDepth 100000 in
set_option exponentiation.threshold 3000 in
/-- Values `atof` gives for sample texts, as `strtod` gives them. -/
theorem atof_samples :
    atof "10".toList = ⟨false, 1026, 1125899906842624⟩ ∧
    atof "0.1".toList = ⟨false, 1019, 2702159776422298⟩ ∧
    atof "1".toList = ⟨false, 1023, 0⟩ ∧
    atof "1234.57".toList = ⟨false, 1033, 926096653843169⟩ ∧
    atof "1.23457e+08".toList = ⟨false, 1049, 3781459395477504⟩ ∧
    atof "1e-05".toList = ⟨false, 1006, 1399358476216561⟩ ∧
    atof "-1e400".toList = ⟨true, 2047, 0⟩ ∧
    atof "0x1p3".toList = ⟨false, 1026, 0⟩ ∧
    atof "1e+21".toList = ⟨false, 1092, 3125794903879504⟩ ∧
    atof "-0".toList = ⟨true, 0, 0⟩ ∧
    atof ".5e1x".toList = ⟨false, 1025, 1125899906842624⟩ ∧
    atof "abc".toList = ⟨false, 0, 0⟩ := by
  decide

/-! ## Auxiliary facts -/

/-- The chapter loop stays inside the array when the array holds the indices it visits. -/
theorem chapterLoop_fail_none (piece : Nat → Int → Str) (cs : List Int) :
    ∀ (k i : Nat), i + k ≤ cs.length → (chapterLoop piece cs k i).fail = none := by
  intro k
  induction k with
  | zero => intro i _; rfl
  | succ k ih =>
    intro i h
    have hi : i < cs.length := by omega
    have hget : cs[i]? = some cs[i] := List.getElem?_eq_getElem hi
    simp only [chapterLoop, hget]
    exact ih (i + 1) (by omega)

/-- Render of a Film built by the constructor from a non-null source with a positive
count returns normally. -/
theorem Film.display_fail_none_of_take (name filepath : Str) (duration : Int)
    (xs : List Int) (n : Nat) (hn : n ≤ xs.length) (hpos : 0 < n) :
    (Film.display ⟨name, filepath, duration, some (xs.take n), n⟩).fail = none := by
  have hne : n ≠ 0 := by omega
  simp only [Film.display, hne, ne_eq, not_false_eq_true, if_true]
  apply chapterLoop_fail_none
  simp [List.length_take, hn]

/-- The count of a key in a map is positive exactly when the key is bound. -/
theorem NameMap.count_pos_iff {V : Type} (m : NameMap V) (key : Str) :
    m.count key > 0 ↔ (m key).isSome = true := by
  unfold NameMap.count
  split <;> simp_all

/-! ## Text of integers and words of a line -/

theorem isdigit_cases (c : Char) (h : isdigit c = true) :
    c = '0' ∨ c = '1' ∨ c = '2' ∨ c = '3' ∨ c = '4' ∨
    c = '5' ∨ c = '6' ∨ c = '7' ∨ c = '8' ∨ c = '9' := by
  simpa [isdigit, or_assoc] using h

theorem isspace_of_isdigit (c : Char) (h : isdigit c = true) : isspace c = false := by
  rcases isdigit_cases c h with h | h | h | h | h | h | h | h | h | h <;> subst h <;> decide

theorem isdigit_digitChar (n : Nat) : isdigit (digitChar n) = true := by
  unfold digitChar
  split <;> decide

theorem digitVal_digitChar (n : Nat) (h : n < 10) : digitVal (digitChar n) = n := by
  interval_cases n <;> decide

theorem putNatAux_isdigit : ∀ (fuel n : Nat), ∀ c ∈ putNatAux fuel n, isdigit c = true := by
  intro fuel
  induction fuel with
  | zero => intro n c hc; simp [putNatAux] at hc
  | succ fuel ih =>
    intro n c hc
    unfold putNatAux at hc
    split at hc
    · simp only [List.mem_singleton] at hc
      subst hc; exact isdigit_digitChar n
    · rcases List.mem_append.mp hc with h | h
      · exact ih _ c h
      · simp only [List.mem_singleton] at h
        subst h; exact isdigit_digitChar _

theorem putNatAux_ne_nil (fuel n : Nat) : putNatAux (fuel + 1) n ≠ [] := by
  unfold putNatAux
  split <;> simp

theorem parseNat_append_singleton (xs : Str) (c : Char) :
    parseNat (xs ++ [c]) = 10 * parseNat xs + digitVal c := by
  simp [parseNat, List.foldl_append]

theorem parseNat_putNatAux : ∀ (fuel n : Nat), n < fuel → parseNat (putNatAux fuel n) = n := by
  intro fuel
  induction fuel with
  | zero => intro n h; omega
  | succ fuel ih =>
    intro n h
    unfold putNatAux
    split
    · rename_i h10
      simp [parseNat, digitVal_digitChar n h10]
    · rename_i h10
      rw [parseNat_append_singleton, ih (n / 10) (by omega),
        digitVal_digitChar (n % 10) (by omega)]
      omega

theorem putNat_isdigit (n : Nat) : ∀ c ∈ putNat n, isdigit c = true :=
  putNatAux_isdigit (n + 1) n

theorem putNat_ne_nil (n : Nat) : putNat n ≠ [] := putNatAux_ne_nil n n

theorem parseNat_putNat (n : Nat) : parseNat (putNat n) = n :=
  parseNat_putNatAux (n + 1) n (by omega)

theorem putNat_noSpace (n : Nat) : noSpace (putNat n) :=
  fun c hc => isspace_of_isdigit c (putNat_isdigit n c hc)

theorem takeWhile_isdigit_putNat (n : Nat) : (putNat n).takeWhile isdigit = putNat n := by
  rw [List.takeWhile_eq_self_iff]
  exact putNat_isdigit n

/-- Library function `atoi` reads back the text of a number within `int`. -/
theorem atoi_putNat (n : Nat) (h : (n : Int) ≤ INT_MAX) : atoi (putNat n) = n := by
  obtain ⟨c, r, hcr⟩ : ∃ c r, putNat n = c :: r := by
    cases hp : putNat n with
    | nil => exact absurd hp (putNat_ne_nil n)
    | cons c r => exact ⟨c, r, rfl⟩
  have hd : isdigit c = true := putNat_isdigit n c (by rw [hcr]; simp)
  have hs : isspace c = false := isspace_of_isdigit c hd
  have hdrop : (putNat n).dropWhile isspace = putNat n := by
    rw [hcr, List.dropWhile_cons_of_neg (by simp [hs])]
  have hminus : c ≠ '-' := by rintro rfl; exact absurd hd (by decide)
  have hplus : c ≠ '+' := by rintro rfl; exact absurd hd (by decide)
  have hneg : (match c :: r with | '-' :: _ => true | _ => false) = false := by
    split
    · rename_i heq; cases heq; exact absurd rfl hminus
    · rfl
  have hs2 : (match c :: r with | '-' :: t => t | '+' :: t => t | _ => c :: r) = c :: r := by
    split
    · rename_i heq; cases heq; exact absurd rfl hminus
    · rename_i heq; cases heq; exact absurd rfl hplus
    · rfl
  unfold atoi
  simp only [hdrop]
  rw [hcr, hneg, hs2, ← hcr, takeWhile_isdigit_putNat, parseNat_putNat]
  simp only [Bool.false_eq_true, if_false]
  unfold INT_MAX at h
  unfold clampLong toInt32
  have h0 : (0 : Int) ≤ n := Int.ofNat_nonneg n
  split
  · omega
  · split <;> omega

/-- Library function `atoi` reads back the text of every `int`. -/
theorem atoi_putInt (i : Int) (h : isInt i) : atoi (putInt i) = i := by
  unfold isInt INT_MIN INT_MAX at h
  unfold putInt
  split
  · rename_i hneg
    unfold atoi
    have hdrop : ('-' :: putNat i.natAbs).dropWhile isspace = '-' :: putNat i.natAbs :=
      List.dropWhile_cons_of_neg (by decide)
    simp only [hdrop, takeWhile_isdigit_putNat, parseNat_putNat, if_true]
    unfold clampLong toInt32
    have habs : ((i.natAbs : Nat) : Int) = -i := by omega
    rw [habs]
    split
    · omega
    · split <;> omega
  · rename_i hpos
    have habs : ((i.natAbs : Nat) : Int) = i := by omega
    have := atoi_putNat i.natAbs (by rw [habs]; exact h.2)
    rw [this, habs]

theorem putInt_noSpace (i : Int) : noSpace (putInt i) := by
  intro c hc
  unfold putInt at hc
  split at hc
  · rcases List.mem_cons.mp hc with h | h
    · subst h; decide
    · exact putNat_noSpace _ c h
  · exact putNat_noSpace _ c hc

theorem putInt_ne_nil (i : Int) : putInt i ≠ [] := by
  unfold putInt
  split
  · simp
  · exact putNat_ne_nil _

/-- A leading white space is skipped by the extraction of a word. -/
theorem extractWord_skip (c : Char) (s : Str) (h : isspace c = true) :
    extractWord (c :: s) = extractWord s := by
  simp [extractWord, List.dropWhile_cons_of_pos h]

/-- A word followed by white space or by the end of the text is extracted whole. -/
theorem extractWord_word (w rest : Str) (hne : w ≠ []) (hw : noSpace w)
    (hrest : startsBlank rest = true) : extractWord (w ++ rest) = (w, rest) := by
  obtain ⟨c, r, rfl⟩ : ∃ c r, w = c :: r := by
    cases w with
    | nil => exact absurd rfl hne
    | cons c r => exact ⟨c, r, rfl⟩
  have hc : isspace c = false := hw c (by simp)
  have hdrop : ((c :: r) ++ rest).dropWhile isspace = (c :: r) ++ rest := by
    rw [List.cons_append, List.dropWhile_cons_of_neg (by simp [hc])]
  have hall : ∀ a ∈ c :: r, (fun x => !isspace x) a = true := by
    intro a ha; simp [hw a ha]
  have htake : rest.takeWhile (fun x => !isspace x) = [] := by
    cases rest with
    | nil => rfl
    | cons d t =>
      have hd : isspace d = true := hrest
      simp [List.takeWhile_cons, hd]
  have hdr : rest.dropWhile (fun x => !isspace x) = rest := by
    cases rest with
    | nil => rfl
    | cons d t =>
      have hd : isspace d = true := hrest
      simp [List.dropWhile_cons, hd]
  unfold extractWord
  simp only [hdrop]
  rw [List.takeWhile_append_of_pos hall, List.dropWhile_append_of_pos hall, htake, hdr]
  simp

/-- A word after one space is extracted whole. -/
theorem extractWord_space_word (w rest : Str) (hne : w ≠ []) (hw : noSpace w)
    (hrest : startsBlank rest = true) : extractWord (' ' :: (w ++ rest)) = (w, rest) := by
  rw [extractWord_skip ' ' _ (by decide), extractWord_word w rest hne hw hrest]

/-- A text without `\n` followed by `\n` is delivered by `getline` as one line. -/
theorem linesAux_single (s : Str) (h : ∀ c ∈ s, c ≠ '\n') :
    ∀ cur, linesAux (s ++ ['\n']) cur = [cur ++ s] := by
  induction s with
  | nil => intro cur; simp [linesAux]
  | cons a t ih =>
    intro cur
    have ha : a ≠ '\n' := h a (by simp)
    have ht : ∀ c ∈ t, c ≠ '\n' := fun c hc => h c (by simp [hc])
    simp [linesAux, ha, ih ht]

theorem ne_newline_of_noSpace (s : Str) (h : noSpace s) : ∀ c ∈ s, c ≠ '\n' := by
  intro c hc hn
  have := h c hc
  subst hn
  exact absurd this (by decide)

theorem startsBlank_chaptersText (cs : List Int) : startsBlank (chaptersText cs) = true := by
  cases cs <;> rfl

theorem chaptersText_ne_newline : ∀ (cs : List Int), ∀ c ∈ chaptersText cs, c ≠ '\n' := by
  intro cs
  induction cs with
  | nil => intro c hc; simp [chaptersText] at hc
  | cons d ds ih =>
    intro c hc
    simp only [chaptersText, List.mem_cons, List.mem_append] at hc
    rcases hc with h | h | h
    · subst h; decide
    · exact ne_newline_of_noSpace _ (putInt_noSpace d) c h
    · exact ih c h

/-- The loop of `Film::write` over an array holding the visited indices writes the
chapter fields of the remaining chapters. -/
theorem chapterLoop_write_text (cs : List Int) :
    ∀ (k i : Nat), i + k = cs.length →
      (chapterLoop (fun _ d => ' ' :: putInt d) cs k i).text = chaptersText (cs.drop i) := by
  intro k
  induction k with
  | zero =>
    intro i h
    have : cs.drop i = [] := List.drop_eq_nil_of_le (by omega)
    simp [chapterLoop, this, chaptersText]
  | succ k ih =>
    intro i h
    have hi : i < cs.length := by omega
    have hget : cs[i]? = some cs[i] := List.getElem?_eq_getElem hi
    have hdrop : cs.drop i = cs[i] :: cs.drop (i + 1) := List.drop_eq_getElem_cons hi
    simp only [chapterLoop, hget]
    rw [ih (i + 1) (by omega), hdrop]
    simp [chaptersText]

/-- The chapter loop of `Manager::read` reads back the chapter fields of a record. -/
theorem readChapters_chaptersText :
    ∀ (cs : List Int), (∀ c ∈ cs, isInt c) → readChapters cs.length (chaptersText cs) = cs := by
  intro cs
  induction cs with
  | nil => intro _; rfl
  | cons d ds ih =>
    intro h
    have hw : extractWord (' ' :: (putInt d ++ chaptersText ds)) = (putInt d, chaptersText ds) :=
      extractWord_space_word _ _ (putInt_ne_nil d) (putInt_noSpace d) (startsBlank_chaptersText ds)
    simp only [List.length_cons, readChapters, chaptersText, hw]
    rw [atoi_putInt d (h d (by simp)), ih (fun c hc => h c (by simp [hc]))]

/-- The body of the read loop on a Video record calls `createVideo` with the fields
of the record. -/
theorem Manager.readLine_video (m : Manager) (name filepath : Str) (duration : Int)
    (hn : name ≠ []) (hns : noSpace name) (hf : filepath ≠ []) (hfs : noSpace filepath)
    (hd : isInt duration) :
    m.readLine ("Video ".toList ++ name ++ " ".toList ++ filepath ++ " ".toList ++ putInt duration)
      = afterCreate (m.createVideo name filepath duration) := by
  have hshape : "Video ".toList ++ name ++ " ".toList ++ filepath ++ " ".toList ++ putInt duration
      = "Video".toList ++ (' ' :: (name ++ (' ' :: (filepath ++ (' ' :: (putInt duration ++ [])))))) := by
    simp
  have h0 : extractWord ("Video".toList ++
      (' ' :: (name ++ (' ' :: (filepath ++ (' ' :: (putInt duration ++ [])))))))
      = ("Video".toList, ' ' :: (name ++ (' ' :: (filepath ++ (' ' :: (putInt duration ++ [])))))) :=
    extractWord_word _ _ (by decide) (by decide) rfl
  have h1 : extractWord (' ' :: (name ++ (' ' :: (filepath ++ (' ' :: (putInt duration ++ []))))))
      = (name, ' ' :: (filepath ++ (' ' :: (putInt duration ++ [])))) :=
    extractWord_space_word _ _ hn hns rfl
  have h2 : extractWord (' ' :: (filepath ++ (' ' :: (putInt duration ++ []))))
      = (filepath, ' ' :: (putInt duration ++ [])) :=
    extractWord_space_word _ _ hf hfs rfl
  have h3 : extractWord (' ' :: (putInt duration ++ [])) = (putInt duration, []) :=
    extractWord_space_word _ _ (putInt_ne_nil _) (putInt_noSpace _) rfl
  have hv : ("Video".toList = "Photo".toList) = False := by decide
  rw [hshape]
  simp only [Manager.readLine, h0, hv, if_false, if_true, Manager.readVideo, h1, h2, h3,
    atoi_putInt duration hd]

/-- The body of the read loop on a Film record reads the name, the file path and
the duration, and decides on the value `atoi` gives for the count field. -/
theorem Manager.readLine_film_fields (m : Manager) (name filepath : Str) (duration : Int)
    (n : Nat) (rest : Str) (hn : name ≠ []) (hns : noSpace name) (hf : filepath ≠ [])
    (hfs : noSpace filepath) (hd : isInt duration) (hrest : startsBlank rest = true) :
    m.readLine ("Film ".toList ++ name ++ " ".toList ++ filepath ++ " ".toList
        ++ putInt duration ++ " ".toList ++ putNat n ++ rest)
      = if atoi (putNat n) ≠ 0 then
          if atoi (putNat n) < 0 then (m, some (.error .badArrayNewLength))
          else afterCreate (m.createFilm name filepath duration
            (some (readChapters (atoi (putNat n)).toNat rest)) (atoi (putNat n)).toNat)
        else (m, some (.error (.invalidArgument "Chapters cannot be empty!".toList))) := by
  have hshape : "Film ".toList ++ name ++ " ".toList ++ filepath ++ " ".toList
        ++ putInt duration ++ " ".toList ++ putNat n ++ rest
      = "Film".toList ++ (' ' :: (name ++ (' ' :: (filepath ++ (' ' :: (putInt duration ++
          (' ' :: (putNat n ++ rest)))))))) := by
    simp
  have h0 : extractWord ("Film".toList ++ (' ' :: (name ++ (' ' :: (filepath ++
        (' ' :: (putInt duration ++ (' ' :: (putNat n ++ rest)))))))))
      = ("Film".toList, ' ' :: (name ++ (' ' :: (filepath ++
        (' ' :: (putInt duration ++ (' ' :: (putNat n ++ rest)))))))) :=
    extractWord_word _ _ (by decide) (by decide) rfl
  have h1 : extractWord (' ' :: (name ++ (' ' :: (filepath ++
        (' ' :: (putInt duration ++ (' ' :: (putNat n ++ rest))))))))
      = (name, ' ' :: (filepath ++
        (' ' :: (putInt duration ++ (' ' :: (putNat n ++ rest)))))) :=
    extractWord_space_word _ _ hn hns rfl
  have h2 : extractWord (' ' :: (filepath ++
        (' ' :: (putInt duration ++ (' ' :: (putNat n ++ rest))))))
      = (filepath, ' ' :: (putInt duration ++ (' ' :: (putNat n ++ rest)))) :=
    extractWord_space_word _ _ hf hfs rfl
  have h3 : extractWord (' ' :: (putInt duration ++ (' ' :: (putNat n ++ rest))))
      = (putInt duration, ' ' :: (putNat n ++ rest)) :=
    extractWord_space_word _ _ (putInt_ne_nil _) (putInt_noSpace _) rfl
  have h4 : extractWord (' ' :: (putNat n ++ rest)) = (putNat n, rest) :=
    extractWord_space_word _ _ (putNat_ne_nil _) (putNat_noSpace _) hrest
  have hv1 : ("Film".toList = "Photo".toList) = False := by decide
  have hv2 : ("Film".toList = "Video".toList) = False := by decide
  rw [hshape]
  simp only [Manager.readLine, h0, hv1, hv2, if_false, if_true, Manager.readFilm, h1, h2, h3, h4,
    atoi_putInt duration hd]

/-- The body of the read loop on a Film record with a positive count followed by
that many chapter fields calls `createFilm` with the fields of the record. -/
theorem Manager.readLine_film (m : Manager) (name filepath : Str) (duration : Int)
    (cs : List Int) (hn : name ≠ []) (hns : noSpace name) (hf : filepath ≠ [])
    (hfs : noSpace filepath) (hd : isInt duration) (hpos : 0 < cs.length)
    (hmax : (cs.length : Int) ≤ INT_MAX) (hcs : ∀ c ∈ cs, isInt c) :
    m.readLine ("Film ".toList ++ name ++ " ".toList ++ filepath ++ " ".toList
        ++ putInt duration ++ " ".toList ++ putNat cs.length ++ chaptersText cs)
      = afterCreate (m.createFilm name filepath duration (some cs) cs.length) := by
  have hne : ((cs.length : Nat) : Int) ≠ 0 := by omega
  have hnn : ¬ (((cs.length : Nat) : Int) < 0) := by omega
  rw [Manager.readLine_film_fields m name filepath duration cs.length (chaptersText cs)
    hn hns hf hfs hd (startsBlank_chaptersText cs)]
  simp only [atoi_putNat cs.length hmax, hne, hnn, ne_eq, not_false_eq_true, if_true, if_false,
    Int.toNat_ofNat, readChapters_chaptersText cs hcs]

/-! ## Creation and lookup -/

/-- C1 (as stated, refuted): in the empty catalog `createFilm` with a non-null
source and a declared count of zero succeeds under the fresh name `f`, yet
`searchAndDisplay` of that name does not succeed: it ends in `exit(EXIT_FAILURE)`. -/
theorem C1_createFilm_zero_chapters_search_exits :
    Manager.empty.mediaCollection "f".toList = none ∧
    (Manager.empty.createFilm "f".toList "p".toList 0 (some []) 0).2
      = .ok ⟨"f".toList, "p".toList, 0, some [], 0⟩ ∧
    ((Manager.empty.createFilm "f".toList "p".toList 0 (some []) 0).1.searchAndDisplay
      "f".toList).2 = ⟨[], some (Err.exit EXIT_FAILURE)⟩ := by
  decide

/-- C1 (amended): for every catalog and every name absent from the entity store,
`createPhoto`, `createVideo` and `createFilm` (non-null source holding at least
the declared count) succeed, return the entity with exactly the given fields,
bind the name to it in the entity store and in `getMedias()`;
`searchAndDisplay` of the name then gives exactly the render of
that entity, which returns normally for a Photo, a Video and a Film with at
least one chapter, and ends in `exit` for a Film with a declared count of zero. -/
theorem C1_create_then_search (m : Manager) (name filepath : Str)
    (habsent : m.mediaCollection name = none) :
    (∀ (latitude longitude : Dbl),
      let p : Photo := ⟨name, filepath, latitude, longitude⟩
      let r := m.createPhoto name filepath latitude longitude
      r.2 = .ok p ∧ r.1.mediaCollection name = some (.photo p) ∧
      r.1.getMedias name = some (.photo p) ∧
      r.1.searchAndDisplay name = (r.1, p.display) ∧ p.display.fail = none) ∧
    (∀ (duration : Int),
      let v : Video := ⟨name, filepath, duration⟩
      let r := m.createVideo name filepath duration
      r.2 = .ok v ∧ r.1.mediaCollection name = some (.video v) ∧
      r.1.getMedias name = some (.video v) ∧
      r.1.searchAndDisplay name = (r.1, v.display) ∧ v.display.fail = none) ∧
    (∀ (duration : Int) (xs : List Int) (n : Nat), n ≤ xs.length →
      let f : Film := ⟨name, filepath, duration, some (xs.take n), n⟩
      let r := m.createFilm name filepath duration (some xs) n
      r.2 = .ok f ∧ r.1.mediaCollection name = some (.film f) ∧
      r.1.getMedias name = some (.film f) ∧
      r.1.searchAndDisplay name = (r.1, f.display) ∧
      (0 < n → f.display.fail = none) ∧
      (n = 0 → f.display = ⟨[], some (Err.exit EXIT_FAILURE)⟩)) := by
  have hc : ¬ (m.mediaCollection.count name > 0) := by
    rw [NameMap.count_pos_iff, habsent]; simp
  refine ⟨?_, ?_, ?_⟩
  · intro latitude longitude
    simp [Manager.createPhoto, hc, Manager.getMedias, Manager.searchAndDisplay,
      NameMap.assign, Multimedia.display, Photo.display]
  · intro duration
    simp [Manager.createVideo, hc, Manager.getMedias, Manager.searchAndDisplay,
      NameMap.assign, Multimedia.display, Video.display]
  · intro duration xs n hn
    refine ⟨?_, ?_, ?_, ?_, ?_, ?_⟩
    · simp [Manager.createFilm, Film.construct, hn, hc]
    · simp [Manager.createFilm, Film.construct, hn, hc, NameMap.assign]
    · simp [Manager.createFilm, Film.construct, hn, hc, NameMap.assign, Manager.getMedias]
    · simp [Manager.createFilm, Film.construct, hn, hc, NameMap.assign,
        Manager.searchAndDisplay, Multimedia.display]
    · intro hpos
      exact Film.display_fail_none_of_take name filepath duration xs n hn hpos
    · intro h0
      subst h0
      simp [Film.display]

/-- C1 (amended), instance: the three creations in the empty catalog under the
name `f1`, the Film with the chapters `[10, 10]`. -/
theorem C1_create_then_search_witness :
    (Manager.empty.createFilm "f1".toList "/z.mp4".toList 20 (some [10, 10]) 2).2
        = .ok ⟨"f1".toList, "/z.mp4".toList, 20, some [10, 10], 2⟩ ∧
    (Film.display ⟨"f1".toList, "/z.mp4".toList, 20, some [10, 10], 2⟩).fail = none :=
  have h := (C1_create_then_search Manager.empty "f1".toList "/z.mp4".toList rfl).2.2
    20 [10, 10] 2 (by decide)
  ⟨h.1, h.2.2.2.2.1 (by decide)⟩

/-- C2: for every catalog and every name already bound in the entity store,
`createPhoto`, `createVideo` and `createFilm` (non-null source holding at least
the declared count) raise `NamingError` with the message of a name that
already exists, and the catalog after the call is the catalog before it. -/
theorem C2_create_duplicate_name (m : Manager) (name filepath : Str) (e : Multimedia)
    (hpresent : m.mediaCollection name = some e) :
    (∀ (latitude longitude : Dbl),
      m.createPhoto name filepath latitude longitude
        = (m, .error (.namingError "Photo name already exists!".toList))) ∧
    (∀ (duration : Int),
      m.createVideo name filepath duration
        = (m, .error (.namingError "Video name already exists!".toList))) ∧
    (∀ (duration : Int) (xs : List Int) (n : Nat), n ≤ xs.length →
      m.createFilm name filepath duration (some xs) n
        = (m, .error (.namingError "Film name already exists!".toList))) := by
  have hc : m.mediaCollection.count name > 0 := by
    rw [NameMap.count_pos_iff, hpresent]; rfl
  refine ⟨?_, ?_, ?_⟩
  · intro latitude longitude
    simp [Manager.createPhoto, hc]
  · intro duration
    simp [Manager.createVideo, hc]
  · intro duration xs n hn
    simp [Manager.createFilm, Film.construct, hn, hc]

/-- C2, instance: a second `createVideo` under the name `v1`. -/
theorem C2_create_duplicate_name_witness :
    (Manager.empty.createVideo "v1".toList "/y.mp4".toList 10).1.createVideo
        "v1".toList "/other.mp4".toList 7
      = ((Manager.empty.createVideo "v1".toList "/y.mp4".toList 10).1,
          .error (.namingError "Video name already exists!".toList)) :=
  (C2_create_duplicate_name (Manager.empty.createVideo "v1".toList "/y.mp4".toList 10).1
    "v1".toList "/other.mp4".toList (.video ⟨"v1".toList, "/y.mp4".toList, 10⟩)
    (by decide)).2.1 7

/-- Reading a file that holds one line `body` runs the loop body once on `body`. -/
theorem Manager.read_single_line (m : Manager) (fs : Files) (filename body : Str)
    (hfile : (fs filename).getD [] = []) (hbody : ∀ c ∈ body, c ≠ '\n') :
    m.read (appendFile fs filename (body ++ ['\n'])) filename = m.readLines [body] := by
  simp [Manager.read, appendFile, hfile, fileLines, linesAux_single body hbody]

/-! ## Text of a `double` -/

theorem noSpace_nil : noSpace [] := fun _ h => absurd h (List.not_mem_nil _)

theorem noSpace_cons {c : Char} {s : Str} (hc : isspace c = false) (hs : noSpace s) :
    noSpace (c :: s) := by
  intro a ha
  rcases List.mem_cons.mp ha with h | h
  · subst h; exact hc
  · exact hs a h

theorem noSpace_append {a b : Str} (ha : noSpace a) (hb : noSpace b) : noSpace (a ++ b) := by
  intro c hc
  rcases List.mem_append.mp hc with h | h
  · exact ha c h
  · exact hb c h

theorem noSpace_take {s : Str} (n : Nat) (hs : noSpace s) : noSpace (s.take n) :=
  fun c hc => hs c (List.mem_of_mem_take hc)

theorem noSpace_drop {s : Str} (n : Nat) (hs : noSpace s) : noSpace (s.drop n) :=
  fun c hc => hs c (List.mem_of_mem_drop hc)

theorem noSpace_replicate_zero (n : Nat) : noSpace (List.replicate n '0') := by
  intro c hc
  rw [List.eq_of_mem_replicate hc]
  decide

theorem noSpace_stripZeros {s : Str} (hs : noSpace s) : noSpace (stripZeros s) := by
  intro c hc
  unfold stripZeros at hc
  have h1 := List.mem_reverse.mp hc
  have h2 := List.dropWhile_subset _ h1
  exact hs c (List.mem_reverse.mp h2)

theorem noSpace_fracText {s : Str} (hs : noSpace s) : noSpace (fracText s) := by
  unfold fracText
  split
  · exact noSpace_nil
  · exact noSpace_cons (by decide) (noSpace_stripZeros hs)

theorem noSpace_expText (x : Int) : noSpace (expText x) := by
  unfold expText
  refine noSpace_cons (by decide) (noSpace_cons ?_ ?_)
  · split <;> decide
  · split
    · exact noSpace_cons (by decide) (putNat_noSpace _)
    · exact putNat_noSpace _

theorem take_succ_ne_nil {s : Str} (n : Nat) (hs : s ≠ []) : s.take (n + 1) ≠ [] := by
  cases s with
  | nil => exact absurd rfl hs
  | cons c r => simp

theorem putFinite_noSpace (num den : Nat) : noSpace (putFinite num den) := by
  unfold putFinite
  have hds := putNat_noSpace (sigDigits num den).1
  simp only
  split
  · split
    · exact noSpace_append (noSpace_take _ hds) (noSpace_fracText (noSpace_drop _ hds))
    · exact noSpace_cons (by decide)
        (noSpace_fracText (noSpace_append (noSpace_replicate_zero _) hds))
  · exact noSpace_append (noSpace_append (noSpace_take _ hds)
      (noSpace_fracText (noSpace_drop _ hds))) (noSpace_expText _)

theorem putFinite_ne_nil (num den : Nat) : putFinite num den ≠ [] := by
  unfold putFinite
  have hds := putNat_ne_nil (sigDigits num den).1
  simp only
  split
  · split
    · intro h
      exact take_succ_ne_nil _ hds (List.append_eq_nil.mp h).1
    · simp
  · intro h
    have h1 := (List.append_eq_nil.mp h).1
    exact take_succ_ne_nil 0 hds (List.append_eq_nil.mp h1).1

/-- The text of a `double` holds no white space. -/
theorem putDouble_noSpace (d : Dbl) : noSpace (putDouble d) := by
  unfold putDouble
  have hbody : noSpace (if 2047 ≤ d.expo then (if d.frac = 0 then ['i', 'n', 'f'] else ['n', 'a', 'n'])
      else if d.mant = 0 then ['0'] else putFinite d.num d.den) := by
    split
    · split <;> decide
    · split
      · decide
      · exact putFinite_noSpace _ _
  simp only
  split
  · exact noSpace_cons (by decide) hbody
  · exact hbody

/-- The text of a `double` is not empty. -/
theorem putDouble_ne_nil (d : Dbl) : putDouble d ≠ [] := by
  unfold putDouble
  simp only
  split
  · simp
  · split
    · split <;> simp
    · split
      · simp
      · exact putFinite_ne_nil _ _

/-- The body of the read loop on a Photo record calls `createPhoto` with the name,
the file path and the values `atof` gives for the two coordinate fields. -/
theorem Manager.readLine_photo (m : Manager) (name filepath : Str) (latitude longitude : Dbl)
    (hn : name ≠ []) (hns : noSpace name) (hf : filepath ≠ []) (hfs : noSpace filepath) :
    m.readLine ("Photo ".toList ++ name ++ " ".toList ++ filepath ++ " ".toList
        ++ putDouble latitude ++ " ".toList ++ putDouble longitude)
      = afterCreate (m.createPhoto name filepath (atof (putDouble latitude))
          (atof (putDouble longitude))) := by
  have hshape : "Photo ".toList ++ name ++ " ".toList ++ filepath ++ " ".toList
        ++ putDouble latitude ++ " ".toList ++ putDouble longitude
      = "Photo".toList ++ (' ' :: (name ++ (' ' :: (filepath ++ (' ' :: (putDouble latitude ++
          (' ' :: (putDouble longitude ++ [])))))))) := by
    simp
  have h0 : extractWord ("Photo".toList ++ (' ' :: (name ++ (' ' :: (filepath ++
        (' ' :: (putDouble latitude ++ (' ' :: (putDouble longitude ++ [])))))))))
      = ("Photo".toList, ' ' :: (name ++ (' ' :: (filepath ++
        (' ' :: (putDouble latitude ++ (' ' :: (putDouble longitude ++ [])))))))) :=
    extractWord_word _ _ (by decide) (by decide) rfl
  have h1 : extractWord (' ' :: (name ++ (' ' :: (filepath ++
        (' ' :: (putDouble latitude ++ (' ' :: (putDouble longitude ++ [])))))))) 
      = (name, ' ' :: (filepath ++
        (' ' :: (putDouble latitude ++ (' ' :: (putDouble longitude ++ [])))))) :=
    extractWord_space_word _ _ hn hns rfl
  have h2 : extractWord (' ' :: (filepath ++
        (' ' :: (putDouble latitude ++ (' ' :: (putDouble longitude ++ []))))))
      = (filepath, ' ' :: (putDouble latitude ++ (' ' :: (putDouble longitude ++ [])))) :=
    extractWord_space_word _ _ hf hfs rfl
  have h3 : extractWord (' ' :: (putDouble latitude ++ (' ' :: (putDouble longitude ++ []))))
      = (putDouble latitude, ' ' :: (putDouble longitude ++ [])) :=
    extractWord_space_word _ _ (putDouble_ne_nil _) (putDouble_noSpace _) rfl
  have h4 : extractWord (' ' :: (putDouble longitude ++ [])) = (putDouble longitude, []) :=
    extractWord_space_word _ _ (putDouble_ne_nil _) (putDouble_noSpace _) rfl
  rw [hshape]
  simp only [Manager.readLine, h0, if_true, Manager.readPhoto, h1, h2, h3, h4]

/-- Writing a Photo to an absent or empty file and reading the file into the empty
catalog installs the Photo whose coordinates are read back from their text. -/
theorem Manager.read_write_photo (fs : Files) (filename : Str)
    (hfile : (fs filename).getD [] = []) (p : Photo)
    (hn : p.name ≠ []) (hns : noSpace p.name) (hf : p.filepath ≠ []) (hfs : noSpace p.filepath) :
    Manager.empty.read (p.write filename fs).1 filename
      = (⟨NameMap.assign (fun _ => none) p.name
          (.photo ⟨p.name, p.filepath, atof (putDouble p.latitude),
            atof (putDouble p.longitude)⟩), fun _ => none⟩, .ok ()) := by
  have hbody : ∀ c ∈ "Photo ".toList ++ p.name ++ " ".toList ++ p.filepath ++ " ".toList
      ++ putDouble p.latitude ++ " ".toList ++ putDouble p.longitude, c ≠ '\n' := by
    intro c hc
    simp only [List.mem_append] at hc
    rcases hc with ((((((h | h) | h) | h) | h) | h) | h) | h
    · intro hc'; subst hc'; exact absurd h (by decide)
    · exact ne_newline_of_noSpace _ hns c h
    · intro hc'; subst hc'; exact absurd h (by decide)
    · exact ne_newline_of_noSpace _ hfs c h
    · intro hc'; subst hc'; exact absurd h (by decide)
    · exact ne_newline_of_noSpace _ (putDouble_noSpace _) c h
    · intro hc'; subst hc'; exact absurd h (by decide)
    · exact ne_newline_of_noSpace _ (putDouble_noSpace _) c h
  have hw : (p.write filename fs).1 = appendFile fs filename
      (("Photo ".toList ++ p.name ++ " ".toList ++ p.filepath ++ " ".toList
        ++ putDouble p.latitude ++ " ".toList ++ putDouble p.longitude) ++ ['\n']) := by
    simp [Photo.write]
  rw [hw, Manager.read_single_line _ _ _ _ hfile hbody]
  simp only [Manager.readLines]
  rw [Manager.readLine_photo _ _ _ _ _ hn hns hf hfs]
  simp [afterCreate, Manager.createPhoto, Manager.empty, NameMap.count]

/-! ## Write then read -/

/-- Writing a Film that holds its `n_chapters ≥ 1` chapters to an absent or empty
file succeeds, and reading the file runs the loop body once, on the record of
the Film. -/
theorem Manager.read_write_film (m : Manager) (fs : Files) (filename : Str)
    (hfile : (fs filename).getD [] = []) (f : Film) (cs : List Int)
    (hns : noSpace f.name) (hfs : noSpace f.filepath)
    (hch : f.chapters = some cs) (hlen : cs.length = f.n_chapters) (hpos : 0 < f.n_chapters) :
    (f.write filename fs).2 = none ∧
    m.read (f.write filename fs).1 filename
      = m.readLines ["Film ".toList ++ f.name ++ " ".toList ++ f.filepath ++ " ".toList
          ++ putInt f.duration ++ " ".toList ++ putNat f.n_chapters ++ chaptersText cs] := by
  have hne : f.n_chapters ≠ 0 := by omega
  have hfail : f.writeChapters.fail = none := by
    simp only [Film.writeChapters, hch, hne, ne_eq, not_false_eq_true, if_true]
    exact chapterLoop_fail_none _ cs _ 0 (by omega)
  have htext : f.writeChapters.text = chaptersText cs := by
    simp only [Film.writeChapters, hch, hne, ne_eq, not_false_eq_true, if_true]
    rw [chapterLoop_write_text cs f.n_chapters 0 (by omega)]
    rfl
  have hbody : ∀ c ∈ "Film ".toList ++ f.name ++ " ".toList ++ f.filepath ++ " ".toList
      ++ putInt f.duration ++ " ".toList ++ putNat f.n_chapters ++ chaptersText cs, c ≠ '\n' := by
    intro c hc
    simp only [List.mem_append] at hc
    rcases hc with (((((((h | h) | h) | h) | h) | h) | h) | h) | h
    · intro hc'; subst hc'; exact absurd h (by decide)
    · exact ne_newline_of_noSpace _ hns c h
    · intro hc'; subst hc'; exact absurd h (by decide)
    · exact ne_newline_of_noSpace _ hfs c h
    · intro hc'; subst hc'; exact absurd h (by decide)
    · exact ne_newline_of_noSpace _ (putInt_noSpace _) c h
    · intro hc'; subst hc'; exact absurd h (by decide)
    · exact ne_newline_of_noSpace _ (putNat_noSpace _) c h
    · exact chaptersText_ne_newline cs c h
  have hw : f.write filename fs = (appendFile fs filename
      (("Film ".toList ++ f.name ++ " ".toList ++ f.filepath ++ " ".toList
        ++ putInt f.duration ++ " ".toList ++ putNat f.n_chapters ++ chaptersText cs)
        ++ ['\n']), none) := by
    simp [Film.write, hfail, htext]
  refine ⟨by rw [hw], ?_⟩
  rw [hw]
  simp only []
  rw [Manager.read_single_line _ _ _ _ hfile hbody]

/-- A Film record whose count field is `2147483648` makes the body of the read loop
throw `std::bad_array_new_length`: `atoi` gives `-2147483648` for that field. -/
theorem Manager.readLines_film_count_beyond_int (m : Manager) (rest : Str)
    (hrest : startsBlank rest = true) :
    m.readLines ["Film ".toList ++ "f".toList ++ " ".toList ++ "p".toList ++ " ".toList
        ++ putInt 0 ++ " ".toList ++ putNat 2147483648 ++ rest]
      = (m, .error .badArrayNewLength) := by
  have hatoi : atoi (putNat 2147483648) = -2147483648 := by decide
  simp only [Manager.readLines]
  rw [Manager.readLine_film_fields m "f".toList "p".toList 0 2147483648 rest (by decide)
    (by decide) (by decide) (by decide) (by decide) hrest, hatoi]
  simp

/-- C3 (as stated, refuted): the Film `f` with `2147483648` chapters, all `0`, is
written as one line whose count field is `2147483648`; `read` of that file
into the empty catalog gets `-2147483648` from `atoi` for the count, so that
`new int[chaptersNum]` throws `std::bad_array_new_length`: `read` raises and no
entity is installed. -/
theorem C3_film_count_beyond_int_not_restored :
    (Film.write ⟨"f".toList, "p".toList, 0, some (List.replicate 2147483648 0), 2147483648⟩
      "db".toList (fun _ => none)).2 = none ∧
    Manager.empty.read
      (Film.write ⟨"f".toList, "p".toList, 0, some (List.replicate 2147483648 0), 2147483648⟩
        "db".toList (fun _ => none)).1 "db".toList
      = (Manager.empty, .error .badArrayNewLength) := by
  have h := Manager.read_write_film Manager.empty (fun _ => none) "db".toList rfl
    ⟨"f".toList, "p".toList, 0, some (List.replicate 2147483648 0), 2147483648⟩
    (List.replicate 2147483648 0) (by decide) (by decide) rfl (List.length_replicate _ _)
    (by decide)
  refine ⟨h.1, ?_⟩
  rw [h.2]
  exact Manager.readLines_film_count_beyond_int Manager.empty _ (startsBlank_chaptersText _)

/-- C3 (amended): for every Video, and for every Film whose array holds its
`n_chapters` chapters with `1 ≤ n_chapters ≤ INT_MAX`, with non-empty names and
file paths free of white space (durations being values of `int`), `write` into
a file that is absent or empty followed by `read` of that file into the empty
catalog returns normally, and the catalog then holds exactly one entity, bound
to the name: the Video, respectively the Film, that was written, with the same
name, file path, duration and chapters in the same order. -/
theorem C3_write_then_read (fs : Files) (filename : Str)
    (hfile : (fs filename).getD [] = []) :
    (∀ v : Video, v.name ≠ [] → noSpace v.name → v.filepath ≠ [] → noSpace v.filepath →
      isInt v.duration →
      (v.write filename fs).2 = none ∧
      Manager.empty.read (v.write filename fs).1 filename
        = (⟨NameMap.assign (fun _ => none) v.name (.video v), fun _ => none⟩, .ok ())) ∧
    (∀ (f : Film) (cs : List Int), f.name ≠ [] → noSpace f.name → f.filepath ≠ [] →
      noSpace f.filepath → isInt f.duration → f.chapters = some cs →
      cs.length = f.n_chapters → 0 < f.n_chapters → (f.n_chapters : Int) ≤ INT_MAX →
      (∀ c ∈ cs, isInt c) →
      (f.write filename fs).2 = none ∧
      Manager.empty.read (f.write filename fs).1 filename
        = (⟨NameMap.assign (fun _ => none) f.name (.film f), fun _ => none⟩, .ok ())) := by
  refine ⟨?_, ?_⟩
  · intro v hn hns hf hfs hd
    refine ⟨rfl, ?_⟩
    have hbody : ∀ c ∈ "Video ".toList ++ v.name ++ " ".toList ++ v.filepath ++ " ".toList
        ++ putInt v.duration, c ≠ '\n' := by
      intro c hc
      simp only [List.mem_append] at hc
      rcases hc with ((((h | h) | h) | h) | h) | h
      · intro hc'; subst hc'; exact absurd h (by decide)
      · exact ne_newline_of_noSpace _ hns c h
      · intro hc'; subst hc'; exact absurd h (by decide)
      · exact ne_newline_of_noSpace _ hfs c h
      · intro hc'; subst hc'; exact absurd h (by decide)
      · exact ne_newline_of_noSpace _ (putInt_noSpace _) c h
    have hw : (v.write filename fs).1 = appendFile fs filename
        (("Video ".toList ++ v.name ++ " ".toList ++ v.filepath ++ " ".toList
          ++ putInt v.duration) ++ ['\n']) := by
      simp [Video.write]
    rw [hw, Manager.read_single_line _ _ _ _ hfile hbody]
    simp only [Manager.readLines]
    rw [Manager.readLine_video _ _ _ _ hn hns hf hfs hd]
    simp [afterCreate, Manager.createVideo, Manager.empty, NameMap.count]
  · intro f cs hn hns hf hfs hd hch hlen hpos hmax hcs
    have h := Manager.read_write_film Manager.empty fs filename hfile f cs hns hfs hch hlen hpos
    have hpos' : 0 < cs.length := by omega
    have hmax' : (cs.length : Int) ≤ INT_MAX := by rw [hlen]; exact hmax
    have hfilm : (⟨f.name, f.filepath, f.duration, some cs, cs.length⟩ : Film) = f := by
      cases f
      simp only [Film.mk.injEq, true_and]
      exact ⟨hch.symm, hlen⟩
    refine ⟨h.1, ?_⟩
    rw [h.2, ← hlen]
    simp only [Manager.readLines]
    rw [Manager.readLine_film _ _ _ _ cs hn hns hf hfs hd hpos' hmax' hcs]
    simp [afterCreate, Manager.createFilm, Film.construct, Manager.empty, NameMap.count, hfilm]

/-- C3, instance: the Video `v1` and the Film `f1` with the chapters `[10, 10]`,
written to the absent file `db`. -/
theorem C3_write_then_read_witness :
    Manager.empty.read
        ((⟨"v1".toList, "/y.mp4".toList, 10⟩ : Video).write "db".toList (fun _ => none)).1
        "db".toList
      = (⟨NameMap.assign (fun _ => none) "v1".toList
          (.video ⟨"v1".toList, "/y.mp4".toList, 10⟩), fun _ => none⟩, .ok ()) ∧
    Manager.empty.read
        ((⟨"f1".toList, "/z.mp4".toList, 20, some [10, 10], 2⟩ : Film).write "db".toList
          (fun _ => none)).1 "db".toList
      = (⟨NameMap.assign (fun _ => none) "f1".toList
          (.film ⟨"f1".toList, "/z.mp4".toList, 20, some [10, 10], 2⟩), fun _ => none⟩, .ok ()) :=
  ⟨((C3_write_then_read (fun _ => none) "db".toList rfl).1
      ⟨"v1".toList, "/y.mp4".toList, 10⟩ (by decide) (by decide) (by decide) (by decide)
      (by decide)).2,
   ((C3_write_then_read (fun _ => none) "db".toList rfl).2
      ⟨"f1".toList, "/z.mp4".toList, 20, some [10, 10], 2⟩ [10, 10] (by decide) (by decide)
      (by decide) (by decide) (by decide) rfl rfl (by decide) (by decide) (by decide)).2⟩

set_option maxRecDepth 100000 in
set_option exponentiation.threshold 3000 in
/-- C4 (as stated, refuted): the Photo `p1` with latitude `48.858844` and longitude
`2.294351` (the nearest values of `double`) is written as the line
`Photo p1 /x.jpg 48.8588 2.29435`; reading that file into the empty catalog
installs a Photo whose coordinates are the values of `double` nearest to
`48.8588` and `2.29435`, which are other values. -/
theorem C4_photo_coordinates_not_restored :
    (Photo.write ⟨"p1".toList, "/x.jpg".toList, ⟨false, 1028, 2372671361134291⟩,
        ⟨false, 1024, 662819526958066⟩⟩ "db".toList (fun _ => none)).1 "db".toList
      = some "Photo p1 /x.jpg 48.8588 2.29435\n".toList ∧
    (Manager.empty.read (Photo.write ⟨"p1".toList, "/x.jpg".toList,
        ⟨false, 1028, 2372671361134291⟩, ⟨false, 1024, 662819526958066⟩⟩
        "db".toList (fun _ => none)).1 "db".toList).1.mediaCollection "p1".toList
      = some (.photo ⟨"p1".toList, "/x.jpg".toList, ⟨false, 1028, 2372665168684804⟩,
          ⟨false, 1024, 662817275158253⟩⟩) ∧
    (⟨false, 1028, 2372665168684804⟩ : Dbl) ≠ ⟨false, 1028, 2372671361134291⟩ ∧
    (⟨false, 1024, 662817275158253⟩ : Dbl) ≠ ⟨false, 1024, 662819526958066⟩ := by
  decide

/-- C4 (amended): for every Photo whose name and file path are non-empty and free
of white space, and for every latitude and longitude, `write` into a file that
is absent or empty followed by `read` of that file into the empty catalog
returns normally and installs exactly one entity, a Photo with the same name
and file path whose coordinates are the values `atof` reads back from the text
`os << x` wrote for them; when that text gives back the coordinate itself, for
both coordinates, the Photo installed is the Photo written. -/
theorem C4_photo_write_then_read (fs : Files) (filename : Str)
    (hfile : (fs filename).getD [] = []) (p : Photo)
    (hn : p.name ≠ []) (hns : noSpace p.name) (hf : p.filepath ≠ []) (hfs : noSpace p.filepath) :
    Manager.empty.read (p.write filename fs).1 filename
      = (⟨NameMap.assign (fun _ => none) p.name
          (.photo ⟨p.name, p.filepath, atof (putDouble p.latitude),
            atof (putDouble p.longitude)⟩), fun _ => none⟩, .ok ()) ∧
    (atof (putDouble p.latitude) = p.latitude → atof (putDouble p.longitude) = p.longitude →
      Manager.empty.read (p.write filename fs).1 filename
        = (⟨NameMap.assign (fun _ => none) p.name (.photo p), fun _ => none⟩, .ok ())) := by
  have h := Manager.read_write_photo fs filename hfile p hn hns hf hfs
  refine ⟨h, ?_⟩
  intro hlat hlon
  rw [h, hlat, hlon]

set_option maxRecDepth 100000 in
set_option exponentiation.threshold 3000 in
/-- C4 (amended), instance: the Photo `test-photo` with both coordinates `10`. -/
theorem C4_photo_write_then_read_witness :
    Manager.empty.read (Photo.write ⟨"test-photo".toList, "/test-photo.JPG".toList,
        ⟨false, 1026, 1125899906842624⟩, ⟨false, 1026, 1125899906842624⟩⟩ "db".toList
        (fun _ => none)).1 "db".toList
      = (⟨NameMap.assign (fun _ => none) "test-photo".toList
          (.photo ⟨"test-photo".toList, "/test-photo.JPG".toList,
            ⟨false, 1026, 1125899906842624⟩, ⟨false, 1026, 1125899906842624⟩⟩),
          fun _ => none⟩, .ok ()) :=
  (C4_photo_write_then_read (fun _ => none) "db".toList rfl
    ⟨"test-photo".toList, "/test-photo.JPG".toList, ⟨false, 1026, 1125899906842624⟩,
      ⟨false, 1026, 1125899906842624⟩⟩ (by decide) (by decide) (by decide) (by decide)).2
    (by decide) (by decide)

/-! ## Copy of a Film through the Manager -/

/-- The chapter count of a copy-constructed Film is the value read for the
unassigned member, whatever the count of the source. -/
theorem Film.copyConstruct_n_chapters (indet : Nat) (otherFilm f : Film)
    (h : Film.copyConstruct indet otherFilm = .ok f) : f.n_chapters = indet := by
  unfold Film.copyConstruct at h
  split at h
  · split at h
    · split at h
      · cases h; rfl
      · cases h
    · cases h; rfl
  · cases h; rfl

/-- C5 (code at the failing input): the Film `f1` with the chapters `[10, 10]` is
installed by `createFilm`; `copyAndCreateFilm` of it, when the unassigned
member `n_chapters` of the new object reads `0`, installs and returns a Film
with a null chapter array and a count of `0`; when it reads `1`, a Film with
the single chapter `[10]`; when it reads `3`, the copy loop reads past the
source array. -/
theorem C5_copyAndCreateFilm_drops_chapters :
    let src : Film := ⟨"f1".toList, "/z.mp4".toList, 20, some [10, 10], 2⟩
    let m := (Manager.empty.createFilm "f1".toList "/z.mp4".toList 20 (some [10, 10]) 2).1
    m.mediaCollection "f1".toList = some (.film src) ∧
    (m.copyAndCreateFilm 0 src).2 = .ok ⟨"f1".toList, "/z.mp4".toList, 20, none, 0⟩ ∧
    (m.copyAndCreateFilm 0 src).1.mediaCollection "f1".toList
      = some (.film ⟨"f1".toList, "/z.mp4".toList, 20, none, 0⟩) ∧
    (m.copyAndCreateFilm 1 src).2 = .ok ⟨"f1".toList, "/z.mp4".toList, 20, some [10], 1⟩ ∧
    (m.copyAndCreateFilm 3 src).2 = .error .undefined := by
  decide

/-! ## Copies of a Film do not share their chapter array -/

/-- Statement `delete[] p` keeps every live array at another address, and the
address `new` returns next is not the address of such an array. -/
theorem Heap.release_keeps (h h1 : Heap) (p : Option Nat) (fresh q : Nat)
    (hr : h.release p = .ok h1) (hfresh : h.freeAfter p fresh = true)
    (hq : p ≠ some q) (hlive : (h q).isSome = true) : h1 q = h q ∧ fresh ≠ q := by
  cases p with
  | none =>
    simp only [Heap.release, Except.ok.injEq] at hr
    subst hr
    refine ⟨rfl, ?_⟩
    rintro rfl
    simp [Heap.freeAfter] at hfresh
    rw [hfresh] at hlive
    simp at hlive
  | some a =>
    have hqa : q ≠ a := fun heq => hq (by rw [heq])
    simp only [Heap.release] at hr
    split at hr
    · simp only [Except.ok.injEq] at hr
      subst hr
      refine ⟨by simp [hqa], ?_⟩
      rintro rfl
      simp only [Heap.freeAfter, Bool.or_eq_true, Option.isNone_iff_eq_none, beq_iff_eq,
        Option.some.injEq] at hfresh
      rcases hfresh with hf | hf
      · rw [hf] at hlive; simp at hlive
      · exact hqa hf.symm
    · cases hr

/-- Member `setChapters` leaves every live array other than the one of its object
as it was. -/
theorem FilmObj.setChapters_frame (fresh : Nat) (h h2 : Heap) (self self2 : FilmObj)
    (c : Option Nat) (n : Nat)
    (hok : FilmObj.setChapters fresh h self c n = .ok (self2, h2))
    (hfresh : h.freeAfter self.chapters fresh = true)
    (q : Nat) (hq : self.chapters ≠ some q) (hlive : (h q).isSome = true) :
    h2 q = h q := by
  unfold FilmObj.setChapters at hok
  have hrel : ∀ h1, h.release self.chapters = .ok h1 → h1 q = h q ∧ fresh ≠ q :=
    fun h1 hr => Heap.release_keeps h h1 self.chapters fresh q hr hfresh hq hlive
  cases hr : h.release self.chapters with
  | error e => rw [hr] at hok; cases hok
  | ok h1 =>
    obtain ⟨hkeep, hne⟩ := hrel h1 hr
    rw [hr] at hok
    simp only at hok
    cases c with
    | none =>
      simp only [Except.ok.injEq, Prod.mk.injEq] at hok
      rw [← hok.2]; exact hkeep
    | some p =>
      simp only at hok
      split at hok
      · simp only [Except.ok.injEq, Prod.mk.injEq] at hok
        rw [← hok.2]; exact hkeep
      · cases hread : h1.readArray p n with
        | error e => rw [hread] at hok; cases hok
        | ok xs =>
          rw [hread] at hok
          simp only [Except.ok.injEq, Prod.mk.injEq] at hok
          rw [← hok.2]
          simp [Heap.store, hne.symm, hkeep]

/-- Member `setChapters` on one object leaves the chapter array of another object
as it was, when that object owns a live array (or none) at another address. -/
theorem FilmObj.setChapters_keeps_other (fresh : Nat) (h h2 : Heap) (x x2 y : FilmObj)
    (c : Option Nat) (n : Nat)
    (hok : FilmObj.setChapters fresh h x c n = .ok (x2, h2))
    (hfresh : h.freeAfter x.chapters fresh = true)
    (hy : y.owns h = true) (hsep : ∀ q, y.chapters = some q → x.chapters ≠ some q) :
    y.seq h2 = y.seq h := by
  unfold FilmObj.seq
  cases hq : y.chapters with
  | none => rfl
  | some q =>
    have hlive : (h q).isSome = true := by
      unfold FilmObj.owns at hy
      rw [hq] at hy
      exact hy
    simp only [Option.bind]
    exact FilmObj.setChapters_frame fresh h h2 x x2 c n hok hfresh q (hsep q hq) hlive

/-- After a copy construction that returns, source and copy own their arrays at
different addresses. -/
theorem FilmObj.copyConstruct_separate (indet fresh : Nat) (h h1 : Heap) (a b : FilmObj)
    (ha : a.owns h = true) (hfresh : h fresh = none)
    (hok : FilmObj.copyConstruct indet fresh h a = .ok (b, h1)) :
    a.owns h1 = true ∧ b.owns h1 = true ∧ a.seq h1 = a.seq h ∧
    (∀ q, a.chapters = some q → b.chapters ≠ some q) := by
  unfold FilmObj.copyConstruct at hok
  cases hp : a.chapters with
  | none =>
    rw [hp] at hok
    simp only [Except.ok.injEq, Prod.mk.injEq] at hok
    obtain ⟨hb, hh⟩ := hok
    subst hh; subst hb
    simp [FilmObj.owns, hp, FilmObj.seq]
  | some p =>
    have hlive : (h p).isSome = true := by
      unfold FilmObj.owns at ha; rw [hp] at ha; exact ha
    have hpf : p ≠ fresh := by
      rintro rfl; rw [hfresh] at hlive; simp at hlive
    rw [hp] at hok
    simp only at hok
    split at hok
    · cases hread : h.readArray p indet with
      | error e => rw [hread] at hok; cases hok
      | ok xs =>
        rw [hread] at hok
        simp only [Except.ok.injEq, Prod.mk.injEq] at hok
        obtain ⟨hb, hh⟩ := hok
        subst hh; subst hb
        refine ⟨?_, ?_, ?_, ?_⟩
        · simp [FilmObj.owns, hp, Heap.store, hpf, hlive]
        · simp [FilmObj.owns, Heap.store]
        · simp [FilmObj.seq, hp, Heap.store, hpf]
        · intro q hq
          simp only [Option.some.injEq] at hq
          subst hq
          simp only [ne_eq, Option.some.injEq]
          exact fun heq => hpf heq.symm
    · simp only [Except.ok.injEq, Prod.mk.injEq] at hok
      obtain ⟨hb, hh⟩ := hok
      subst hh; subst hb
      simp [FilmObj.owns, hp, FilmObj.seq, hlive]

/-- After a copy assignment between two objects that returns, source and target own
their arrays at different addresses. -/
theorem FilmObj.assign_separate (fresh : Nat) (h h1 : Heap) (a b0 b : FilmObj)
    (ha : a.owns h = true) (hsep0 : ∀ q, a.chapters = some q → b0.chapters ≠ some q)
    (hfresh : h.freeAfter b0.chapters fresh = true)
    (hok : FilmObj.assign false fresh h b0 a = .ok (b, h1)) :
    a.owns h1 = true ∧ b.owns h1 = true ∧ a.seq h1 = a.seq h ∧
    (∀ q, a.chapters = some q → b.chapters ≠ some q) := by
  unfold FilmObj.assign at hok
  simp only [Bool.false_eq_true, if_false] at hok
  cases hr : h.release b0.chapters with
  | error e => rw [hr] at hok; cases hok
  | ok h0 =>
    rw [hr] at hok
    simp only at hok
    have hkeep : ∀ q, a.chapters = some q → h0 q = h q ∧ fresh ≠ q := by
      intro q hq
      have hlive : (h q).isSome = true := by
        unfold FilmObj.owns at ha; rw [hq] at ha; exact ha
      exact Heap.release_keeps h h0 b0.chapters fresh q hr hfresh
        (fun heq => hsep0 q hq heq) hlive
    cases hp : a.chapters with
    | none =>
      rw [hp] at hok
      simp only [Except.ok.injEq, Prod.mk.injEq] at hok
      obtain ⟨hb, hh⟩ := hok
      subst hh; subst hb
      simp [FilmObj.owns, hp, FilmObj.seq]
    | some p =>
      obtain ⟨hk, hpf⟩ := hkeep p hp
      have hlive : (h p).isSome = true := by
        unfold FilmObj.owns at ha; rw [hp] at ha; exact ha
      rw [hp] at hok
      simp only at hok
      split at hok
      · cases hread : h0.readArray p a.n_chapters with
        | error e => rw [hread] at hok; cases hok
        | ok xs =>
          rw [hread] at hok
          simp only [Except.ok.injEq, Prod.mk.injEq] at hok
          obtain ⟨hb, hh⟩ := hok
          subst hh; subst hb
          refine ⟨?_, ?_, ?_, ?_⟩
          · simp [FilmObj.owns, hp, Heap.store, hpf.symm, hk, hlive]
          · simp [FilmObj.owns, Heap.store]
          · simp [FilmObj.seq, hp, Heap.store, hpf.symm, hk]
          · intro q hq
            simp only [Option.some.injEq] at hq
            subst hq
            simp only [ne_eq, Option.some.injEq]
            exact hpf
      · simp only [Except.ok.injEq, Prod.mk.injEq] at hok
        obtain ⟨hb, hh⟩ := hok
        subst hh; subst hb
        simp [FilmObj.owns, hp, FilmObj.seq, hk, hlive]

/-- C6: let the Film `a` own its chapter array (or none) in the heap `h`, and let `b`
be made a copy of `a`, by copy construction or by copy assignment onto an
object `b0` that does not hold the address of the array of `a`, each `new`
returning an address without a live array. Then `setChapters` on `b` leaves
the chapter array reached from `a` as it was, and `setChapters` on `a` leaves
the chapter array reached from `b` as it was; the count of the other object is
a member of that object, which the call does not receive. -/
theorem C6_copy_then_setChapters_independent (h : Heap) (a : FilmObj)
    (ha : a.owns h = true) :
    (∀ (indet fresh : Nat) (b : FilmObj) (h1 : Heap), h fresh = none →
      FilmObj.copyConstruct indet fresh h a = .ok (b, h1) →
      ∀ (fresh2 : Nat) (c : Option Nat) (n : Nat) (x2 : FilmObj) (h2 : Heap),
        (h1.freeAfter b.chapters fresh2 = true →
          FilmObj.setChapters fresh2 h1 b c n = .ok (x2, h2) → a.seq h2 = a.seq h1) ∧
        (h1.freeAfter a.chapters fresh2 = true →
          FilmObj.setChapters fresh2 h1 a c n = .ok (x2, h2) → b.seq h2 = b.seq h1)) ∧
    (∀ (fresh : Nat) (b0 b : FilmObj) (h1 : Heap),
      (∀ q, a.chapters = some q → b0.chapters ≠ some q) →
      h.freeAfter b0.chapters fresh = true →
      FilmObj.assign false fresh h b0 a = .ok (b, h1) →
      ∀ (fresh2 : Nat) (c : Option Nat) (n : Nat) (x2 : FilmObj) (h2 : Heap),
        (h1.freeAfter b.chapters fresh2 = true →
          FilmObj.setChapters fresh2 h1 b c n = .ok (x2, h2) → a.seq h2 = a.seq h1) ∧
        (h1.freeAfter a.chapters fresh2 = true →
          FilmObj.setChapters fresh2 h1 a c n = .ok (x2, h2) → b.seq h2 = b.seq h1)) := by
  refine ⟨?_, ?_⟩
  · intro indet fresh b h1 hfresh hok fresh2 c n x2 h2
    obtain ⟨ha1, hb1, _, hsep⟩ := FilmObj.copyConstruct_separate indet fresh h h1 a b ha hfresh hok
    refine ⟨?_, ?_⟩
    · intro hf2 hset
      exact FilmObj.setChapters_keeps_other fresh2 h1 h2 b x2 a c n hset hf2 ha1 hsep
    · intro hf2 hset
      refine FilmObj.setChapters_keeps_other fresh2 h1 h2 a x2 b c n hset hf2 hb1 ?_
      intro q hq hqa
      exact hsep q hqa hq
  · intro fresh b0 b h1 hsep0 hfresh hok fresh2 c n x2 h2
    obtain ⟨ha1, hb1, _, hsep⟩ := FilmObj.assign_separate fresh h h1 a b0 b ha hsep0 hfresh hok
    refine ⟨?_, ?_⟩
    · intro hf2 hset
      exact FilmObj.setChapters_keeps_other fresh2 h1 h2 b x2 a c n hset hf2 ha1 hsep
    · intro hf2 hset
      refine FilmObj.setChapters_keeps_other fresh2 h1 h2 a x2 b c n hset hf2 hb1 ?_
      intro q hq hqa
      exact hsep q hqa hq

/-- C6, instance: the Film `a` owns the array `[10, 20]` at address `0`; its copy
`b` gets its array at address `1`; clearing the chapters of `b` leaves the
array of `a`, and replacing the chapters of `a` leaves the array of `b`. -/
theorem C6_copy_then_setChapters_independent_witness :
    FilmObj.seq (fun k => if k = 1 then none else
        Heap.store (fun k => if k = 0 then some [10, 20] else none) 1 [10, 20] k)
        ⟨"f".toList, "p".toList, 20, some 0, 2⟩
      = FilmObj.seq (Heap.store (fun k => if k = 0 then some [10, 20] else none) 1 [10, 20])
        ⟨"f".toList, "p".toList, 20, some 0, 2⟩ :=
  ((C6_copy_then_setChapters_independent (fun k => if k = 0 then some [10, 20] else none)
      ⟨"f".toList, "p".toList, 20, some 0, 2⟩ rfl).1 2 1
      ⟨"f".toList, "p".toList, 20, some 1, 2⟩
      (Heap.store (fun k => if k = 0 then some [10, 20] else none) 1 [10, 20]) rfl rfl
      2 none 0 ⟨"f".toList, "p".toList, 20, none, 0⟩
      (fun k => if k = 1 then none else
        Heap.store (fun k => if k = 0 then some [10, 20] else none) 1 [10, 20] k)).1 rfl rfl

/-! ## Search, play and delete -/

/-- C7: when a name is bound in both stores, `searchAndDisplay` writes exactly what
the render of the entity writes and ends as that render ends; the result is
the same as in the catalog without the group of that name. -/
theorem C7_search_prefers_entity (m : Manager) (name : Str) (e : Multimedia) (g : Group)
    (hentity : m.mediaCollection name = some e) (hgroup : m.mediaGroups name = some g) :
    m.searchAndDisplay name = (m, e.display) ∧
    (m.searchAndDisplay name).2
      = ((⟨m.mediaCollection, m.mediaGroups.erase name⟩ : Manager).searchAndDisplay name).2 := by
  have _ := hgroup
  simp [Manager.searchAndDisplay, hentity]

/-- C7, instance: the name `x` bound to a Video and to a group holding a Photo. -/
theorem C7_search_prefers_entity_witness :
    let v : Video := ⟨"x".toList, "/y.mp4".toList, 10⟩
    let g : Group := ⟨"x".toList, [.photo ⟨"p".toList, "/p.jpg".toList, ⟨false, 0, 0⟩, ⟨false, 0, 0⟩⟩]⟩
    let m : Manager := ⟨fun k => if k = "x".toList then some (.video v) else none,
      fun k => if k = "x".toList then some g else none⟩
    (m.searchAndDisplay "x".toList).2 = v.display :=
  congrArg Prod.snd (C7_search_prefers_entity
    ⟨fun k => if k = "x".toList then some (.video ⟨"x".toList, "/y.mp4".toList, 10⟩) else none,
      fun k => if k = "x".toList then
        some ⟨"x".toList, [.photo ⟨"p".toList, "/p.jpg".toList, ⟨false, 0, 0⟩, ⟨false, 0, 0⟩⟩]⟩
        else none⟩
    "x".toList (.video ⟨"x".toList, "/y.mp4".toList, 10⟩)
    ⟨"x".toList, [.photo ⟨"p".toList, "/p.jpg".toList, ⟨false, 0, 0⟩, ⟨false, 0, 0⟩⟩]⟩
    (by decide) (by decide)).1

/-- C8: for a name bound in neither store, `searchAndDisplay` raises `NamingError`
(no group or multimedia with this name), writes nothing to the stream and
leaves the catalog as it was. -/
theorem C8_search_not_found (m : Manager) (name : Str)
    (hentity : m.mediaCollection name = none) (hgroup : m.mediaGroups name = none) :
    m.searchAndDisplay name
      = (m, ⟨[], some (.namingError "No group or multimedia with this name exists!".toList)⟩) := by
  simp [Manager.searchAndDisplay, hentity, hgroup]

/-- C8, instance: the name `p1` in the empty catalog. -/
theorem C8_search_not_found_witness :
    (Manager.empty.searchAndDisplay "p1".toList).2
      = ⟨[], some (.namingError "No group or multimedia with this name exists!".toList)⟩ :=
  congrArg Prod.snd (C8_search_not_found Manager.empty "p1".toList rfl rfl)

/-- C9: for a name not bound in the entity store, whatever the group store holds,
`playMedia` returns normally, hands no command to `system` and leaves the
catalog as it was. -/
theorem C9_play_absent (system : Str → Int) (m : Manager) (name : Str)
    (hentity : m.mediaCollection name = none) :
    m.playMedia system name = (m, ⟨[], none⟩) := by
  simp [Manager.playMedia, hentity]

/-- C9, instance: the name `g` bound to a group only, every command failing. -/
theorem C9_play_absent_witness :
    ((Manager.empty.createGroup "g".toList).1.playMedia (fun _ => 1) "g".toList).2
      = ⟨[], none⟩ :=
  congrArg Prod.snd (C9_play_absent (fun _ => 1) (Manager.empty.createGroup "g".toList).1
    "g".toList (by decide))

/-- C10: `deleteByName` on a name bound in the entity store unbinds that name in the
entity store, keeps every other binding of it and keeps the group store, even
when the name is bound there too; on a name bound in the group store only it
unbinds that name in the group store, keeps every other binding of it and
keeps the entity store; on a name bound in neither it raises `NamingError`
(no multimedia or group found) and keeps the catalog. -/
theorem C10_deleteByName (m : Manager) (name : Str) :
    (∀ e, m.mediaCollection name = some e →
      (m.deleteByName name).2 = .ok () ∧
      (m.deleteByName name).1.mediaGroups = m.mediaGroups ∧
      (m.deleteByName name).1.mediaCollection name = none ∧
      ∀ k, k ≠ name → (m.deleteByName name).1.mediaCollection k = m.mediaCollection k) ∧
    (∀ g, m.mediaCollection name = none → m.mediaGroups name = some g →
      (m.deleteByName name).2 = .ok () ∧
      (m.deleteByName name).1.mediaCollection = m.mediaCollection ∧
      (m.deleteByName name).1.mediaGroups name = none ∧
      ∀ k, k ≠ name → (m.deleteByName name).1.mediaGroups k = m.mediaGroups k) ∧
    (m.mediaCollection name = none → m.mediaGroups name = none →
      m.deleteByName name = (m, .error (.namingError
        ("No multimedia or group found with the name ".toList ++ name)))) := by
  refine ⟨?_, ?_, ?_⟩
  · intro e he
    refine ⟨?_, ?_, ?_, ?_⟩
    · simp [Manager.deleteByName, he]
    · simp [Manager.deleteByName, he]
    · simp [Manager.deleteByName, he, NameMap.erase]
    · intro k hk
      simp [Manager.deleteByName, he, NameMap.erase, hk]
  · intro g he hg
    refine ⟨?_, ?_, ?_, ?_⟩
    · simp [Manager.deleteByName, he, hg]
    · simp [Manager.deleteByName, he, hg]
    · simp [Manager.deleteByName, he, hg, NameMap.erase]
    · intro k hk
      simp [Manager.deleteByName, he, hg, NameMap.erase, hk]
  · intro he hg
    simp [Manager.deleteByName, he, hg]

/-- C10, instance: the name `x` bound to a Video and to a group; the entity goes,
the group stays. -/
theorem C10_deleteByName_witness :
    let m := ((Manager.empty.createVideo "x".toList "/y.mp4".toList 10).1.createGroup "x".toList).1
    (m.deleteByName "x".toList).1.mediaCollection "x".toList = none ∧
    (m.deleteByName "x".toList).1.mediaGroups "x".toList = some ⟨"x".toList, []⟩ :=
  have h := (C10_deleteByName
    ((Manager.empty.createVideo "x".toList "/y.mp4".toList 10).1.createGroup "x".toList).1
    "x".toList).1 (.video ⟨"x".toList, "/y.mp4".toList, 10⟩) (by decide)
  ⟨h.2.2.1, by rw [h.2.1]; decide⟩

/-! ## Groups and the two stores -/

/-- C12: `createGroup` on a name bound in the group store raises `NamingError` (group
name already exists) and leaves the catalog as it was, the group stored under
the name included; on a name not bound in the group store it returns the empty
group of that name, binds the name to it, keeps every other binding of the
group store and keeps the entity store. -/
theorem C12_createGroup (m : Manager) (name : Str) :
    (∀ g, m.mediaGroups name = some g →
      m.createGroup name = (m, .error (.namingError "Group name already exists!".toList))) ∧
    (m.mediaGroups name = none →
      (m.createGroup name).2 = .ok ⟨name, []⟩ ∧
      (m.createGroup name).1.mediaGroups name = some ⟨name, []⟩ ∧
      (∀ k, k ≠ name → (m.createGroup name).1.mediaGroups k = m.mediaGroups k) ∧
      (m.createGroup name).1.mediaCollection = m.mediaCollection) := by
  refine ⟨?_, ?_⟩
  · intro g hg
    have hc : m.mediaGroups.count name > 0 := by
      rw [NameMap.count_pos_iff, hg]; rfl
    simp [Manager.createGroup, hc]
  · intro hg
    have hc : ¬ (m.mediaGroups.count name > 0) := by
      rw [NameMap.count_pos_iff, hg]; simp
    refine ⟨?_, ?_, ?_, ?_⟩
    · simp [Manager.createGroup, hc]
    · simp [Manager.createGroup, hc, NameMap.assign]
    · intro k hk
      simp [Manager.createGroup, hc, NameMap.assign, hk]
    · simp [Manager.createGroup, hc]

/-- C12, instance: `createGroup` of `g` twice; the group of the first call, with the
member pushed into it meanwhile, is still the one stored after the second call. -/
theorem C12_createGroup_witness :
    let g : Group := ⟨"g".toList, [.video ⟨"v".toList, "/y.mp4".toList, 10⟩]⟩
    let m : Manager := ⟨fun _ => none, fun k => if k = "g".toList then some g else none⟩
    m.createGroup "g".toList = (m, .error (.namingError "Group name already exists!".toList)) ∧
    (Manager.empty.createGroup "g".toList).1.mediaGroups "g".toList = some ⟨"g".toList, []⟩ :=
  ⟨(C12_createGroup
      ⟨fun _ => none, fun k => if k = "g".toList then
        some ⟨"g".toList, [.video ⟨"v".toList, "/y.mp4".toList, 10⟩]⟩ else none⟩
      "g".toList).1 ⟨"g".toList, [.video ⟨"v".toList, "/y.mp4".toList, 10⟩]⟩ (by decide),
   ((C12_createGroup Manager.empty "g".toList).2 rfl).2.1⟩

/-- C13 (as stated, refuted): in the catalog that holds the group `x` only, the name
`x` is absent from the entity store, yet `createFilm` of `x` with a null
chapter source (its default argument) raises `std::invalid_argument`, and the
name is not a key of the entity store afterwards. -/
theorem C13_createFilm_null_source_fails :
    (Manager.empty.createGroup "x".toList).1.mediaCollection "x".toList = none ∧
    ((Manager.empty.createGroup "x".toList).1.createFilm "x".toList [] 0 none 0).2
      = .error (.invalidArgument "Chapters cannot be empty!".toList) ∧
    ((Manager.empty.createGroup "x".toList).1.createFilm "x".toList [] 0 none
      0).1.mediaCollection "x".toList = none := by
  decide

/-- C13 (amended): the two stores are separate name spaces. `createGroup` succeeds
whenever the name is absent from the group store, whatever the entity store
holds, and keeps the entity store; `createPhoto`, `createVideo` and
`createFilm` with a non-null source holding the declared count succeed
whenever the name is absent from the entity store, whatever the group store
holds, and keep the group store. After a creation that met the name in the
other store, the name is a key of both stores. -/
theorem C13_stores_independent (m : Manager) (name : Str) :
    (m.mediaGroups name = none →
      (m.createGroup name).2 = .ok ⟨name, []⟩ ∧
      ((m.createGroup name).1.mediaGroups name).isSome = true ∧
      (m.createGroup name).1.mediaCollection = m.mediaCollection ∧
      (∀ e, m.mediaCollection name = some e →
        (m.createGroup name).1.mediaCollection name = some e)) ∧
    (m.mediaCollection name = none →
      (∀ (filepath : Str) (latitude longitude : Dbl),
        let r := m.createPhoto name filepath latitude longitude
        r.2 = .ok ⟨name, filepath, latitude, longitude⟩ ∧
        (r.1.mediaCollection name).isSome = true ∧ r.1.mediaGroups = m.mediaGroups) ∧
      (∀ (filepath : Str) (duration : Int),
        let r := m.createVideo name filepath duration
        r.2 = .ok ⟨name, filepath, duration⟩ ∧
        (r.1.mediaCollection name).isSome = true ∧ r.1.mediaGroups = m.mediaGroups) ∧
      (∀ (filepath : Str) (duration : Int) (xs : List Int) (n : Nat), n ≤ xs.length →
        let r := m.createFilm name filepath duration (some xs) n
        r.2 = .ok ⟨name, filepath, duration, some (xs.take n), n⟩ ∧
        (r.1.mediaCollection name).isSome = true ∧ r.1.mediaGroups = m.mediaGroups)) := by
  refine ⟨?_, ?_⟩
  · intro hg
    have hc : ¬ (m.mediaGroups.count name > 0) := by
      rw [NameMap.count_pos_iff, hg]; simp
    refine ⟨?_, ?_, ?_, ?_⟩
    · simp [Manager.createGroup, hc]
    · simp [Manager.createGroup, hc, NameMap.assign]
    · simp [Manager.createGroup, hc]
    · intro e he
      simp [Manager.createGroup, hc, he]
  · intro he
    have hc : ¬ (m.mediaCollection.count name > 0) := by
      rw [NameMap.count_pos_iff, he]; simp
    refine ⟨?_, ?_, ?_⟩
    · intro filepath latitude longitude
      simp [Manager.createPhoto, hc, NameMap.assign]
    · intro filepath duration
      simp [Manager.createVideo, hc, NameMap.assign]
    · intro filepath duration xs n hn
      simp [Manager.createFilm, Film.construct, hn, hc, NameMap.assign]

/-- C13 (amended), instance: the name `x` is given to a Video, then to a group, and
in the other order; it is a key of both stores in the end. -/
theorem C13_stores_independent_witness :
    (((Manager.empty.createVideo "x".toList "/y.mp4".toList 10).1.createGroup
        "x".toList).1.mediaCollection "x".toList
      = some (.video ⟨"x".toList, "/y.mp4".toList, 10⟩)) ∧
    ((((Manager.empty.createGroup "x".toList).1.createVideo "x".toList "/y.mp4".toList
        10).1.mediaGroups "x".toList).isSome = true) :=
  ⟨((C13_stores_independent (Manager.empty.createVideo "x".toList "/y.mp4".toList 10).1
      "x".toList).1 (by decide)).2.2.2 (.video ⟨"x".toList, "/y.mp4".toList, 10⟩) (by decide),
   by
    have h := (((C13_stores_independent (Manager.empty.createGroup "x".toList).1
      "x".toList).2 (by decide)).2.1 "/y.mp4".toList 10).2.2
    rw [h]; decide⟩

/-! ## Copy of a Film: effect on the stores -/

/-- C14: `copyAndCreateFilm` never raises `NamingError`, whatever the entity store
holds under the name of the Film. When the call returns a Film, the entity
store binds the name of the source to that Film, every other binding of the
entity store is kept and the group store is kept. The call returns a Film
whenever its copy loop stays inside the source array: when the source holds a
null pointer, or the unassigned member `n_chapters` reads zero or at most the
length of the source array; otherwise the loop reads past the array and the
stores are kept. -/
theorem C14_copyAndCreateFilm_overrides (indet : Nat) (m : Manager) (otherFilm : Film) :
    (∀ what, (m.copyAndCreateFilm indet otherFilm).2 ≠ .error (.namingError what)) ∧
    (∀ f, (m.copyAndCreateFilm indet otherFilm).2 = .ok f →
      (m.copyAndCreateFilm indet otherFilm).1.mediaCollection otherFilm.name = some (.film f) ∧
      (∀ k, k ≠ otherFilm.name →
        (m.copyAndCreateFilm indet otherFilm).1.mediaCollection k = m.mediaCollection k) ∧
      (m.copyAndCreateFilm indet otherFilm).1.mediaGroups = m.mediaGroups) ∧
    ((otherFilm.chapters = none ∨ indet = 0 ∨
        ∃ xs, otherFilm.chapters = some xs ∧ indet ≤ xs.length) →
      ∃ f, (m.copyAndCreateFilm indet otherFilm).2 = .ok f) ∧
    ((∃ xs, otherFilm.chapters = some xs ∧ xs.length < indet) →
      m.copyAndCreateFilm indet otherFilm = (m, .error .undefined)) := by
  unfold Manager.copyAndCreateFilm Film.copyConstruct
  cases hch : otherFilm.chapters with
  | none =>
    refine ⟨?_, ?_, ?_, ?_⟩
    · intro what; simp
    · intro f hf
      simp only [Except.ok.injEq] at hf
      subst hf
      refine ⟨by simp [NameMap.assign], ?_, rfl⟩
      intro k hk
      simp [NameMap.assign, hk]
    · intro _; exact ⟨_, rfl⟩
    · rintro ⟨xs, hxs, _⟩; cases hxs
  | some xs =>
    by_cases h0 : 0 < indet
    · by_cases hle : indet ≤ xs.length
      · refine ⟨?_, ?_, ?_, ?_⟩
        · intro what; simp [h0, hle]
        · intro f hf
          simp only [h0, hle, if_true, Except.ok.injEq] at hf
          subst hf
          refine ⟨by simp [h0, hle, NameMap.assign], ?_, by simp [h0, hle]⟩
          intro k hk
          simp [h0, hle, NameMap.assign, hk]
        · intro _; simp [h0, hle]
        · rintro ⟨ys, hys, hlt⟩
          simp only [Option.some.injEq] at hys
          subst hys
          omega
      · refine ⟨?_, ?_, ?_, ?_⟩
        · intro what; simp [h0, hle]
        · intro f hf
          simp [h0, hle] at hf
        · rintro (h | h | ⟨ys, hys, hle'⟩)
          · cases h
          · omega
          · simp only [Option.some.injEq] at hys
            subst hys
            exact absurd hle' hle
        · intro _; simp [h0, hle]
    · refine ⟨?_, ?_, ?_, ?_⟩
      · intro what; simp [h0]
      · intro f hf
        simp only [h0, if_false, Except.ok.injEq] at hf
        subst hf
        refine ⟨by simp [h0, NameMap.assign], ?_, by simp [h0]⟩
        intro k hk
        simp [h0, NameMap.assign, hk]
      · intro _; simp [h0]
      · rintro ⟨ys, hys, hlt⟩
        omega

/-- C14, instance: the name `f1` is bound to a Video; `copyAndCreateFilm` of a Film
named `f1` (the unassigned count reading `2`) binds `f1` to the copy. -/
theorem C14_copyAndCreateFilm_overrides_witness :
    ((Manager.empty.createVideo "f1".toList "/y.mp4".toList 10).1.copyAndCreateFilm 2
        ⟨"f1".toList, "/z.mp4".toList, 20, some [10, 10], 2⟩).1.mediaCollection "f1".toList
      = some (.film ⟨"f1".toList, "/z.mp4".toList, 20, some [10, 10], 2⟩) :=
  ((C14_copyAndCreateFilm_overrides 2 (Manager.empty.createVideo "f1".toList "/y.mp4".toList 10).1
    ⟨"f1".toList, "/z.mp4".toList, 20, some [10, 10], 2⟩).2.1
    ⟨"f1".toList, "/z.mp4".toList, 20, some [10, 10], 2⟩ (by decide)).1

/-! ## Deleting an entity that a group holds -/

/-- The loop of `Group::display` over members that all render normally, followed by
other members: the text of the first ones, then the loop over the others. -/
theorem Group.displayLoop_append (pre rest : List Multimedia)
    (hpre : ∀ x ∈ pre, x.display.fail = none) :
    Group.displayLoop (pre ++ rest)
      = ⟨(Group.displayLoop pre).text ++ (Group.displayLoop rest).text,
          (Group.displayLoop rest).fail⟩ := by
  induction pre with
  | nil => simp [Group.displayLoop]
  | cons x xs ih =>
    have hx : x.display.fail = none := hpre x (by simp)
    have hxs : ∀ y ∈ xs, y.display.fail = none := fun y hy => hpre y (by simp [hy])
    simp [Group.displayLoop, hx, ih hxs]

/-- The loop of `Group::display` starts with the render of the first member. -/
theorem Group.displayLoop_cons_text (e : Multimedia) (post : List Multimedia) :
    ∃ tail, (Group.displayLoop (e :: post)).text = e.display.text ++ tail := by
  unfold Group.displayLoop
  split
  · exact ⟨[], by simp⟩
  · exact ⟨_, rfl⟩

set_option maxRecDepth 100000 in
/-- C11 (as stated, refuted): two catalogs in which the group stored under `g` holds
the Video `n` stored under the name `n`. In the first one `g` is the name of
another Video too: after `deleteByName` of `n`, `searchAndDisplay` of `g`
writes the render of that Video, not the output of the group, and the render
of `n` is no part of it. In the second one the member before `n` is a Film
without chapters: `searchAndDisplay` of `g` writes the group-name line and ends
in `exit` before the render of `n`. -/
theorem C11_group_render_after_delete_fails :
    (let e : Multimedia := .video ⟨"n".toList, "/n.mp4".toList, 1⟩
     let g : Group := ⟨"g".toList, [e]⟩
     let m : Manager := ⟨fun k => if k = "n".toList then some e
        else if k = "g".toList then some (.video ⟨"g".toList, "/g.mp4".toList, 2⟩) else none,
        fun k => if k = "g".toList then some g else none⟩
     (m.deleteByName "n".toList).1.mediaGroups "g".toList = some g ∧
     ((m.deleteByName "n".toList).1.searchAndDisplay "g".toList).2
       = ⟨"Name: g, filepath: /g.mp4, Duration: 2\n".toList, none⟩ ∧
     e.display.text = "Name: n, filepath: /n.mp4, Duration: 1\n".toList ∧
     g.display.text
       = "Group Name: g\nName: n, filepath: /n.mp4, Duration: 1\n".toList) ∧
    (let e : Multimedia := .video ⟨"n".toList, "/n.mp4".toList, 1⟩
     let g : Group := ⟨"g".toList, [.film ⟨"z".toList, "/z.mp4".toList, 0, some [], 0⟩, e]⟩
     let m : Manager := ⟨fun k => if k = "n".toList then some e else none,
        fun k => if k = "g".toList then some g else none⟩
     (m.deleteByName "n".toList).1.mediaGroups "g".toList = some g ∧
     ((m.deleteByName "n".toList).1.searchAndDisplay "g".toList).2
       = ⟨"Group Name: g\n".toList, some (Err.exit EXIT_FAILURE)⟩) := by
  decide

/-- C11 (amended): let the entity `e` be stored under the name `n` and let the group
`g`, stored under the key `k`, hold `e` after the members `pre`. After
`deleteByName` of `n`, which succeeds, the group store is as before, so that
`g` has the same members in the same order; the name `n` is no key of the
entity store. When `k` is no key of the entity store either, `searchAndDisplay`
of `k` gives the render of `g`, and when the members before `e` render
normally that render holds, after the group-name line and their renders, the
render of `e`. `searchAndDisplay` of `n` raises `NamingError` when no group is
stored under `n` and renders that group otherwise. -/
theorem C11_delete_keeps_group_member (m : Manager) (n k : Str) (e : Multimedia) (g : Group)
    (pre post : List Multimedia)
    (hentity : m.mediaCollection n = some e) (hgroup : m.mediaGroups k = some g)
    (hmember : g.elems = pre ++ e :: post) :
    (m.deleteByName n).2 = .ok () ∧
    (m.deleteByName n).1.mediaGroups = m.mediaGroups ∧
    (m.deleteByName n).1.mediaGroups k = some g ∧
    (m.deleteByName n).1.mediaCollection n = none ∧
    ((m.deleteByName n).1.mediaCollection k = none →
      (m.deleteByName n).1.searchAndDisplay k = ((m.deleteByName n).1, g.display)) ∧
    ((∀ x ∈ pre, x.display.fail = none) →
      ∃ tail, g.display.text = "Group Name: ".toList ++ g.name ++ ['\n']
        ++ (Group.displayLoop pre).text ++ e.display.text ++ tail) ∧
    (m.mediaGroups n = none →
      (m.deleteByName n).1.searchAndDisplay n = ((m.deleteByName n).1,
        ⟨[], some (.namingError "No group or multimedia with this name exists!".toList)⟩)) ∧
    (∀ g2, m.mediaGroups n = some g2 →
      (m.deleteByName n).1.searchAndDisplay n = ((m.deleteByName n).1, g2.display)) := by
  have hdel : m.deleteByName n = (⟨m.mediaCollection.erase n, m.mediaGroups⟩, .ok ()) := by
    simp [Manager.deleteByName, hentity]
  rw [hdel]
  refine ⟨rfl, rfl, hgroup, by simp [NameMap.erase], ?_, ?_, ?_, ?_⟩
  · intro hk
    simp only at hk
    simp [Manager.searchAndDisplay, hk, hgroup]
  · intro hpre
    obtain ⟨tail, ht⟩ := Group.displayLoop_cons_text e post
    refine ⟨tail, ?_⟩
    simp only [Group.display, hmember, Group.displayLoop_append pre (e :: post) hpre, ht]
    simp
  · intro hn
    simp [Manager.searchAndDisplay, NameMap.erase, hn]
  · intro g2 hn
    simp [Manager.searchAndDisplay, NameMap.erase, hn]

set_option maxRecDepth 100000 in
/-- C11 (amended), instance: the group `My favorites` holds the Photo `test-photo`
and the Video `test-video`; after `deleteByName` of `test-video`,
`searchAndDisplay` of the group still gives the render of the group, and
`searchAndDisplay` of `test-video` raises `NamingError`. -/
theorem C11_delete_keeps_group_member_witness :
    let p : Multimedia := .photo ⟨"test-photo".toList, "/p.jpg".toList,
      ⟨false, 1026, 1125899906842624⟩, ⟨false, 1026, 1125899906842624⟩⟩
    let v : Multimedia := .video ⟨"test-video".toList, "/v.mp4".toList, 10⟩
    let g : Group := ⟨"My favorites".toList, [p, v]⟩
    let m : Manager := ⟨fun k => if k = "test-photo".toList then some p
        else if k = "test-video".toList then some v else none,
      fun k => if k = "My favorites".toList then some g else none⟩
    (m.deleteByName "test-video".toList).1.searchAndDisplay "My favorites".toList
      = ((m.deleteByName "test-video".toList).1, g.display) ∧
    (m.deleteByName "test-video".toList).1.searchAndDisplay "test-video".toList
      = ((m.deleteByName "test-video".toList).1,
        ⟨[], some (.namingError "No group or multimedia with this name exists!".toList)⟩) :=
  have h := C11_delete_keeps_group_member
    ⟨fun k => if k = "test-photo".toList then some (.photo ⟨"test-photo".toList, "/p.jpg".toList,
        ⟨false, 1026, 1125899906842624⟩, ⟨false, 1026, 1125899906842624⟩⟩)
      else if k = "test-video".toList then
        some (.video ⟨"test-video".toList, "/v.mp4".toList, 10⟩) else none,
      fun k => if k = "My favorites".toList then
        some ⟨"My favorites".toList, [.photo ⟨"test-photo".toList, "/p.jpg".toList,
          ⟨false, 1026, 1125899906842624⟩, ⟨false, 1026, 1125899906842624⟩⟩,
          .video ⟨"test-video".toList, "/v.mp4".toList, 10⟩]⟩ else none⟩
    "test-video".toList "My favorites".toList
    (.video ⟨"test-video".toList, "/v.mp4".toList, 10⟩)
    ⟨"My favorites".toList, [.photo ⟨"test-photo".toList, "/p.jpg".toList,
      ⟨false, 1026, 1125899906842624⟩, ⟨false, 1026, 1125899906842624⟩⟩,
      .video ⟨"test-video".toList, "/v.mp4".toList, 10⟩]⟩
    [.photo ⟨"test-photo".toList, "/p.jpg".toList,
      ⟨false, 1026, 1125899906842624⟩, ⟨false, 1026, 1125899906842624⟩⟩] []
    (by decide) (by decide) (by decide)
  ⟨h.2.2.2.2.1 (by decide), h.2.2.2.2.2.2.1 (by decide)⟩

/-! ## Lines of a file and lines with an unknown first word -/

/-- A text without `\n` followed by `\n` is the first line `getline` delivers. -/
theorem linesAux_line (l rest : Str) (hl : ∀ c ∈ l, c ≠ '\n') :
    ∀ cur, linesAux (l ++ '\n' :: rest) cur = (cur ++ l) :: linesAux rest [] := by
  induction l with
  | nil => intro cur; simp [linesAux]
  | cons a t ih =>
    intro cur
    have ha : a ≠ '\n' := hl a (by simp)
    have ht : ∀ c ∈ t, c ≠ '\n' := fun c hc => hl c (by simp [hc])
    simp [linesAux, ha, ih ht]

/-- The lines of the file made of the lines `ls` are the lines `ls`. -/
theorem fileLines_joinLines (ls : List Str) (h : ∀ l ∈ ls, ∀ c ∈ l, c ≠ '\n') :
    fileLines (joinLines ls) = ls := by
  induction ls with
  | nil => rfl
  | cons l rest ih =>
    have hl : ∀ c ∈ l, c ≠ '\n' := h l (by simp)
    have hrest : ∀ x ∈ rest, ∀ c ∈ x, c ≠ '\n' := fun x hx => h x (by simp [hx])
    have := ih hrest
    unfold fileLines at this ⊢
    simp only [joinLines]
    rw [linesAux_line l _ hl, this]
    simp

/-- No line that `getline` delivers holds a `\n`. -/
theorem linesAux_no_newline : ∀ (content cur : Str), (∀ c ∈ cur, c ≠ '\n') →
    ∀ l ∈ linesAux content cur, ∀ c ∈ l, c ≠ '\n' := by
  intro content
  induction content with
  | nil =>
    intro cur hcur l hl
    unfold linesAux at hl
    split at hl
    · simp at hl
    · simp only [List.mem_singleton] at hl
      subst hl; exact hcur
  | cons a t ih =>
    intro cur hcur l hl
    unfold linesAux at hl
    split at hl
    · rcases List.mem_cons.mp hl with h | h
      · subst h; exact hcur
      · exact ih [] (by simp) l h
    · rename_i ha
      refine ih (cur ++ [a]) ?_ l hl
      intro c hc
      rcases List.mem_append.mp hc with h | h
      · exact hcur c h
      · simp only [List.mem_singleton] at h
        subst h; exact ha

theorem fileLines_no_newline (content : Str) :
    ∀ l ∈ fileLines content, ∀ c ∈ l, c ≠ '\n' :=
  linesAux_no_newline content [] (by simp)

/-- A line whose first word is not `Photo`, `Video` or `Film` changes nothing and
lets the loop go on. -/
theorem Manager.readLine_unknown (m : Manager) (line : Str) (h : knownTag line = false) :
    m.readLine line = (m, none) := by
  simp only [knownTag, recordTag, nthWord, Bool.or_eq_false_iff, decide_eq_false_iff_not] at h
  obtain ⟨⟨h1, h2⟩, h3⟩ := h
  unfold Manager.readLine
  simp only [if_neg h1, if_neg h2, if_neg h3]

/-- The read loop over some lines gives what it gives over those of them whose first
word is `Photo`, `Video` or `Film`. -/
theorem Manager.readLines_filter_known : ∀ (lines : List Str) (m : Manager),
    m.readLines lines = m.readLines (lines.filter knownTag) := by
  intro lines
  induction lines with
  | nil => intro m; rfl
  | cons l rest ih =>
    intro m
    cases hk : knownTag l with
    | false =>
      simp only [List.filter_cons, hk, Bool.false_eq_true, if_false]
      rw [← ih m]
      simp [Manager.readLines, Manager.readLine_unknown m l hk]
    | true =>
      simp only [List.filter_cons, hk, if_true]
      simp only [Manager.readLines]
      cases hr : (m.readLine l).2 with
      | none => simp only []; exact ih _
      | some r => rfl

/-- Reading the file made of the lines `ls` runs the loop over `ls`. -/
theorem Manager.read_joinLines (m : Manager) (fs : Files) (filename : Str) (ls : List Str)
    (h : ∀ l ∈ ls, ∀ c ∈ l, c ≠ '\n') :
    m.read (fun n => if n = filename then some (joinLines ls) else fs n) filename
      = m.readLines ls := by
  simp [Manager.read, fileLines_joinLines ls h]

/-- C15: lines whose first word is not `Photo`, `Video` or `Film` are skipped. For
every catalog, the read loop over some lines ends in the same catalog with the
same result as over those lines without the ones of unknown first word; so
does `read` of a file and of the file made of its lines without those. In
particular a file made of a line of unknown first word followed by the record
of a Video whose name is not in the entity store installs that Video and
returns normally. -/
theorem C15_unknown_tags_skipped (m : Manager) :
    (∀ lines : List Str, m.readLines lines = m.readLines (lines.filter knownTag)) ∧
    (∀ (fs : Files) (filename content : Str), fs filename = some content →
      m.read fs filename
        = m.read (fun n => if n = filename then
            some (joinLines ((fileLines content).filter knownTag)) else fs n) filename) ∧
    (∀ (fs : Files) (filename u name filepath : Str) (duration : Int),
      knownTag u = false → (∀ c ∈ u, c ≠ '\n') →
      name ≠ [] → noSpace name → filepath ≠ [] → noSpace filepath → isInt duration →
      m.mediaCollection name = none →
      m.read (fun n => if n = filename then
          some (joinLines [u, "Video ".toList ++ name ++ " ".toList ++ filepath ++ " ".toList
            ++ putInt duration]) else fs n) filename
        = (⟨m.mediaCollection.assign name (.video ⟨name, filepath, duration⟩), m.mediaGroups⟩,
            .ok ())) := by
  refine ⟨fun lines => Manager.readLines_filter_known lines m, ?_, ?_⟩
  · intro fs filename content hfile
    have hfilt : ∀ l ∈ (fileLines content).filter knownTag, ∀ c ∈ l, c ≠ '\n' :=
      fun l hl => fileLines_no_newline content l (List.mem_filter.mp hl).1
    rw [Manager.read_joinLines m fs filename _ hfilt, ← Manager.readLines_filter_known]
    simp [Manager.read, hfile]
  · intro fs filename u name filepath duration hu hnl hn hns hf hfs hd habsent
    have hvideo : ∀ c ∈ "Video ".toList ++ name ++ " ".toList ++ filepath ++ " ".toList
        ++ putInt duration, c ≠ '\n' := by
      intro c hc
      simp only [List.mem_append] at hc
      rcases hc with ((((h | h) | h) | h) | h) | h
      · intro hc'; subst hc'; exact absurd h (by decide)
      · exact ne_newline_of_noSpace _ hns c h
      · intro hc'; subst hc'; exact absurd h (by decide)
      · exact ne_newline_of_noSpace _ hfs c h
      · intro hc'; subst hc'; exact absurd h (by decide)
      · exact ne_newline_of_noSpace _ (putInt_noSpace _) c h
    have hlines : ∀ l ∈ [u, "Video ".toList ++ name ++ " ".toList ++ filepath ++ " ".toList
        ++ putInt duration], ∀ c ∈ l, c ≠ '\n' := by
      intro l hl
      simp only [List.mem_cons, List.mem_singleton, List.not_mem_nil, or_false] at hl
      rcases hl with h | h
      · subst h; exact hnl
      · subst h; exact hvideo
    have hc : ¬ (m.mediaCollection.count name > 0) := by
      rw [NameMap.count_pos_iff, habsent]; simp
    rw [Manager.read_joinLines m fs filename _ hlines]
    simp only [Manager.readLines, Manager.readLine_unknown m u hu]
    rw [Manager.readLine_video _ _ _ _ hn hns hf hfs hd]
    simp [afterCreate, Manager.createVideo, hc]

/-- C15, instance: the file `db` holds the line `Audio a /a.mp3 3` and the record of
the Video `v1`; `read` into the empty catalog installs `v1`. -/
theorem C15_unknown_tags_skipped_witness :
    Manager.empty.read (fun n => if n = "db".toList then
        some (joinLines ["Audio a /a.mp3 3".toList,
          "Video ".toList ++ "v1".toList ++ " ".toList ++ "/y.mp4".toList ++ " ".toList
            ++ putInt 10]) else none) "db".toList
      = (⟨Manager.empty.mediaCollection.assign "v1".toList
          (.video ⟨"v1".toList, "/y.mp4".toList, 10⟩), Manager.empty.mediaGroups⟩, .ok ()) :=
  (C15_unknown_tags_skipped Manager.empty).2.2 (fun _ => none) "db".toList
    "Audio a /a.mp3 3".toList "v1".toList "/y.mp4".toList 10
    (by decide) (by decide) (by decide) (by decide) (by decide) (by decide) (by decide) rfl

/-! ## Records that stop the read loop -/

/-- The body of the read loop in terms of the words of the line. -/
theorem Manager.readLine_eq (m : Manager) (line : Str) :
    m.readLine line =
      if recordTag line = "Photo".toList then
        afterCreate (m.createPhoto (recordName line) (nthWord 2 line) (atof (nthWord 3 line))
          (atof (nthWord 4 line)))
      else if recordTag line = "Video".toList then
        afterCreate (m.createVideo (recordName line) (nthWord 2 line) (atoi (nthWord 3 line)))
      else if recordTag line = "Film".toList then
        if recordCount line ≠ 0 then
          if recordCount line < 0 then (m, some (.error .badArrayNewLength))
          else afterCreate (m.createFilm (recordName line) (nthWord 2 line)
            (atoi (nthWord 3 line))
            (some (readChapters (recordCount line).toNat (dropWords 5 line)))
            (recordCount line).toNat)
        else (m, some (.error (.invalidArgument "Chapters cannot be empty!".toList)))
      else (m, none) := rfl

theorem readChapters_length : ∀ (k : Nat) (s : Str), (readChapters k s).length = k := by
  intro k
  induction k with
  | zero => intro s; rfl
  | succ k ih => intro s; simp [readChapters, ih]

/-- When no line of `pre` leaves the read loop, the loop over `pre` followed by
other lines goes on over those in the catalog reached. -/
theorem Manager.readLines_append_reach : ∀ (pre : List Str) (m m1 : Manager) (rest : List Str),
    m.reach pre = some m1 → m.readLines (pre ++ rest) = m1.readLines rest := by
  intro pre
  induction pre with
  | nil =>
    intro m m1 rest h
    simp only [Manager.reach, Option.some.injEq] at h
    subst h; rfl
  | cons l ls ih =>
    intro m m1 rest h
    simp only [Manager.reach] at h
    simp only [List.cons_append, Manager.readLines]
    cases hr : (m.readLine l).2 with
    | none =>
      rw [hr] at h
      simp only [] at h ⊢
      exact ih _ _ _ h
    | some r =>
      rw [hr] at h
      cases h

/-- A Photo or Video record, or a Film record with a positive count, whose name is
bound in the entity store leaves the read loop with a normal return and the
catalog as it was. -/
theorem Manager.readLine_duplicate (m : Manager) (line : Str) (hk : knownTag line = true)
    (hname : (m.mediaCollection (recordName line)).isSome = true)
    (hcount : recordTag line = "Film".toList → 0 < recordCount line) :
    m.readLine line = (m, some (.ok ())) := by
  have hc : m.mediaCollection.count (recordName line) > 0 :=
    (NameMap.count_pos_iff _ _).mpr hname
  rw [Manager.readLine_eq]
  by_cases h1 : recordTag line = "Photo".toList
  · simp [h1, afterCreate, Manager.createPhoto, hc, Err.isException]
  · by_cases h2 : recordTag line = "Video".toList
    · simp [h1, h2, afterCreate, Manager.createVideo, hc, Err.isException]
    · by_cases h3 : recordTag line = "Film".toList
      · have hpos := hcount h3
        have hne : recordCount line ≠ 0 := by omega
        have hnn : ¬ recordCount line < 0 := by omega
        simp [h1, h2, h3, hne, hnn, afterCreate, Manager.createFilm, Film.construct,
          readChapters_length, hc, Err.isException]
      · simp only [knownTag, Bool.or_eq_true, decide_eq_true_eq] at hk
        rcases hk with (h | h) | h
        · exact absurd h h1
        · exact absurd h h2
        · exact absurd h h3

/-- A line that lets the loop go on is passed, and the next line is reached in the
catalog it made. -/
theorem Manager.reach_single (m : Manager) (line : Str) (h : (m.readLine line).2 = none) :
    m.reach [line] = some (m.readLine line).1 := by
  simp [Manager.reach, h]

/-- A Film record whose count reads as zero leaves the read loop with
`std::invalid_argument` and the catalog as it was. -/
theorem Manager.readLine_film_zero (m : Manager) (line : Str)
    (htag : recordTag line = "Film".toList) (hcount : recordCount line = 0) :
    m.readLine line
      = (m, some (.error (.invalidArgument "Chapters cannot be empty!".toList))) := by
  have h1 : recordTag line ≠ "Photo".toList := by rw [htag]; decide
  have h2 : recordTag line ≠ "Video".toList := by rw [htag]; decide
  rw [Manager.readLine_eq]
  simp [h1, h2, htag, hcount]

/-- A Film record whose count reads as a negative number leaves the read loop with
`std::bad_array_new_length` and the catalog as it was. -/
theorem Manager.readLine_film_negative (m : Manager) (line : Str)
    (htag : recordTag line = "Film".toList) (hcount : recordCount line < 0) :
    m.readLine line = (m, some (.error .badArrayNewLength)) := by
  have h1 : recordTag line ≠ "Photo".toList := by rw [htag]; decide
  have h2 : recordTag line ≠ "Video".toList := by rw [htag]; decide
  have hne : recordCount line ≠ 0 := by omega
  rw [Manager.readLine_eq]
  simp [h1, h2, htag, hcount, hne]

/-- The read loop ends at a line that leaves it, in the catalog reached. -/
theorem Manager.readLines_stop (m m1 : Manager) (pre : List Str) (line : Str)
    (post : List Str) (r : Except Err Unit) (hreach : m.reach pre = some m1)
    (hline : m1.readLine line = (m1, some r)) :
    m.readLines (pre ++ line :: post) = (m1, r) := by
  rw [Manager.readLines_append_reach pre m m1 _ hreach]
  simp [Manager.readLines, hline]

/-- C16: let the read loop reach, after the lines `pre` and in the catalog `m1`, a
record (first word `Photo`, `Video` or `Film`) whose name is bound in the
entity store of `m1`. Then the loop ends at that record: whatever lines
follow, the catalog after `read` is `m1`, the one the earlier lines made, and
the result is the same; no later line installs anything. -/
theorem C16_replay_stops_at_duplicate (m m1 : Manager) (pre : List Str) (line : Str)
    (hreach : m.reach pre = some m1) (hk : knownTag line = true)
    (hname : (m1.mediaCollection (recordName line)).isSome = true) :
    ∃ r : Except Err Unit, ∀ post : List Str, m.readLines (pre ++ line :: post) = (m1, r) := by
  by_cases hfilm : recordTag line = "Film".toList
  · rcases lt_trichotomy (recordCount line) 0 with hlt | heq | hgt
    · exact ⟨_, fun post => Manager.readLines_stop m m1 pre line post _ hreach
        (Manager.readLine_film_negative m1 line hfilm hlt)⟩
    · exact ⟨_, fun post => Manager.readLines_stop m m1 pre line post _ hreach
        (Manager.readLine_film_zero m1 line hfilm heq)⟩
    · exact ⟨_, fun post => Manager.readLines_stop m m1 pre line post _ hreach
        (Manager.readLine_duplicate m1 line hk hname (fun _ => hgt))⟩
  · exact ⟨_, fun post => Manager.readLines_stop m m1 pre line post _ hreach
      (Manager.readLine_duplicate m1 line hk hname (fun h => absurd h hfilm))⟩

/-- C16, instance: the record of `v1`, a second record named `v1`, then the record of
`v2`: the catalog after the loop is the one the first line made. -/
theorem C16_replay_stops_at_duplicate_witness :
    ∃ r : Except Err Unit, ∀ post : List Str,
      Manager.empty.readLines (["Video v1 /y.mp4 10".toList] ++ "Video v1 /o.mp4 7".toList :: post)
        = ((Manager.empty.readLine "Video v1 /y.mp4 10".toList).1, r) :=
  C16_replay_stops_at_duplicate Manager.empty
    (Manager.empty.readLine "Video v1 /y.mp4 10".toList).1 ["Video v1 /y.mp4 10".toList]
    "Video v1 /o.mp4 7".toList (Manager.reach_single _ _ (by decide)) (by decide) (by decide)

/-- C17 (as stated, refuted): in the catalog that holds the Video `v1`, `read` of the
file with the records of a Video named `v1` and of a Video named `v2` returns
normally, without raising, and `v2` is not installed. -/
theorem C17_duplicate_record_returns_normally :
    ((Manager.empty.createVideo "v1".toList "/y.mp4".toList 10).1.read
      (fun n => if n = "db".toList then
        some "Video v1 /o.mp4 7\nVideo v2 /z.mp4 3\n".toList else none) "db".toList).2
      = .ok () ∧
    ((Manager.empty.createVideo "v1".toList "/y.mp4".toList 10).1.read
      (fun n => if n = "db".toList then
        some "Video v1 /o.mp4 7\nVideo v2 /z.mp4 3\n".toList else none)
      "db".toList).1.mediaCollection "v2".toList = none ∧
    ((Manager.empty.createVideo "v1".toList "/y.mp4".toList 10).1.read
      (fun n => if n = "db".toList then
        some "Video v1 /o.mp4 7\nVideo v2 /z.mp4 3\n".toList else none)
      "db".toList).1.mediaCollection "v1".toList
      = some (.video ⟨"v1".toList, "/y.mp4".toList, 10⟩) := by
  decide

/-- C17 (amended): let the read loop reach, after the lines `pre` and in the catalog
`m1`, a record whose name is bound in the entity store of `m1`. For a Photo
record, a Video record and a Film record whose count reads as a positive
number, `read` ends there and returns normally, the `NamingError` being caught
inside `read`. Only a Film record whose count reads as zero or as a negative
number makes `read` raise, `std::invalid_argument` or
`std::bad_array_new_length`, before the name is looked up. -/
theorem C17_duplicate_record_outcome (m m1 : Manager) (pre : List Str) (line : Str)
    (post : List Str) (hreach : m.reach pre = some m1) (hk : knownTag line = true)
    (hname : (m1.mediaCollection (recordName line)).isSome = true) :
    ((recordTag line = "Film".toList → 0 < recordCount line) →
      m.readLines (pre ++ line :: post) = (m1, .ok ())) ∧
    (recordTag line = "Film".toList → recordCount line = 0 →
      m.readLines (pre ++ line :: post)
        = (m1, .error (.invalidArgument "Chapters cannot be empty!".toList))) ∧
    (recordTag line = "Film".toList → recordCount line < 0 →
      m.readLines (pre ++ line :: post) = (m1, .error .badArrayNewLength)) :=
  ⟨fun hcount => Manager.readLines_stop m m1 pre line post _ hreach
      (Manager.readLine_duplicate m1 line hk hname hcount),
   fun htag hcount => Manager.readLines_stop m m1 pre line post _ hreach
      (Manager.readLine_film_zero m1 line htag hcount),
   fun htag hcount => Manager.readLines_stop m m1 pre line post _ hreach
      (Manager.readLine_film_negative m1 line htag hcount)⟩

/-- C17 (amended), instance: the record of the Film `f1` twice, then the record of
`v2`: the loop returns normally in the catalog the first line made. -/
theorem C17_duplicate_record_outcome_witness :
    Manager.empty.readLines (["Film f1 /z.mp4 20 2 10 10".toList]
        ++ "Film f1 /z.mp4 20 2 10 10".toList :: ["Video v2 /z.mp4 3".toList])
      = ((Manager.empty.readLine "Film f1 /z.mp4 20 2 10 10".toList).1, .ok ()) :=
  (C17_duplicate_record_outcome Manager.empty
    (Manager.empty.readLine "Film f1 /z.mp4 20 2 10 10".toList).1
    ["Film f1 /z.mp4 20 2 10 10".toList] "Film f1 /z.mp4 20 2 10 10".toList
    ["Video v2 /z.mp4 3".toList] (Manager.reach_single _ _ (by decide)) (by decide)
    (by decide)).1 (fun _ => by decide)

/-- C18: let the read loop reach, after the lines `pre` and in the catalog `m1`, a
Film record whose count reads as zero. Then `read` raises
`std::invalid_argument` there: whatever lines follow, the catalog after
`read` is `m1`, which holds what the earlier lines installed and no Film for
that record. -/
theorem C18_zero_count_film_raises (m m1 : Manager) (pre : List Str) (line : Str)
    (post : List Str) (hreach : m.reach pre = some m1)
    (htag : recordTag line = "Film".toList) (hcount : recordCount line = 0) :
    m.readLines (pre ++ line :: post)
      = (m1, .error (.invalidArgument "Chapters cannot be empty!".toList)) :=
  Manager.readLines_stop m m1 pre line post _ hreach
    (Manager.readLine_film_zero m1 line htag hcount)

/-- C18, instance: the record of `v1`, a Film record with the count `0`, then the
record of `v2`. -/
theorem C18_zero_count_film_raises_witness :
    Manager.empty.readLines (["Video v1 /y.mp4 10".toList]
        ++ "Film f1 /z.mp4 20 0".toList :: ["Video v2 /z.mp4 3".toList])
      = ((Manager.empty.readLine "Video v1 /y.mp4 10".toList).1,
          .error (.invalidArgument "Chapters cannot be empty!".toList)) :=
  C18_zero_count_film_raises Manager.empty
    (Manager.empty.readLine "Video v1 /y.mp4 10".toList).1 ["Video v1 /y.mp4 10".toList]
    "Film f1 /z.mp4 20 0".toList ["Video v2 /z.mp4 3".toList]
    (Manager.reach_single _ _ (by decide)) (by decide) (by decide)

/-! ## Words of a line -/

theorem startsBlank_tailWords (ws : List Str) : startsBlank (tailWords ws) = true := by
  cases ws <;> rfl

theorem extractWord_nil : extractWord [] = ([], []) := rfl

/-- The next extraction from the words left delivers the first of them. -/
theorem extractWord_tailWords_cons (w : Str) (ws : List Str) (hw : goodWord w) :
    extractWord (tailWords (w :: ws)) = (w, tailWords ws) :=
  extractWord_space_word w (tailWords ws) hw.1 hw.2 (startsBlank_tailWords ws)

/-- The first extraction from a line delivers its first word. -/
theorem extractWord_joinWords_cons (w : Str) (ws : List Str) (hw : goodWord w) :
    extractWord (joinWords (w :: ws)) = (w, tailWords ws) :=
  extractWord_word w (tailWords ws) hw.1 hw.2 (startsBlank_tailWords ws)

/-- After `k` extractions from the words `ws`, the words `ws.drop k` are left, and
the next word is the first of them, or empty when none is left. -/
theorem words_tailWords : ∀ (k : Nat) (ws : List Str), (∀ w ∈ ws, goodWord w) →
    dropWords k (tailWords ws) = tailWords (ws.drop k) ∧
    nthWord k (tailWords ws) = (ws.drop k).headD [] := by
  intro k
  induction k with
  | zero =>
    intro ws hws
    refine ⟨rfl, ?_⟩
    cases ws with
    | nil => rfl
    | cons w rest =>
      simp [nthWord, extractWord_tailWords_cons w rest (hws w (by simp))]
  | succ k ih =>
    intro ws hws
    cases ws with
    | nil =>
      have := ih [] (by simp)
      simpa [nthWord, dropWords, tailWords, extractWord_nil] using this
    | cons w rest =>
      have hrest : ∀ x ∈ rest, goodWord x := fun x hx => hws x (by simp [hx])
      have := ih rest hrest
      simpa [nthWord, dropWords, extractWord_tailWords_cons w rest (hws w (by simp))] using this

/-- Words of a line made of the first word `t` and the words `ws`. -/
theorem words_joinWords (t : Str) (ws : List Str) (ht : goodWord t)
    (hws : ∀ w ∈ ws, goodWord w) :
    recordTag (joinWords (t :: ws)) = t ∧
    (∀ k, nthWord (k + 1) (joinWords (t :: ws)) = (ws.drop k).headD []) ∧
    (∀ k, dropWords (k + 1) (joinWords (t :: ws)) = tailWords (ws.drop k)) := by
  refine ⟨?_, ?_, ?_⟩
  · simp [recordTag, nthWord, extractWord_joinWords_cons t ws ht]
  · intro k
    simp only [nthWord, extractWord_joinWords_cons t ws ht]
    exact (words_tailWords k ws hws).2
  · intro k
    simp only [dropWords, extractWord_joinWords_cons t ws ht]
    exact (words_tailWords k ws hws).1

/-- The chapter loop of `Manager::read` over the words left: the values `atoi` gives
for the first `k` of them, and `0` for each word that is missing. -/
theorem readChapters_tailWords : ∀ (k : Nat) (ws : List Str), (∀ w ∈ ws, goodWord w) →
    readChapters k (tailWords ws) = (ws.take k).map atoi ++ List.replicate (k - ws.length) 0 := by
  intro k
  induction k with
  | zero => intro ws _; simp [readChapters]
  | succ k ih =>
    intro ws hws
    cases ws with
    | nil =>
      have h0 : atoi [] = 0 := by decide
      have := ih [] (by simp)
      simp only [tailWords] at this
      simp [readChapters, tailWords, extractWord_nil, h0, this, List.replicate_succ]
    | cons w rest =>
      have hrest : ∀ x ∈ rest, goodWord x := fun x hx => hws x (by simp [hx])
      simp [readChapters, extractWord_tailWords_cons w rest (hws w (by simp)), ih rest hrest]

/-! ## Value `atoi` gives for a word -/

theorem toInt32_clampLong (v : Int) (h : isInt v) : toInt32 (clampLong v) = v := by
  unfold isInt INT_MIN INT_MAX at h
  unfold clampLong toInt32
  split
  · omega
  · split <;> omega

/-- Library function `atoi` in terms of the leading number of the text it reads. -/
theorem atoi_eq (t : Str) :
    atoi t = toInt32 (clampLong (leadValue (t.dropWhile isspace))) := rfl

theorem dropWhile_isspace_of_noSpace (t : Str) (h : noSpace t) : t.dropWhile isspace = t := by
  cases t with
  | nil => rfl
  | cons c r =>
    have hc : isspace c = false := h c (by simp)
    exact List.dropWhile_cons_of_neg (by simp [hc])

/-- For a word free of white space whose leading number is an `int`, `atoi` gives
that number. -/
theorem atoi_leadValue (t : Str) (hns : noSpace t) (hr : isInt (leadValue t)) :
    atoi t = leadValue t := by
  rw [atoi_eq, dropWhile_isspace_of_noSpace t hns, toInt32_clampLong _ hr]

/-- A word without a digit after its optional sign has the leading number zero. -/
theorem leadValue_of_empty_run (t : Str) (h : digitRun t = []) : leadValue t = 0 := by
  unfold leadValue
  rw [h]
  split <;> rfl

theorem signNeg_cons_of_ne (c : Char) (r : Str) (h : c ≠ '-') : signNeg (c :: r) = false := by
  unfold signNeg
  split
  · rename_i heq; cases heq; exact absurd rfl h
  · rfl

theorem unsigned_cons_of_ne (c : Char) (r : Str) (h1 : c ≠ '-') (h2 : c ≠ '+') :
    unsigned (c :: r) = c :: r := by
  unfold unsigned
  split
  · rename_i heq; cases heq; exact absurd rfl h1
  · rename_i heq; cases heq; exact absurd rfl h2
  · rfl

theorem intTokenValue_cons_of_ne (c : Char) (r : Str) (h1 : c ≠ '-') (h2 : c ≠ '+') :
    intTokenValue (c :: r) = (parseNat (c :: r) : Int) := by
  unfold intTokenValue
  split
  · rename_i heq; cases heq; exact absurd rfl h1
  · rename_i heq; cases heq; exact absurd rfl h2
  · rfl

theorem isIntToken_cons_of_ne (c : Char) (r : Str) (h1 : c ≠ '-') (h2 : c ≠ '+') :
    isIntToken (c :: r) = (c :: r).all isdigit := by
  unfold isIntToken
  split
  · rename_i heq; cases heq; exact absurd rfl h1
  · rename_i heq; cases heq; exact absurd rfl h2
  · simp

/-- The leading number of digits followed by a character that is no digit is the
value of the digits. -/
theorem leadValue_digits_then_other (ds : Str) (c : Char) (junk : Str) (hne : ds ≠ [])
    (hds : ∀ x ∈ ds, isdigit x = true) (hc : isdigit c = false) :
    leadValue (ds ++ c :: junk) = (parseNat ds : Int) := by
  obtain ⟨d, r, rfl⟩ : ∃ d r, ds = d :: r := by
    cases ds with
    | nil => exact absurd rfl hne
    | cons d r => exact ⟨d, r, rfl⟩
  have hd : isdigit d = true := hds d (by simp)
  have hminus : d ≠ '-' := by rintro rfl; exact absurd hd (by decide)
  have hplus : d ≠ '+' := by rintro rfl; exact absurd hd (by decide)
  have hrun : digitRun ((d :: r) ++ c :: junk) = d :: r := by
    unfold digitRun
    rw [List.cons_append, unsigned_cons_of_ne d _ hminus hplus, ← List.cons_append,
      List.takeWhile_append_of_pos hds]
    simp [List.takeWhile_cons, hc]
  unfold leadValue
  rw [hrun, List.cons_append, signNeg_cons_of_ne d _ hminus]
  simp

theorem takeWhile_isdigit_of_all (r : Str) (h : r.all isdigit = true) :
    r.takeWhile isdigit = r := by
  rw [List.takeWhile_eq_self_iff]
  intro c hc
  exact List.all_eq_true.mp h c hc

/-- The leading number of a decimal integer word is the integer it denotes. -/
theorem leadValue_intToken (t : Str) (h : isIntToken t = true) :
    leadValue t = intTokenValue t := by
  cases t with
  | nil => simp [isIntToken] at h
  | cons c r =>
    by_cases h1 : c = '-'
    · subst h1
      simp only [isIntToken, Bool.and_eq_true] at h
      simp [leadValue, signNeg, digitRun, unsigned, intTokenValue,
        takeWhile_isdigit_of_all r h.2]
    · by_cases h2 : c = '+'
      · subst h2
        simp only [isIntToken, Bool.and_eq_true] at h
        simp [leadValue, signNeg, digitRun, unsigned, intTokenValue,
          takeWhile_isdigit_of_all r h.2]
      · rw [isIntToken_cons_of_ne c r h1 h2] at h
        unfold leadValue digitRun
        rw [signNeg_cons_of_ne c r h1, unsigned_cons_of_ne c r h1 h2,
          intTokenValue_cons_of_ne c r h1 h2, takeWhile_isdigit_of_all _ h]
        simp

theorem noSpace_of_all_isdigit (r : Str) (h : r.all isdigit = true) : noSpace r :=
  fun c hc => isspace_of_isdigit c (List.all_eq_true.mp h c hc)

/-- A decimal integer word is a non-empty word free of white space. -/
theorem goodWord_of_isIntToken (t : Str) (h : isIntToken t = true) : goodWord t := by
  cases t with
  | nil => simp [isIntToken] at h
  | cons c r =>
    refine ⟨by simp, ?_⟩
    by_cases h1 : c = '-'
    · subst h1
      simp only [isIntToken, Bool.and_eq_true] at h
      exact noSpace_cons (by decide) (noSpace_of_all_isdigit r h.2)
    · by_cases h2 : c = '+'
      · subst h2
        simp only [isIntToken, Bool.and_eq_true] at h
        exact noSpace_cons (by decide) (noSpace_of_all_isdigit r h.2)
      · rw [isIntToken_cons_of_ne c r h1 h2] at h
        exact noSpace_of_all_isdigit _ h

/-- For a decimal integer word whose value is an `int`, `atoi` gives that value. -/
theorem atoi_intToken (t : Str) (h : intToken t) : atoi t = intTokenValue t := by
  have hl := leadValue_intToken t h.1
  rw [atoi_leadValue t (goodWord_of_isIntToken t h.1).2 (by rw [hl]; exact h.2), hl]

/-! ## Records read by the loop -/

/-- The body of the read loop on a line that begins with `Photo` and four fields. -/
theorem Manager.readLine_photo_words (m : Manager) (n f la lo : Str) (rest : List Str)
    (hn : goodWord n) (hf : goodWord f) (hla : goodWord la) (hlo : goodWord lo)
    (hrest : ∀ w ∈ rest, goodWord w) :
    m.readLine (joinWords ("Photo".toList :: n :: f :: la :: lo :: rest))
      = afterCreate (m.createPhoto n f (atof la) (atof lo)) := by
  have hws : ∀ w ∈ n :: f :: la :: lo :: rest, goodWord w := by
    intro w hw
    simp only [List.mem_cons] at hw
    rcases hw with h | h | h | h | h
    · subst h; exact hn
    · subst h; exact hf
    · subst h; exact hla
    · subst h; exact hlo
    · exact hrest w h
  obtain ⟨htag, hword, _⟩ := words_joinWords "Photo".toList _ (by decide) hws
  have h1 := hword 0
  have h2 := hword 1
  have h3 := hword 2
  have h4 := hword 3
  simp only [List.drop, List.headD] at h1 h2 h3 h4
  rw [Manager.readLine_eq, htag]
  simp only [if_true, recordName, h1, h2, h3, h4]

/-- The body of the read loop on a line that begins with `Video`, a name and a file
path: the duration is what `atoi` gives for the next word, the empty word when
the line ends there. -/
theorem Manager.readLine_video_words (m : Manager) (n f : Str) (rest : List Str)
    (hn : goodWord n) (hf : goodWord f) (hrest : ∀ w ∈ rest, goodWord w) :
    m.readLine (joinWords ("Video".toList :: n :: f :: rest))
      = afterCreate (m.createVideo n f (atoi (rest.headD []))) := by
  have hws : ∀ w ∈ n :: f :: rest, goodWord w := by
    intro w hw
    simp only [List.mem_cons] at hw
    rcases hw with h | h | h
    · subst h; exact hn
    · subst h; exact hf
    · exact hrest w h
  obtain ⟨htag, hword, _⟩ := words_joinWords "Video".toList _ (by decide) hws
  have h1 := hword 0
  have h2 := hword 1
  have h3 := hword 2
  simp only [List.drop, List.headD_cons] at h1 h2 h3
  have hv : ("Video".toList = "Photo".toList) = False := by decide
  rw [Manager.readLine_eq, htag]
  simp only [hv, if_false, if_true, recordName, h1, h2, h3]

/-- The body of the read loop on a line that begins with `Film`, a name, a file
path, a duration and a count: the chapters are what `atoi` gives for the next
words, as many as the count says, and `0` for each missing word. -/
theorem Manager.readLine_film_words (m : Manager) (n f d c : Str) (chs : List Str)
    (hn : goodWord n) (hf : goodWord f) (hd : goodWord d) (hc : goodWord c)
    (hchs : ∀ w ∈ chs, goodWord w) :
    m.readLine (joinWords ("Film".toList :: n :: f :: d :: c :: chs))
      = if atoi c ≠ 0 then
          if atoi c < 0 then (m, some (.error .badArrayNewLength))
          else afterCreate (m.createFilm n f (atoi d)
            (some ((chs.take (atoi c).toNat).map atoi
              ++ List.replicate ((atoi c).toNat - chs.length) 0)) (atoi c).toNat)
        else (m, some (.error (.invalidArgument "Chapters cannot be empty!".toList))) := by
  have hws : ∀ w ∈ n :: f :: d :: c :: chs, goodWord w := by
    intro w hw
    simp only [List.mem_cons] at hw
    rcases hw with h | h | h | h | h
    · subst h; exact hn
    · subst h; exact hf
    · subst h; exact hd
    · subst h; exact hc
    · exact hchs w h
  obtain ⟨htag, hword, hdrop⟩ := words_joinWords "Film".toList _ (by decide) hws
  have h1 := hword 0
  have h2 := hword 1
  have h3 := hword 2
  have h4 := hword 3
  have h5 := hdrop 4
  simp only [List.drop, List.headD] at h1 h2 h3 h4 h5
  have hv1 : ("Film".toList = "Photo".toList) = False := by decide
  have hv2 : ("Film".toList = "Video".toList) = False := by decide
  rw [Manager.readLine_eq, htag]
  simp only [hv1, hv2, if_false, if_true, recordName, recordCount, h1, h2, h3, h4, h5,
    readChapters_tailWords _ chs hchs]

/-- The body of the read loop on the line of a well-formed record whose name is not
in the entity store binds the name to the entity the record denotes and lets
the loop go on. -/
theorem Manager.readLine_record (m : Manager) (r : Record) (hwf : r.wellFormed)
    (hfresh : m.mediaCollection r.name = none) :
    m.readLine r.line
      = (⟨m.mediaCollection.assign r.name r.entity, m.mediaGroups⟩, none) := by
  have hcnt : ¬ (m.mediaCollection.count r.name > 0) := by
    rw [NameMap.count_pos_iff, hfresh]; simp
  cases r with
  | photo n f la lo =>
    obtain ⟨hn, hf, hla, hlo⟩ := hwf
    simp only [Record.name] at hcnt
    simp only [Record.line, Record.words]
    rw [Manager.readLine_photo_words m n f la lo [] hn hf hla hlo (by simp)]
    simp [afterCreate, Manager.createPhoto, hcnt, Record.name, Record.entity]
  | video n f d =>
    obtain ⟨hn, hf, hd⟩ := hwf
    simp only [Record.name] at hcnt
    simp only [Record.line, Record.words]
    rw [Manager.readLine_video_words m n f [d] hn hf
      (by intro w hw; simp only [List.mem_singleton] at hw; subst hw
          exact goodWord_of_isIntToken _ hd.1)]
    simp [afterCreate, Manager.createVideo, hcnt, Record.name, Record.entity,
      atoi_intToken d hd]
  | film n f d c chs =>
    obtain ⟨hn, hf, hd, hc, hval, hpos, hchs⟩ := hwf
    simp only [Record.name] at hcnt
    have hgood : ∀ w ∈ chs, goodWord w := fun w hw => goodWord_of_isIntToken w (hchs w hw).1
    have hatoi : atoi c = (chs.length : Int) := by rw [atoi_intToken c hc, hval]
    have hne : ((chs.length : Nat) : Int) ≠ 0 := by omega
    have hnn : ¬ (((chs.length : Nat) : Int) < 0) := by omega
    have hmap : chs.map atoi = chs.map intTokenValue :=
      List.map_congr_left (fun t ht => atoi_intToken t (hchs t ht))
    simp only [Record.line, Record.words]
    rw [Manager.readLine_film_words m n f d c chs hn hf (goodWord_of_isIntToken _ hd.1)
      (goodWord_of_isIntToken _ hc.1) hgood, hatoi]
    have htake : List.take chs.length (chs.map intTokenValue) = chs.map intTokenValue :=
      List.take_of_length_le (by simp)
    simp [hne, hnn, afterCreate, Manager.createFilm, Film.construct, hcnt, Record.name,
      Record.entity, atoi_intToken d hd, hmap, htake]

/-- The read loop over the lines of well-formed records with distinct names, none
in the entity store: every record is installed, nothing else changes. -/
theorem Manager.readLines_records : ∀ (rs : List Record) (m : Manager),
    (∀ r ∈ rs, r.wellFormed) → (rs.map Record.name).Nodup →
    (∀ r ∈ rs, m.mediaCollection r.name = none) →
    (m.readLines (rs.map Record.line)).2 = .ok () ∧
    (m.readLines (rs.map Record.line)).1.mediaGroups = m.mediaGroups ∧
    (∀ r ∈ rs, (m.readLines (rs.map Record.line)).1.mediaCollection r.name = some r.entity) ∧
    (∀ k, (∀ r ∈ rs, r.name ≠ k) →
      (m.readLines (rs.map Record.line)).1.mediaCollection k = m.mediaCollection k) := by
  intro rs
  induction rs with
  | nil =>
    intro m _ _ _
    exact ⟨rfl, rfl, by simp, fun _ _ => rfl⟩
  | cons r rest ih =>
    intro m hwf hnodup hfresh
    have hr := Manager.readLine_record m r (hwf r (by simp)) (hfresh r (by simp))
    have hnd : r.name ∉ rest.map Record.name ∧ (rest.map Record.name).Nodup := by
      simpa [List.nodup_cons] using hnodup
    have hne : ∀ x ∈ rest, x.name ≠ r.name := by
      intro x hx heq
      exact hnd.1 (List.mem_map.mpr ⟨x, hx, heq⟩)
    have hfresh' : ∀ x ∈ rest,
        (⟨m.mediaCollection.assign r.name r.entity, m.mediaGroups⟩ : Manager).mediaCollection
          x.name = none := by
      intro x hx
      simp [NameMap.assign, hne x hx, hfresh x (by simp [hx])]
    obtain ⟨h1, h2, h3, h4⟩ := ih ⟨m.mediaCollection.assign r.name r.entity, m.mediaGroups⟩
      (fun x hx => hwf x (by simp [hx])) hnd.2 hfresh'
    have hstep : m.readLines ((r :: rest).map Record.line)
        = (⟨m.mediaCollection.assign r.name r.entity, m.mediaGroups⟩ : Manager).readLines
            (rest.map Record.line) := by
      simp [Manager.readLines, hr]
    rw [hstep]
    refine ⟨h1, h2, ?_, ?_⟩
    · intro x hx
      rcases List.mem_cons.mp hx with h | h
      · subst h
        rw [h4 x.name (fun y hy => hne y hy)]
        simp [NameMap.assign]
      · exact h3 x h
    · intro k hk
      rw [h4 k (fun y hy => hk y (by simp [hy]))]
      have : k ≠ r.name := fun h => hk r (by simp) h.symm
      simp [NameMap.assign, this]

/-- C19: let the lines of a file be the lines of well-formed records (name, file path
and coordinates non-empty and free of white space; duration and chapters
decimal integers within `int`; the count of a Film a decimal integer `n ≥ 1`
followed by exactly `n` chapter fields), with pairwise distinct names, none of
them a key of the entity store. Then `read` of the file returns normally, the
group store is kept, each name of a record is bound to the entity the record
denotes (its variant, name, file path and the values of its numeric fields),
and every other key of the entity store is bound as before. -/
theorem C19_replay_well_formed_records (m : Manager) (fs : Files) (filename content : Str)
    (rs : List Record) (hfile : fs filename = some content)
    (hlines : fileLines content = rs.map Record.line)
    (hwf : ∀ r ∈ rs, r.wellFormed) (hdistinct : (rs.map Record.name).Nodup)
    (hfresh : ∀ r ∈ rs, m.mediaCollection r.name = none) :
    (m.read fs filename).2 = .ok () ∧
    (m.read fs filename).1.mediaGroups = m.mediaGroups ∧
    (∀ r ∈ rs, (m.read fs filename).1.mediaCollection r.name = some r.entity) ∧
    (∀ k, (∀ r ∈ rs, r.name ≠ k) →
      (m.read fs filename).1.mediaCollection k = m.mediaCollection k) := by
  have hread : m.read fs filename = m.readLines (rs.map Record.line) := by
    simp [Manager.read, hfile, hlines]
  rw [hread]
  exact Manager.readLines_records rs m hwf hdistinct hfresh

set_option maxRecDepth 100000 in
set_option exponentiation.threshold 3000 in
/-- C19, instance: the file with the records of the Photo `p1`, the Video `v1` and
the Film `f1` with the chapters `10` and `10`, read into the empty catalog. -/
theorem C19_replay_well_formed_records_witness :
    (Manager.empty.read (fun n => if n = "db".toList then
        some "Photo p1 /x.jpg 1.0 2.0\nVideo v1 /y.mp4 10\nFilm f1 /z.mp4 20 2 10 10\n".toList
        else none) "db".toList).1.mediaCollection "f1".toList
      = some (.film ⟨"f1".toList, "/z.mp4".toList, 20, some [10, 10], 2⟩) :=
  (C19_replay_well_formed_records Manager.empty
    (fun n => if n = "db".toList then
      some "Photo p1 /x.jpg 1.0 2.0\nVideo v1 /y.mp4 10\nFilm f1 /z.mp4 20 2 10 10\n".toList
      else none) "db".toList
    "Photo p1 /x.jpg 1.0 2.0\nVideo v1 /y.mp4 10\nFilm f1 /z.mp4 20 2 10 10\n".toList
    [.photo "p1".toList "/x.jpg".toList "1.0".toList "2.0".toList,
     .video "v1".toList "/y.mp4".toList "10".toList,
     .film "f1".toList "/z.mp4".toList "20".toList "2".toList ["10".toList, "10".toList]]
    (by decide) (by decide) (by decide) (by decide) (fun _ _ => rfl)).2.2.1
    (.film "f1".toList "/z.mp4".toList "20".toList "2".toList ["10".toList, "10".toList])
    (by decide)

/-! ## Numeric fields that are not decimal integers -/

/-- Chapter values read for a count `k` from the words `chs`: as many as the count
says, and they fill an array of `k` elements. -/
theorem chapters_read_length (k : Nat) (chs : List Str) :
    ((chs.take k).map atoi ++ List.replicate (k - chs.length) 0).length = k := by
  simp only [List.length_append, List.length_map, List.length_take, List.length_replicate]
  omega

/-- Value `atoi` gives for a word without white space: zero when no digit follows
the optional sign, the number of the leading digits when another character
ends them. -/
theorem atoi_leading_digits (t : Str) (hns : noSpace t) :
    (digitRun t = [] → atoi t = 0) ∧
    (∀ (ds : Str) (c : Char) (junk : Str), t = ds ++ c :: junk → ds ≠ [] →
      (∀ x ∈ ds, isdigit x = true) → isdigit c = false → isInt (parseNat ds : Int) →
      atoi t = (parseNat ds : Int)) := by
  constructor
  · intro h
    have h0 := leadValue_of_empty_run t h
    rw [atoi_leadValue t hns (by rw [h0]; decide), h0]
  · intro ds c junk ht hne hds hc hr
    have hl : leadValue t = (parseNat ds : Int) := by
      rw [ht]; exact leadValue_digits_then_other ds c junk hne hds hc
    rw [atoi_leadValue t hns (by rw [hl]; exact hr), hl]

/-- Value `atoi` gives for every word without white space: the number that the
optional sign and the digits after it write, saturated to the range of `long`
and converted to `int`. When the word is one or more digits followed by another
character, that number is the one the digits write. -/
theorem atoi_word_value (t : Str) (hns : noSpace t) :
    atoi t = toInt32 (clampLong (leadValue t)) ∧
    (isInt (leadValue t) → atoi t = leadValue t) ∧
    (digitRun t = [] → atoi t = 0) ∧
    (∀ (ds : Str) (c : Char) (junk : Str), t = ds ++ c :: junk → ds ≠ [] →
      (∀ x ∈ ds, isdigit x = true) → isdigit c = false →
      atoi t = toInt32 (clampLong (parseNat ds : Int)) ∧
      (isInt (parseNat ds : Int) → atoi t = (parseNat ds : Int))) := by
  have hval : atoi t = toInt32 (clampLong (leadValue t)) := by
    rw [atoi_eq, dropWhile_isspace_of_noSpace t hns]
  refine ⟨hval, atoi_leadValue t hns, (atoi_leading_digits t hns).1, ?_⟩
  intro ds c junk ht hne hds hc
  have hl : leadValue t = (parseNat ds : Int) := by
    rw [ht]; exact leadValue_digits_then_other ds c junk hne hds hc
  refine ⟨by rw [hval, hl], ?_⟩
  intro hr
  rw [hval, hl, toInt32_clampLong _ hr]

/-- C20 (as stated, refuted): the duration token `12ab` is not a decimal integer, and
`read` of the file with the record `Video v1 /y.mp4 12ab` installs the Video
with the duration 12, not 0; likewise the record `Film f1 /z.mp4 20x 1 7x`
is installed with the duration 20 and the chapter 7. -/
theorem C20_trailing_text_keeps_leading_digits :
    isIntToken "12ab".toList = false ∧
    (Manager.empty.read (fun n => if n = "db".toList then
        some "Video v1 /y.mp4 12ab\n".toList else none) "db".toList).2 = .ok () ∧
    (Manager.empty.read (fun n => if n = "db".toList then
        some "Video v1 /y.mp4 12ab\n".toList else none) "db".toList).1.mediaCollection
        "v1".toList
      = some (.video ⟨"v1".toList, "/y.mp4".toList, 12⟩) ∧
    isIntToken "20x".toList = false ∧ isIntToken "7x".toList = false ∧
    (Manager.empty.read (fun n => if n = "db".toList then
        some "Film f1 /z.mp4 20x 1 7x\n".toList else none) "db".toList).1.mediaCollection
        "f1".toList
      = some (.film ⟨"f1".toList, "/z.mp4".toList, 20, some [7], 1⟩) := by
  decide

/-- C20 (amended): a numeric field is installed with the value `atoi` gives for its
token, which is zero only when no digit follows the optional sign. Let `n` and `f`
be a name and a file path, non-empty and free of white space, `n` not a key of
the entity store. (1) The record `Video n f` followed by any words, or by none,
does not leave the read loop and binds `n` to the Video whose duration is the
`atoi` value of the next word, the empty word when the token is missing.
(2) The record `Film n f d c` followed by the words `chs`, where the count `c`
is a decimal integer `k ≥ 1`, does not leave the loop and binds `n` to the Film
whose duration is the `atoi` value of `d` and whose `k` chapters are the `atoi`
values of the first `k` words of `chs`, then `0` for each missing word (the
allocation `new int[k]` is taken to succeed).
(3) For every word `t` without white space, the empty word included, `atoi t` is
the number that the optional sign and the digits after it write, saturated to
the range of `long` and then converted to `int` (its value modulo `2^32` in the
range of `int`), hence that number itself when it is within `int`. It is `0`
when no digit follows the optional sign. When `t` is
one or more digits followed by another character, the number is the one these
digits write: `atoi t` is that number itself when it is within `int` (`12ab`
gives 12) and its conversion otherwise (`4294967301x` gives 5). -/
theorem C20_numeric_fields_read_by_atoi (m : Manager) (n f : Str)
    (hn : goodWord n) (hf : goodWord f) (hfresh : m.mediaCollection n = none) :
    (∀ rest : List Str, (∀ w ∈ rest, goodWord w) →
      m.readLine (joinWords ("Video".toList :: n :: f :: rest))
        = (⟨m.mediaCollection.assign n (.video ⟨n, f, atoi (rest.headD [])⟩),
            m.mediaGroups⟩, none)) ∧
    (∀ (d c : Str) (chs : List Str), goodWord d → intToken c → 1 ≤ intTokenValue c →
      (∀ w ∈ chs, goodWord w) →
      m.readLine (joinWords ("Film".toList :: n :: f :: d :: c :: chs))
        = (⟨m.mediaCollection.assign n (.film ⟨n, f, atoi d,
              some ((chs.take (intTokenValue c).toNat).map atoi
                ++ List.replicate ((intTokenValue c).toNat - chs.length) 0),
              (intTokenValue c).toNat⟩),
            m.mediaGroups⟩, none)) ∧
    (∀ t : Str, noSpace t →
      atoi t = toInt32 (clampLong (leadValue t)) ∧
      (isInt (leadValue t) → atoi t = leadValue t) ∧
      (digitRun t = [] → atoi t = 0) ∧
      (∀ (ds : Str) (c : Char) (junk : Str), t = ds ++ c :: junk → ds ≠ [] →
        (∀ x ∈ ds, isdigit x = true) → isdigit c = false →
        atoi t = toInt32 (clampLong (parseNat ds : Int)) ∧
        (isInt (parseNat ds : Int) → atoi t = (parseNat ds : Int)))) := by
  have hcnt : ¬ (m.mediaCollection.count n > 0) := by
    rw [NameMap.count_pos_iff, hfresh]; simp
  refine ⟨?_, ?_, atoi_word_value⟩
  · intro rest hrest
    rw [Manager.readLine_video_words m n f rest hn hf hrest]
    simp [afterCreate, Manager.createVideo, hcnt]
  · intro d c chs hd hc hpos hchs
    have hne : intTokenValue c ≠ 0 := by omega
    have hnn : ¬ (intTokenValue c < 0) := by omega
    have hlen := chapters_read_length (intTokenValue c).toNat chs
    rw [Manager.readLine_film_words m n f d c chs hn hf hd (goodWord_of_isIntToken _ hc.1) hchs,
      atoi_intToken c hc, if_pos hne, if_neg hnn]
    simp only [afterCreate, Manager.createFilm, Film.construct, hlen, le_refl, if_true, hcnt,
      if_false]
    rw [List.take_of_length_le (le_of_eq hlen)]

set_option maxRecDepth 100000 in
/-- C20 (amended), instance: in the empty catalog the record `Video v1 /y.mp4 12ab`
binds `v1` to a Video whose duration is the `atoi` value of `12ab`, which is
12; the `atoi` value of `4294967301x` is 5. -/
theorem C20_numeric_fields_read_by_atoi_witness :
    Manager.empty.readLine
        (joinWords ["Video".toList, "v1".toList, "/y.mp4".toList, "12ab".toList])
      = (⟨Manager.empty.mediaCollection.assign "v1".toList
            (.video ⟨"v1".toList, "/y.mp4".toList, atoi (["12ab".toList].headD [])⟩),
          Manager.empty.mediaGroups⟩, none) ∧
    atoi "12ab".toList = 12 ∧ atoi "4294967301x".toList = 5 :=
  ⟨(C20_numeric_fields_read_by_atoi Manager.empty "v1".toList "/y.mp4".toList
      (by decide) (by decide) rfl).1 ["12ab".toList] (by decide),
   ((((C20_numeric_fields_read_by_atoi Manager.empty "v1".toList "/y.mp4".toList
      (by decide) (by decide) rfl).2.2 "12ab".toList (by decide)).2.2.2
      "12".toList 'a' "b".toList rfl (by decide) (by decide) (by decide)).2
      (by decide)).trans (by decide),
   (((C20_numeric_fields_read_by_atoi Manager.empty "v1".toList "/y.mp4".toList
      (by decide) (by decide) rfl).2.2 "4294967301x".toList (by decide)).2.2.2
      "4294967301".toList 'x' [] rfl (by decide) (by decide) (by decide)).1.trans
      (by decide)⟩

/-! ## File that cannot be opened, creation of a Film -/

/-- C21: when the file cannot be opened, `read` returns normally and the catalog
after the call is the catalog before it, so that both stores are as they were. -/
theorem C21_read_unopenable_file (m : Manager) (fs : Files) (filename : Str)
    (hopen : fs filename = none) : m.read fs filename = (m, .ok ()) := by
  simp [Manager.read, hopen]

/-- C21, instance: the catalog that holds the Video `v1`, the file `db` being the
only one that can be opened; `read` of `other` returns normally. -/
theorem C21_read_unopenable_file_witness :
    (Manager.empty.createVideo "v1".toList "/y.mp4".toList 10).1.read
        (fun n => if n = "db".toList then some "Video v2 /z.mp4 3\n".toList else none)
        "other".toList
      = ((Manager.empty.createVideo "v1".toList "/y.mp4".toList 10).1, .ok ()) :=
  C21_read_unopenable_file (Manager.empty.createVideo "v1".toList "/y.mp4".toList 10).1
    (fun n => if n = "db".toList then some "Video v2 /z.mp4 3\n".toList else none)
    "other".toList (by decide)

/-- C22: `createFilm` with a null chapter source raises `std::invalid_argument`
(chapters cannot be empty) for every declared count, every name, every file
path and duration and every catalog, whether the name is bound in the entity
store or not; the catalog after the call is the catalog before it. -/
theorem C22_createFilm_null_source (m : Manager) (name filepath : Str) (duration : Int)
    (n_chapters : Nat) :
    m.createFilm name filepath duration none n_chapters
      = (m, .error (.invalidArgument "Chapters cannot be empty!".toList)) := by
  rfl

/-- C27: `createFilm` with a non-null chapter source and a declared count of zero,
under a name absent from the entity store, returns normally; the Film returned
and bound to the name has an empty chapter array and a count of `0`; the other
keys of the entity store and the group store are as before. -/
theorem C27_createFilm_zero_count (m : Manager) (name filepath : Str) (duration : Int)
    (xs : List Int) (habsent : m.mediaCollection name = none) :
    (m.createFilm name filepath duration (some xs) 0).2
      = .ok ⟨name, filepath, duration, some [], 0⟩ ∧
    (m.createFilm name filepath duration (some xs) 0).1.mediaCollection name
      = some (.film ⟨name, filepath, duration, some [], 0⟩) ∧
    (∀ k, k ≠ name →
      (m.createFilm name filepath duration (some xs) 0).1.mediaCollection k
        = m.mediaCollection k) ∧
    (m.createFilm name filepath duration (some xs) 0).1.mediaGroups = m.mediaGroups := by
  have hc : ¬ (m.mediaCollection.count name > 0) := by
    rw [NameMap.count_pos_iff, habsent]; simp
  refine ⟨?_, ?_, ?_, ?_⟩
  · simp [Manager.createFilm, Film.construct, hc]
  · simp [Manager.createFilm, Film.construct, hc, NameMap.assign]
  · intro k hk
    simp [Manager.createFilm, Film.construct, hc, NameMap.assign, hk]
  · simp [Manager.createFilm, Film.construct, hc]

/-- C27, instance: in the empty catalog, `createFilm` of `f` from the array
`[10, 20]` with a declared count of zero. -/
theorem C27_createFilm_zero_count_witness :
    (Manager.empty.createFilm "f".toList "/z.mp4".toList 20 (some [10, 20]) 0).1.mediaCollection
        "f".toList
      = some (.film ⟨"f".toList, "/z.mp4".toList, 20, some [], 0⟩) :=
  (C27_createFilm_zero_count Manager.empty "f".toList "/z.mp4".toList 20 [10, 20] rfl).2.1

/-! ## Render of a Film -/

/-- An effect on a stream is given by its text and its failure. -/
theorem Output.eq_mk (o : Output) (t : Str) (e : Option Err) (ht : o.text = t)
    (he : o.fail = e) : o = ⟨t, e⟩ := by
  cases o
  simp only at ht he
  rw [ht, he]

/-- The loop of `Film::display` over an array holding the indices it visits writes
the line of each chapter visited, in the order of the indices. -/
theorem chapterLoop_display_text (cs : List Int) :
    ∀ (k i : Nat), i + k ≤ cs.length →
      (chapterLoop chapterLine cs k i).text
        = ((((cs.drop i).take k).enumFrom i).map (fun p => chapterLine p.1 p.2)).flatten := by
  intro k
  induction k with
  | zero => intro i _; simp [chapterLoop]
  | succ k ih =>
    intro i h
    have hi : i < cs.length := by omega
    have hget : cs[i]? = some cs[i] := List.getElem?_eq_getElem hi
    have hdrop : cs.drop i = cs[i] :: cs.drop (i + 1) := List.drop_eq_getElem_cons hi
    simp only [chapterLoop, hget]
    rw [ih (i + 1) (by omega), hdrop]
    simp [List.enumFrom]

set_option maxRecDepth 100000 in
/-- C24 (code at the failing input): the render of the Film `f1` with the file path
`/z.mp4`, the duration 20 and the chapters `[10, 10]` is the two chapter lines
and nothing else. The description that `Video::display` writes for the same
name, file path and duration is no part of it, and neither is the field
`Name: f1`, the field `filepath: /z.mp4` or the field `Duration: 20`. -/
theorem C24_film_render_omits_description :
    Film.display ⟨"f1".toList, "/z.mp4".toList, 20, some [10, 10], 2⟩
      = ⟨("The duration for chapter 0 of the film is 10\n"
          ++ "The duration for chapter 1 of the film is 10\n").toList, none⟩ ∧
    (Video.display ⟨"f1".toList, "/z.mp4".toList, 20⟩).text
      = "Name: f1, filepath: /z.mp4, Duration: 20\n".toList ∧
    ¬ ((Video.display ⟨"f1".toList, "/z.mp4".toList, 20⟩).text
        <:+: (Film.display ⟨"f1".toList, "/z.mp4".toList, 20, some [10, 10], 2⟩).text) ∧
    ¬ ("Name: f1".toList
        <:+: (Film.display ⟨"f1".toList, "/z.mp4".toList, 20, some [10, 10], 2⟩).text) ∧
    ¬ ("filepath: /z.mp4".toList
        <:+: (Film.display ⟨"f1".toList, "/z.mp4".toList, 20, some [10, 10], 2⟩).text) ∧
    ¬ ("Duration: 20".toList
        <:+: (Film.display ⟨"f1".toList, "/z.mp4".toList, 20, some [10, 10], 2⟩).text) := by
  decide

set_option maxRecDepth 100000 in
/-- C25: the render of a Film with `n ≥ 1` chapters (its array holding at least the
`n` values) returns normally and writes exactly the lines of its first `n`
chapters, `n` of them, in increasing order of the index, the line of index `i`
being `The duration for chapter i of the film is d` with `d` the duration of
chapter `i`. For a Film created with the chapters `[10, 10]` under a name
absent from the entity store, `searchAndDisplay` of that name writes the line
of index 0 and the line of index 1, both with the value 10, and returns. -/
theorem C25_film_render_chapter_lines (f : Film) (cs : List Int)
    (hcs : f.chapters = some cs) (hpos : 1 ≤ f.n_chapters) (hlen : f.n_chapters ≤ cs.length) :
    f.display
      = ⟨(((cs.take f.n_chapters).enum).map (fun p =>
            "The duration for chapter ".toList ++ putNat p.1 ++ " of the film is ".toList
              ++ putInt p.2 ++ ['\n'])).flatten, none⟩ ∧
    ((cs.take f.n_chapters).enum).length = f.n_chapters ∧
    (∀ i, i < f.n_chapters → ((cs.take f.n_chapters).enum)[i]? = some (i, cs.getD i 0)) ∧
    (∀ (m : Manager) (name filepath : Str) (duration : Int), m.mediaCollection name = none →
      ((m.createFilm name filepath duration (some [10, 10]) 2).1.searchAndDisplay name).2
        = ⟨("The duration for chapter 0 of the film is 10\n"
            ++ "The duration for chapter 1 of the film is 10\n").toList, none⟩) := by
  have hne : f.n_chapters ≠ 0 := by omega
  refine ⟨?_, ?_, ?_, ?_⟩
  · have htext := chapterLoop_display_text cs f.n_chapters 0 (by omega)
    have hfail := chapterLoop_fail_none chapterLine cs f.n_chapters 0 (by omega)
    simp only [List.drop_zero] at htext
    unfold Film.display
    rw [hcs]
    simp only [hne, ne_eq, not_false_eq_true, if_true]
    exact Output.eq_mk _ _ _ htext hfail
  · simp [List.enum, hlen]
  · intro i hi
    have hi2 : i < cs.length := by omega
    simp [List.enum, List.getElem?_take, hi, List.getD_eq_getElem?_getD, hi2]
  · intro m name filepath duration habsent
    have hc : ¬ (m.mediaCollection.count name > 0) := by
      rw [NameMap.count_pos_iff, habsent]; simp
    have hd : Film.display ⟨name, filepath, duration, some [10, 10], 2⟩
        = ⟨("The duration for chapter 0 of the film is 10\n"
            ++ "The duration for chapter 1 of the film is 10\n").toList, none⟩ := by
      rfl
    have hs : (m.createFilm name filepath duration (some [10, 10]) 2).1.mediaCollection name
        = some (.film ⟨name, filepath, duration, some [10, 10], 2⟩) := by
      simp [Manager.createFilm, Film.construct, hc, NameMap.assign]
    unfold Manager.searchAndDisplay
    rw [hs]
    exact hd

/-- C25, instance: the Film with the chapters `[10, 20, 30]`. -/
theorem C25_film_render_chapter_lines_witness :
    Film.display ⟨"f".toList, "/z.mp4".toList, 60, some [10, 20, 30], 3⟩
      = ⟨((([10, 20, 30] : List Int).take 3).enum.map (fun p =>
            "The duration for chapter ".toList ++ putNat p.1 ++ " of the film is ".toList
              ++ putInt p.2 ++ ['\n'])).flatten, none⟩ :=
  (C25_film_render_chapter_lines ⟨"f".toList, "/z.mp4".toList, 60, some [10, 20, 30], 3⟩
    [10, 20, 30] rfl (by decide) (by decide)).1

/-! ## Replacing the chapters of a Film -/

/-- Member `setChapters` on a Film that owns its array (or none), from a live array
other than its own that holds at least `n > 0` values: the call returns, the
Film keeps its name, file path and duration, its count is `n` and its array, at
the address `new` returned, holds the first `n` values of the source. -/
theorem FilmObj.setChapters_copies (fresh : Nat) (h : Heap) (self : FilmObj) (p : Nat)
    (xs : List Int) (n : Nat) (howns : self.owns h = true) (hsrc : h p = some xs)
    (hsep : self.chapters ≠ some p) (hpos : 0 < n) (hlen : n ≤ xs.length) :
    ∃ h2, FilmObj.setChapters fresh h self (some p) n
        = .ok (⟨self.name, self.filepath, self.duration, some fresh, n⟩, h2) ∧
      h2 fresh = some (xs.take n) := by
  have hn : n ≠ 0 := by omega
  unfold FilmObj.setChapters
  cases hq : self.chapters with
  | none =>
    simp [Heap.release, Heap.readArray, hsrc, hlen, hn, Heap.store]
  | some q =>
    have hqp : p ≠ q := fun heq => hsep (by rw [hq, heq])
    have hlive : (h q).isSome = true := by
      unfold FilmObj.owns at howns; rw [hq] at howns; exact howns
    obtain ⟨ys, hys⟩ := Option.isSome_iff_exists.mp hlive
    simp [Heap.release, hys, Heap.readArray, hqp, hsrc, hlen, hn, Heap.store]

/-- Member `setChapters` with a null source or a count of zero, on a Film that owns
its array (or none): the call returns, the Film keeps its name, file path and
duration, its pointer is null and its count `0`. -/
theorem FilmObj.setChapters_clears (fresh : Nat) (h : Heap) (self : FilmObj) (c : Option Nat)
    (n : Nat) (howns : self.owns h = true) (hc : c = none ∨ n = 0) :
    ∃ h2, FilmObj.setChapters fresh h self c n
        = .ok (⟨self.name, self.filepath, self.duration, none, 0⟩, h2) := by
  unfold FilmObj.setChapters
  have hrel : ∃ h1, h.release self.chapters = .ok h1 := by
    cases hq : self.chapters with
    | none => exact ⟨h, rfl⟩
    | some q =>
      have hlive : (h q).isSome = true := by
        unfold FilmObj.owns at howns; rw [hq] at howns; exact howns
      obtain ⟨ys, hys⟩ := Option.isSome_iff_exists.mp hlive
      exact ⟨fun k => if k = q then none else h k, by simp [Heap.release, hys]⟩
  obtain ⟨h1, hr⟩ := hrel
  rw [hr]
  cases c with
  | none => exact ⟨h1, rfl⟩
  | some p =>
    rcases hc with hc | hc
    · cases hc
    · subst hc
      exact ⟨h1, by simp⟩

/-- Member `setChapters` from the array of the Film itself, with a positive count:
`delete[] chapters` releases the array before the loop reads it. -/
theorem FilmObj.setChapters_own_array (fresh : Nat) (h : Heap) (self : FilmObj) (p : Nat)
    (xs : List Int) (n : Nat) (hself : self.chapters = some p) (hlive : h p = some xs)
    (hpos : 0 < n) :
    FilmObj.setChapters fresh h self (some p) n = .error .undefined := by
  have hn : n ≠ 0 := by omega
  unfold FilmObj.setChapters
  simp [hself, Heap.release, hlive, hn, Heap.readArray]

/-- C23 (code at the failing input): the Film `f` owns the array `[10, 20]` at the
address `0`, which `getChapters()` returns. The call
`setChapters(getChapters(), 2)` releases that array and then reads it: the
behaviour is undefined, whatever address `new` returns (the one just released
or another). The same call from a separate array `[10, 20]` at the address `5`
returns, and the Film then has the chapters `[10, 20]` in a new array. -/
theorem C23_setChapters_from_own_array :
    FilmObj.seq (fun a => if a = 0 then some [10, 20] else none)
        ⟨"f".toList, "p".toList, 20, some 0, 2⟩ = some [10, 20] ∧
    FilmObj.setChapters 0 (fun a => if a = 0 then some [10, 20] else none)
        ⟨"f".toList, "p".toList, 20, some 0, 2⟩ (some 0) 2 = .error .undefined ∧
    FilmObj.setChapters 1 (fun a => if a = 0 then some [10, 20] else none)
        ⟨"f".toList, "p".toList, 20, some 0, 2⟩ (some 0) 2 = .error .undefined ∧
    (∃ h2, FilmObj.setChapters 1
          (fun a => if a = 0 then some [10, 20] else if a = 5 then some [10, 20] else none)
          ⟨"f".toList, "p".toList, 20, some 0, 2⟩ (some 5) 2
        = .ok (⟨"f".toList, "p".toList, 20, some 1, 2⟩, h2) ∧ h2 1 = some [10, 20]) :=
  ⟨rfl, rfl, rfl, ⟨_, rfl, rfl⟩⟩

/-! ## Render of a Film without chapters, render of a group -/

/-- The loop of `Group::display` over members that all render normally writes their
renders one after the other and returns. -/
theorem Group.displayLoop_normal (ms : List Multimedia)
    (h : ∀ x ∈ ms, x.display.fail = none) :
    Group.displayLoop ms = ⟨(ms.map (fun x => x.display.text)).flatten, none⟩ := by
  induction ms with
  | nil => rfl
  | cons x xs ih =>
    have hx : x.display.fail = none := h x (by simp)
    have hxs : ∀ y ∈ xs, y.display.fail = none := fun y hy => h y (by simp [hy])
    simp [Group.displayLoop, hx, ih hxs]

/-- The loop of `Group::display` on the stream `std::cout` or on another one, over
members that all render normally. -/
theorem Group.displayLoopOn_normal (cout : Bool) (ms : List Multimedia)
    (h : ∀ x ∈ ms, x.display.fail = none) :
    Group.displayLoopOn cout ms
      = ⟨(ms.map (fun x => x.display.text ++ (if cout then ['\n'] else []))).flatten,
          none⟩ := by
  induction ms with
  | nil => rfl
  | cons x xs ih =>
    have hx : x.display.fail = none := h x (by simp)
    have hxs : ∀ y ∈ xs, y.display.fail = none := fun y hy => h y (by simp [hy])
    simp [Group.displayLoopOn, hx, ih hxs]

/-- On a stream other than `std::cout` the two descriptions of the loop agree. -/
theorem Group.displayLoopOn_false (ms : List Multimedia) :
    Group.displayLoopOn false ms = Group.displayLoop ms := by
  induction ms with
  | nil => rfl
  | cons x xs ih =>
    unfold Group.displayLoopOn Group.displayLoop
    rw [ih]
    cases x.display.fail <;> simp

/-- The loop of `Group::display` ends at the first member whose render fails: the
renders of the members before it and what that member wrote are the text. -/
theorem Group.displayLoop_stops (pre : List Multimedia) (x : Multimedia)
    (post : List Multimedia) (e : Err) (hpre : ∀ y ∈ pre, y.display.fail = none)
    (hx : x.display.fail = some e) :
    Group.displayLoop (pre ++ x :: post)
      = ⟨(pre.map (fun y => y.display.text)).flatten ++ x.display.text, some e⟩ := by
  rw [Group.displayLoop_append pre (x :: post) hpre, Group.displayLoop_normal pre hpre]
  simp [Group.displayLoop, hx]

/-- The loop of `Group::display` does not return when the render of one of the
members fails. -/
theorem Group.displayLoop_fails (ms : List Multimedia) (x : Multimedia) (hx : x ∈ ms)
    (hfail : x.display.fail ≠ none) : (Group.displayLoop ms).fail ≠ none := by
  induction ms with
  | nil => cases hx
  | cons y ys ih =>
    unfold Group.displayLoop
    cases hy : y.display.fail with
    | some e => simp
    | none =>
      simp only
      rcases List.mem_cons.mp hx with h | h
      · subst h; exact absurd hy hfail
      · exact ih h

/-- Render of a Film whose count is zero or whose pointer is null: `exit`, nothing
written. -/
theorem Film.display_without_chapters (f : Film)
    (hempty : f.n_chapters = 0 ∨ f.chapters = none) :
    f.display = ⟨[], some (Err.exit EXIT_FAILURE)⟩ := by
  unfold Film.display
  cases hc : f.chapters with
  | none => rfl
  | some cs =>
    rcases hempty with h | h
    · simp [h]
    · rw [hc] at h; cases h

set_option maxRecDepth 100000 in
/-- C26 (as stated, refuted): the group stored under `g` holds the Film `z`, created
with a declared count of zero, whose render ends in `exit`; the Video `g` is
stored under the same name in the entity store. `searchAndDisplay` of `g`
returns normally with the render of that Video. -/
theorem C26_group_search_returns_entity_render :
    (Film.display ⟨"z".toList, "/z.mp4".toList, 0, some [], 0⟩)
      = ⟨[], some (Err.exit EXIT_FAILURE)⟩ ∧
    (⟨fun k => if k = "g".toList then
          some (.video ⟨"g".toList, "/g.mp4".toList, 2⟩) else none,
        fun k => if k = "g".toList then
          some ⟨"g".toList, [.film ⟨"z".toList, "/z.mp4".toList, 0, some [], 0⟩]⟩
          else none⟩ : Manager).mediaGroups "g".toList
      = some ⟨"g".toList, [.film ⟨"z".toList, "/z.mp4".toList, 0, some [], 0⟩]⟩ ∧
    ((⟨fun k => if k = "g".toList then
          some (.video ⟨"g".toList, "/g.mp4".toList, 2⟩) else none,
        fun k => if k = "g".toList then
          some ⟨"g".toList, [.film ⟨"z".toList, "/z.mp4".toList, 0, some [], 0⟩]⟩
          else none⟩ : Manager).searchAndDisplay "g".toList).2
      = ⟨"Name: g, filepath: /g.mp4, Duration: 2\n".toList, none⟩ := by
  decide

/-- C26 (amended): the render of a Film whose chapter count is zero (or whose chapter
pointer is null) ends the process by `exit(EXIT_FAILURE)` and writes nothing to
the stream. Hence `searchAndDisplay` of a name bound to such a Film ends in
that `exit` with nothing written, and `searchAndDisplay` of the name of a group
holding such a Film, when no entity is stored under that name, does not return
either: when the members before the Film render normally it ends in that
`exit`, after the group-name line and their renders. When an entity is stored
under the name of the group, `searchAndDisplay` of the name gives the render of
that entity and the group is not rendered. -/
theorem C26_render_without_chapters_is_fatal (f : Film)
    (hempty : f.n_chapters = 0 ∨ f.chapters = none) :
    f.display = ⟨[], some (Err.exit EXIT_FAILURE)⟩ ∧
    (∀ (m : Manager) (n : Str), m.mediaCollection n = some (.film f) →
      m.searchAndDisplay n = (m, ⟨[], some (Err.exit EXIT_FAILURE)⟩)) ∧
    (∀ (m : Manager) (k : Str) (g : Group), m.mediaCollection k = none →
      m.mediaGroups k = some g → Multimedia.film f ∈ g.elems →
      (m.searchAndDisplay k).2.fail ≠ none) ∧
    (∀ (m : Manager) (k : Str) (g : Group) (pre post : List Multimedia),
      m.mediaCollection k = none → m.mediaGroups k = some g →
      g.elems = pre ++ Multimedia.film f :: post → (∀ y ∈ pre, y.display.fail = none) →
      m.searchAndDisplay k
        = (m, ⟨"Group Name: ".toList ++ g.name ++ ['\n']
            ++ (pre.map (fun y => y.display.text)).flatten, some (Err.exit EXIT_FAILURE)⟩)) ∧
    (∀ (m : Manager) (k : Str) (g : Group) (e : Multimedia),
      m.mediaCollection k = some e → m.mediaGroups k = some g →
      Multimedia.film f ∈ g.elems → m.searchAndDisplay k = (m, e.display)) := by
  have hd := Film.display_without_chapters f hempty
  have hm : (Multimedia.film f).display = ⟨[], some (Err.exit EXIT_FAILURE)⟩ := hd
  refine ⟨hd, ?_, ?_, ?_, ?_⟩
  rotate_right
  · intro m k g e he _ _
    simp [Manager.searchAndDisplay, he]
  · intro m n hn
    simp [Manager.searchAndDisplay, hn, Multimedia.display, hd]
  · intro m k g hk hg hmem
    have hfail : (Multimedia.film f).display.fail ≠ none := by rw [hm]; simp
    have hloop := Group.displayLoop_fails g.elems _ hmem hfail
    simp only [Manager.searchAndDisplay, hk, hg, Group.display]
    exact hloop
  · intro m k g pre post hk hg helems hpre
    have hloop := Group.displayLoop_stops pre (.film f) post (Err.exit EXIT_FAILURE) hpre
      (by rw [hm])
    simp only [Manager.searchAndDisplay, hk, hg, Group.display, helems, hloop, hm]
    simp

set_option maxRecDepth 100000 in
/-- C26 (amended), instance: the Film `z` created with a declared count of zero,
stored under its name and held by the group `g` after the Video `n`. -/
theorem C26_render_without_chapters_is_fatal_witness :
    (((⟨fun k => if k = "z".toList then
          some (.film ⟨"z".toList, "/z.mp4".toList, 0, some [], 0⟩) else none,
        fun k => if k = "g".toList then
          some ⟨"g".toList, [.video ⟨"n".toList, "/n.mp4".toList, 1⟩,
            .film ⟨"z".toList, "/z.mp4".toList, 0, some [], 0⟩]⟩ else none⟩ :
        Manager).searchAndDisplay "z".toList).2 = ⟨[], some (Err.exit EXIT_FAILURE)⟩) ∧
    (((⟨fun k => if k = "z".toList then
          some (.film ⟨"z".toList, "/z.mp4".toList, 0, some [], 0⟩) else none,
        fun k => if k = "g".toList then
          some ⟨"g".toList, [.video ⟨"n".toList, "/n.mp4".toList, 1⟩,
            .film ⟨"z".toList, "/z.mp4".toList, 0, some [], 0⟩]⟩ else none⟩ :
        Manager).searchAndDisplay "g".toList).2.fail ≠ none) :=
  have h := C26_render_without_chapters_is_fatal
    ⟨"z".toList, "/z.mp4".toList, 0, some [], 0⟩ (Or.inl rfl)
  ⟨congrArg Prod.snd (h.2.1 _ "z".toList (by decide)),
    h.2.2.1 _ "g".toList
      ⟨"g".toList, [.video ⟨"n".toList, "/n.mp4".toList, 1⟩,
        .film ⟨"z".toList, "/z.mp4".toList, 0, some [], 0⟩]⟩ (by decide) (by decide)
      (by decide)⟩

set_option maxRecDepth 100000 in
/-- C28 (as stated, refuted): the group `g` holds the Film `z`, created with a
declared count of zero, and then the Video `n`. Its render writes the
group-name line and ends in `exit`: the render of `n` is not written, whereas
the group-name line followed by the renders of the members is longer. On the
stream `std::cout` itself, the render of the group that holds `n` twice has an
empty line after each render of `n`. -/
theorem C28_group_render_stops_at_failing_member :
    Group.display ⟨"g".toList, [.film ⟨"z".toList, "/z.mp4".toList, 0, some [], 0⟩,
        .video ⟨"n".toList, "/n.mp4".toList, 1⟩]⟩
      = ⟨"Group Name: g\n".toList, some (Err.exit EXIT_FAILURE)⟩ ∧
    "Group Name: g\n".toList
        ++ (([.film ⟨"z".toList, "/z.mp4".toList, 0, some [], 0⟩,
              .video ⟨"n".toList, "/n.mp4".toList, 1⟩] : List Multimedia).map
            (fun x => x.display.text)).flatten
      = "Group Name: g\nName: n, filepath: /n.mp4, Duration: 1\n".toList ∧
    Group.displayOn true ⟨"g".toList, [.video ⟨"n".toList, "/n.mp4".toList, 1⟩,
        .video ⟨"n".toList, "/n.mp4".toList, 1⟩]⟩
      = ⟨("Group Name: g\nName: n, filepath: /n.mp4, Duration: 1\n\n"
          ++ "Name: n, filepath: /n.mp4, Duration: 1\n\n").toList, none⟩ := by
  decide

/-- C28 (amended): the text that the render of a group writes, on a stream other
than `std::cout`, is the group-name line followed by the renders of the
members in the order of insertion, up to the first member whose render fails:
when every member renders normally, all the renders are written and the call
returns; when the render of a member fails, the text ends with what that
member wrote and the call ends as that render does. On the stream `std::cout`
itself each render is followed by an empty line. `push_back` adds the member
at the end, whether the group holds it already or not, and the render of the
group then ends with the render of that member. -/
theorem C28_group_render_text (g : Group) :
    ((∀ x ∈ g.elems, x.display.fail = none) →
      g.display = ⟨"Group Name: ".toList ++ g.name ++ ['\n']
          ++ (g.elems.map (fun x => x.display.text)).flatten, none⟩ ∧
      g.displayOn true = ⟨"Group Name: ".toList ++ g.name ++ ['\n']
          ++ (g.elems.map (fun x => x.display.text ++ ['\n'])).flatten, none⟩ ∧
      (∀ e : Multimedia, e.display.fail = none →
        (g.push_back e).display = ⟨g.display.text ++ e.display.text, none⟩)) ∧
    (∀ (pre : List Multimedia) (x : Multimedia) (post : List Multimedia) (err : Err),
      g.elems = pre ++ x :: post → (∀ y ∈ pre, y.display.fail = none) →
      x.display.fail = some err →
      g.display = ⟨"Group Name: ".toList ++ g.name ++ ['\n']
          ++ (pre.map (fun y => y.display.text)).flatten ++ x.display.text, some err⟩) ∧
    g.displayOn false = g.display ∧
    (∀ e : Multimedia, (g.push_back e).elems = g.elems ++ [e]) := by
  refine ⟨?_, ?_, ?_, fun e => rfl⟩
  · intro hall
    have hd : g.display = ⟨"Group Name: ".toList ++ g.name ++ ['\n']
        ++ (g.elems.map (fun x => x.display.text)).flatten, none⟩ := by
      unfold Group.display
      rw [Group.displayLoop_normal g.elems hall]
    refine ⟨hd, ?_, ?_⟩
    · unfold Group.displayOn
      rw [Group.displayLoopOn_normal true g.elems hall]
      simp
    · intro e he
      have hall2 : ∀ x ∈ g.elems ++ [e], x.display.fail = none := by
        intro x hx
        rcases List.mem_append.mp hx with h | h
        · exact hall x h
        · simp only [List.mem_singleton] at h
          subst h; exact he
      rw [hd]
      unfold Group.display Group.push_back
      simp only
      rw [Group.displayLoop_normal _ hall2]
      simp
  · intro pre x post err helems hpre hx
    unfold Group.display
    rw [helems, Group.displayLoop_stops pre x post err hpre hx]
    simp
  · unfold Group.displayOn Group.display
    rw [Group.displayLoopOn_false]

set_option maxRecDepth 100000 in
/-- C28 (amended), instance: the group `g` that holds the Video `n` twice. -/
theorem C28_group_render_text_witness :
    Group.display ⟨"g".toList, [.video ⟨"n".toList, "/n.mp4".toList, 1⟩,
        .video ⟨"n".toList, "/n.mp4".toList, 1⟩]⟩
      = ⟨"Group Name: ".toList ++ "g".toList ++ ['\n']
          ++ (([.video ⟨"n".toList, "/n.mp4".toList, 1⟩,
                .video ⟨"n".toList, "/n.mp4".toList, 1⟩] : List Multimedia).map
              (fun x => x.display.text)).flatten, none⟩ :=
  ((C28_group_render_text ⟨"g".toList, [.video ⟨"n".toList, "/n.mp4".toList, 1⟩,
      .video ⟨"n".toList, "/n.mp4".toList, 1⟩]⟩).1 (by decide)).1

/-! ## Requests -/

/-- Member `searchAndDisplay` is `const`: the catalog after the call is the catalog
before it. -/
theorem Manager.searchAndDisplay_fst (m : Manager) (name : Str) :
    (m.searchAndDisplay name).1 = m := by
  unfold Manager.searchAndDisplay
  cases m.mediaCollection name with
  | some e => rfl
  | none =>
    cases m.mediaGroups name with
    | some g => rfl
    | none => rfl

/-- Member `playMedia` is `const`: the catalog after the call is the catalog before
it. -/
theorem Manager.playMedia_fst (system : Str → Int) (m : Manager) (name : Str) :
    (m.playMedia system name).1 = m := by
  unfold Manager.playMedia
  cases m.mediaCollection name with
  | some e => rfl
  | none => rfl

/-- The callback on a request whose first word is not `search`, by the way
`playMedia` of the second word ends. -/
theorem requestCallback_other (system : Str → Int) (m : Manager) (request response : Str)
    (hverb : nthWord 0 request ≠ "search".toList) :
    requestCallback system m request response
      = match (m.playMedia system (nthWord 1 request)).2.fail with
        | none => (m, ⟨response, (m.playMedia system (nthWord 1 request)).2.commands, .ok true⟩)
        | some e =>
          (m, ⟨response, (m.playMedia system (nthWord 1 request)).2.commands, .error e⟩) := by
  have ha : ¬ ((extractWord request).1 = "search".toList) := hverb
  have hk : (extractWord (extractWord request).2).1 = nthWord 1 request := rfl
  unfold requestCallback
  simp only [if_neg ha, hk, Manager.playMedia_fst]

set_option maxRecDepth 100000 in
/-- C30 (as stated, refuted): the catalog holds the Video `v`; for the request
`play v`, the command line of the Video is handed to `system`, and when
`system` reports a nonzero status the process ends by `exit(EXIT_FAILURE)`: the
callback does not return and no response is produced. -/
theorem C30_play_request_ends_process :
    (requestCallback (fun _ => 1) (Manager.empty.createVideo "v".toList "/v.mp4".toList 3).1
        "play v".toList []).2.commands = ["mpv /v.mp4 &".toList] ∧
    (requestCallback (fun _ => 1) (Manager.empty.createVideo "v".toList "/v.mp4".toList 3).1
        "play v".toList []).2.result = .error (Err.exit EXIT_FAILURE) := by
  decide

/-- C30 (amended): for a request whose first word is anything but `search` (another
letter case, no word at all), with `key` its second word, the callback calls
`playMedia` of `key`: the catalog is kept and the commands run are those of
`playMedia`. The callback does not assign the response, which is as the server
handed it, hence empty for an empty string. Whenever `playMedia` returns (the
name is not bound in the entity store, or the command reported the status `0`)
the callback returns `true`; when `playMedia` ends the process (`exit` after a
nonzero status), so does the callback. -/
theorem C30_other_request (system : Str → Int) (m : Manager) (request response : Str)
    (hverb : nthWord 0 request ≠ "search".toList) :
    (requestCallback system m request response).1 = m ∧
    (requestCallback system m request response).2.commands
      = (m.playMedia system (nthWord 1 request)).2.commands ∧
    (requestCallback system m request response).2.response = response ∧
    ((m.playMedia system (nthWord 1 request)).2.fail = none →
      (requestCallback system m request response).2.result = .ok true) ∧
    (m.mediaCollection (nthWord 1 request) = none →
      requestCallback system m request response = (m, ⟨response, [], .ok true⟩)) ∧
    (∀ e : Err, (m.playMedia system (nthWord 1 request)).2.fail = some e →
      (requestCallback system m request response).2.result = .error e) := by
  have hcb := requestCallback_other system m request response hverb
  rw [hcb]
  refine ⟨?_, ?_, ?_, ?_, ?_, ?_⟩
  · cases (m.playMedia system (nthWord 1 request)).2.fail <;> rfl
  · cases (m.playMedia system (nthWord 1 request)).2.fail <;> rfl
  · cases (m.playMedia system (nthWord 1 request)).2.fail <;> rfl
  · intro hok
    rw [hok]
  · intro he
    have hp : (m.playMedia system (nthWord 1 request)).2 = ⟨[], none⟩ := by
      simp [Manager.playMedia, he]
    rw [hp]
  · intro e hf
    rw [hf]

set_option maxRecDepth 100000 in
/-- C30 (amended), instance: the requests `SEARCH v` and `play w`, and the empty
request, in the catalog that holds the Video `v`, with an empty response
handed in. -/
theorem C30_other_request_witness :
    (requestCallback (fun _ => 0) (Manager.empty.createVideo "v".toList "/v.mp4".toList 3).1
        "SEARCH v".toList []).2.response = [] ∧
    (requestCallback (fun _ => 0) (Manager.empty.createVideo "v".toList "/v.mp4".toList 3).1
        "SEARCH v".toList []).2.result = .ok true ∧
    (requestCallback (fun _ => 0) (Manager.empty.createVideo "v".toList "/v.mp4".toList 3).1
        "play w".toList []).2 = ⟨[], [], .ok true⟩ ∧
    (requestCallback (fun _ => 0) (Manager.empty.createVideo "v".toList "/v.mp4".toList 3).1
        [] []).2 = ⟨[], [], .ok true⟩ :=
  ⟨(C30_other_request (fun _ => 0) (Manager.empty.createVideo "v".toList "/v.mp4".toList 3).1
      "SEARCH v".toList [] (by decide)).2.2.1,
   (C30_other_request (fun _ => 0) (Manager.empty.createVideo "v".toList "/v.mp4".toList 3).1
      "SEARCH v".toList [] (by decide)).2.2.2.1 (by decide),
   congrArg Prod.snd ((C30_other_request (fun _ => 0)
      (Manager.empty.createVideo "v".toList "/v.mp4".toList 3).1
      "play w".toList [] (by decide)).2.2.2.2.1 (by decide)),
   congrArg Prod.snd ((C30_other_request (fun _ => 0)
      (Manager.empty.createVideo "v".toList "/v.mp4".toList 3).1
      [] [] (by decide)).2.2.2.2.1 (by decide))⟩

/-! ## Stores that a call leaves alone, names of the stored objects -/

/-- The handler around a create call of `read` keeps the catalog the call left. -/
theorem afterCreate_fst {α : Type} (r : Manager × Except Err α) : (afterCreate r).1 = r.1 := by
  unfold afterCreate
  cases r.2 with
  | ok a => rfl
  | error e =>
    simp only []
    split <;> rfl

/-- Member `createPhoto` keeps the group store. -/
theorem Manager.createPhoto_mediaGroups (m : Manager) (name filepath : Str)
    (latitude longitude : Dbl) :
    (m.createPhoto name filepath latitude longitude).1.mediaGroups = m.mediaGroups := by
  unfold Manager.createPhoto
  split <;> rfl

/-- Member `createVideo` keeps the group store. -/
theorem Manager.createVideo_mediaGroups (m : Manager) (name filepath : Str) (duration : Int) :
    (m.createVideo name filepath duration).1.mediaGroups = m.mediaGroups := by
  unfold Manager.createVideo
  split <;> rfl

/-- Member `createFilm` keeps the group store. -/
theorem Manager.createFilm_mediaGroups (m : Manager) (name filepath : Str) (duration : Int)
    (chapters : Option (List Int)) (n_chapters : Nat) :
    (m.createFilm name filepath duration chapters n_chapters).1.mediaGroups
      = m.mediaGroups := by
  unfold Manager.createFilm
  split
  · rfl
  · split <;> rfl

/-- Member `copyAndCreateFilm` keeps the group store. -/
theorem Manager.copyAndCreateFilm_mediaGroups (indet : Nat) (m : Manager) (otherFilm : Film) :
    (m.copyAndCreateFilm indet otherFilm).1.mediaGroups = m.mediaGroups := by
  unfold Manager.copyAndCreateFilm
  split <;> rfl

/-- The body of the read loop keeps the group store. -/
theorem Manager.readLine_mediaGroups (m : Manager) (line : Str) :
    (m.readLine line).1.mediaGroups = m.mediaGroups := by
  unfold Manager.readLine
  simp only []
  split
  · unfold Manager.readPhoto
    simp only [afterCreate_fst, Manager.createPhoto_mediaGroups]
  · split
    · unfold Manager.readVideo
      simp only [afterCreate_fst, Manager.createVideo_mediaGroups]
    · split
      · unfold Manager.readFilm
        simp only []
        split
        · split
          · rfl
          · simp only [afterCreate_fst, Manager.createFilm_mediaGroups]
        · rfl
      · rfl

/-- The read loop keeps the group store. -/
theorem Manager.readLines_mediaGroups : ∀ (ls : List Str) (m : Manager),
    (m.readLines ls).1.mediaGroups = m.mediaGroups := by
  intro ls
  induction ls with
  | nil => intro m; rfl
  | cons l rest ih =>
    intro m
    unfold Manager.readLines
    cases h : (m.readLine l).2 with
    | none =>
      simp only []
      rw [ih, Manager.readLine_mediaGroups]
    | some r =>
      simp only []
      exact Manager.readLine_mediaGroups m l

/-- Member `read` keeps the group store. -/
theorem Manager.read_mediaGroups (m : Manager) (fs : Files) (filename : Str) :
    (m.read fs filename).1.mediaGroups = m.mediaGroups := by
  unfold Manager.read
  cases fs filename with
  | none => rfl
  | some content => exact Manager.readLines_mediaGroups _ m

/-- Member `createGroup` keeps the entity store. -/
theorem Manager.createGroup_mediaCollection (m : Manager) (groupName : Str) :
    (m.createGroup groupName).1.mediaCollection = m.mediaCollection := by
  unfold Manager.createGroup
  split <;> rfl

/-- C32: `createPhoto`, `createVideo`, `createFilm`, `copyAndCreateFilm` and `read`
leave the group store as it was, whatever their arguments and whether they
return or raise; `createGroup` leaves the entity store as it was, whether it
returns or raises; `searchAndDisplay` and `playMedia` leave the whole catalog
as it was. -/
theorem C32_calls_touch_one_store (m : Manager) :
    (∀ (name filepath : Str) (latitude longitude : Dbl),
      (m.createPhoto name filepath latitude longitude).1.mediaGroups = m.mediaGroups) ∧
    (∀ (name filepath : Str) (duration : Int),
      (m.createVideo name filepath duration).1.mediaGroups = m.mediaGroups) ∧
    (∀ (name filepath : Str) (duration : Int) (chapters : Option (List Int)) (n_chapters : Nat),
      (m.createFilm name filepath duration chapters n_chapters).1.mediaGroups
        = m.mediaGroups) ∧
    (∀ (indet : Nat) (otherFilm : Film),
      (m.copyAndCreateFilm indet otherFilm).1.mediaGroups = m.mediaGroups) ∧
    (∀ (fs : Files) (filename : Str), (m.read fs filename).1.mediaGroups = m.mediaGroups) ∧
    (∀ groupName : Str, (m.createGroup groupName).1.mediaCollection = m.mediaCollection) ∧
    (∀ name : Str, (m.searchAndDisplay name).1 = m) ∧
    (∀ (system : Str → Int) (name : Str), (m.playMedia system name).1 = m) :=
  ⟨Manager.createPhoto_mediaGroups m, Manager.createVideo_mediaGroups m,
    Manager.createFilm_mediaGroups m, fun indet f => Manager.copyAndCreateFilm_mediaGroups indet m f,
    Manager.read_mediaGroups m, Manager.createGroup_mediaCollection m,
    Manager.searchAndDisplay_fst m, fun system name => Manager.playMedia_fst system m name⟩

/-- Binding a name to an entity of that name keeps the keys equal to the names. -/
theorem Manager.wellNamed_assign (m : Manager) (h : m.wellNamed) (name : Str)
    (e : Multimedia) (he : e.getName = name) :
    (⟨m.mediaCollection.assign name e, m.mediaGroups⟩ : Manager).wellNamed := by
  refine ⟨?_, h.2⟩
  intro k x hk
  simp only [NameMap.assign] at hk
  split at hk
  · cases hk
    rename_i hkn
    rw [hkn]; exact he
  · exact h.1 k x hk

/-- Member `createPhoto` keeps the keys equal to the names. -/
theorem Manager.createPhoto_wellNamed (m : Manager) (h : m.wellNamed) (name filepath : Str)
    (latitude longitude : Dbl) :
    (m.createPhoto name filepath latitude longitude).1.wellNamed := by
  unfold Manager.createPhoto
  simp only []
  split
  · exact h
  · exact Manager.wellNamed_assign m h name _ rfl

/-- Member `createVideo` keeps the keys equal to the names. -/
theorem Manager.createVideo_wellNamed (m : Manager) (h : m.wellNamed) (name filepath : Str)
    (duration : Int) : (m.createVideo name filepath duration).1.wellNamed := by
  unfold Manager.createVideo
  simp only []
  split
  · exact h
  · exact Manager.wellNamed_assign m h name _ rfl

/-- The Film that the constructor builds has the name it was given. -/
theorem Film.construct_name (name filepath : Str) (duration : Int) (c : Option (List Int))
    (n_c : Nat) (f : Film) (h : Film.construct name filepath duration c n_c = .ok f) :
    f.name = name := by
  unfold Film.construct at h
  split at h
  · cases h
  · split at h
    · cases h; rfl
    · cases h

/-- The Film that the copy constructor builds has the name of its source. -/
theorem Film.copyConstruct_name (indet : Nat) (otherFilm f : Film)
    (h : Film.copyConstruct indet otherFilm = .ok f) : f.name = otherFilm.name := by
  unfold Film.copyConstruct at h
  split at h
  · split at h
    · split at h
      · cases h; rfl
      · cases h
    · cases h; rfl
  · cases h; rfl

/-- Member `createFilm` keeps the keys equal to the names. -/
theorem Manager.createFilm_wellNamed (m : Manager) (h : m.wellNamed) (name filepath : Str)
    (duration : Int) (chapters : Option (List Int)) (n_chapters : Nat) :
    (m.createFilm name filepath duration chapters n_chapters).1.wellNamed := by
  unfold Manager.createFilm
  cases hc : Film.construct name filepath duration chapters n_chapters with
  | error e => exact h
  | ok f =>
    simp only []
    split
    · exact h
    · exact Manager.wellNamed_assign m h name _
        (Film.construct_name name filepath duration chapters n_chapters f hc)

/-- Member `copyAndCreateFilm` keeps the keys equal to the names. -/
theorem Manager.copyAndCreateFilm_wellNamed (indet : Nat) (m : Manager) (h : m.wellNamed)
    (otherFilm : Film) : (m.copyAndCreateFilm indet otherFilm).1.wellNamed := by
  unfold Manager.copyAndCreateFilm
  cases hc : Film.copyConstruct indet otherFilm with
  | error e => exact h
  | ok f =>
    exact Manager.wellNamed_assign m h otherFilm.name _
      (Film.copyConstruct_name indet otherFilm f hc)

/-- Member `createGroup` keeps the keys equal to the names. -/
theorem Manager.createGroup_wellNamed (m : Manager) (h : m.wellNamed) (groupName : Str) :
    (m.createGroup groupName).1.wellNamed := by
  unfold Manager.createGroup
  simp only []
  split
  · exact h
  · refine ⟨h.1, ?_⟩
    intro k g hk
    simp only [NameMap.assign] at hk
    split at hk
    · cases hk
      rename_i hkn
      rw [hkn]
    · exact h.2 k g hk

/-- Member `deleteByName` keeps the keys equal to the names. -/
theorem Manager.deleteByName_wellNamed (m : Manager) (h : m.wellNamed) (name : Str) :
    (m.deleteByName name).1.wellNamed := by
  unfold Manager.deleteByName
  cases m.mediaCollection name with
  | some e =>
    refine ⟨?_, h.2⟩
    intro k x hk
    simp only [NameMap.erase] at hk
    split at hk
    · cases hk
    · exact h.1 k x hk
  | none =>
    cases m.mediaGroups name with
    | some g =>
      refine ⟨h.1, ?_⟩
      intro k x hk
      simp only [NameMap.erase] at hk
      split at hk
      · cases hk
      · exact h.2 k x hk
    | none => exact h

/-- The body of the read loop keeps the keys equal to the names. -/
theorem Manager.readLine_wellNamed (m : Manager) (h : m.wellNamed) (line : Str) :
    (m.readLine line).1.wellNamed := by
  unfold Manager.readLine
  simp only []
  split
  · unfold Manager.readPhoto
    simp only [afterCreate_fst]
    exact Manager.createPhoto_wellNamed m h _ _ _ _
  · split
    · unfold Manager.readVideo
      simp only [afterCreate_fst]
      exact Manager.createVideo_wellNamed m h _ _ _
    · split
      · unfold Manager.readFilm
        simp only []
        split
        · split
          · exact h
          · simp only [afterCreate_fst]
            exact Manager.createFilm_wellNamed m h _ _ _ _ _
        · exact h
      · exact h

/-- The read loop keeps the keys equal to the names. -/
theorem Manager.readLines_wellNamed : ∀ (ls : List Str) (m : Manager), m.wellNamed →
    (m.readLines ls).1.wellNamed := by
  intro ls
  induction ls with
  | nil => intro m h; exact h
  | cons l rest ih =>
    intro m h
    unfold Manager.readLines
    cases hr : (m.readLine l).2 with
    | none =>
      simp only []
      exact ih _ (Manager.readLine_wellNamed m h l)
    | some r =>
      simp only []
      exact Manager.readLine_wellNamed m h l

/-- One call keeps the keys equal to the names. -/
theorem Manager.apply_wellNamed (m : Manager) (h : m.wellNamed) (op : Op) :
    (m.apply op).wellNamed := by
  cases op with
  | createPhoto name filepath latitude longitude =>
    exact Manager.createPhoto_wellNamed m h _ _ _ _
  | createVideo name filepath duration => exact Manager.createVideo_wellNamed m h _ _ _
  | createFilm name filepath duration chapters n_chapters =>
    exact Manager.createFilm_wellNamed m h _ _ _ _ _
  | copyAndCreateFilm indet otherFilm => exact Manager.copyAndCreateFilm_wellNamed indet m h _
  | createGroup groupName => exact Manager.createGroup_wellNamed m h _
  | deleteByName name => exact Manager.deleteByName_wellNamed m h _
  | read fs filename =>
    show (m.read fs filename).1.wellNamed
    unfold Manager.read
    cases fs filename with
    | none => exact h
    | some content => exact Manager.readLines_wellNamed _ m h

/-- A sequence of calls keeps the keys equal to the names. -/
theorem Manager.run_wellNamed : ∀ (ops : List Op) (m : Manager), m.wellNamed →
    (m.run ops).wellNamed := by
  intro ops
  induction ops with
  | nil => intro m h; exact h
  | cons op rest ih => intro m h; exact ih _ (Manager.apply_wellNamed m h op)

/-- C33: in the catalog that any sequence of calls of `createPhoto`, `createVideo`,
`createFilm`, `copyAndCreateFilm`, `createGroup`, `deleteByName` and `read`
makes from the empty catalog, with any arguments and whether the calls return
or raise, every key of the entity store is the name of the entity stored under
it and every key of the group store is the name of the group stored under it. -/
theorem C33_keys_are_names (ops : List Op) :
    (∀ (k : Str) (e : Multimedia),
      (Manager.empty.run ops).mediaCollection k = some e → e.getName = k) ∧
    (∀ (k : Str) (g : Group), (Manager.empty.run ops).mediaGroups k = some g → g.name = k) :=
  Manager.run_wellNamed ops Manager.empty
    ⟨fun _ _ h => (by cases h), fun _ _ h => (by cases h)⟩

/-- C33, instance: after `createVideo` of `v`, `createGroup` of `g`, a second
`createVideo` of `v`, which raises, and `deleteByName` of an unknown name, which
raises too, the entity stored under `v` has the name `v` and the group stored
under `g` has the name `g`. -/
theorem C33_keys_are_names_witness :
    Multimedia.getName (.video ⟨"v".toList, "/v.mp4".toList, 3⟩) = "v".toList ∧
    Group.name ⟨"g".toList, []⟩ = "g".toList :=
  ⟨(C33_keys_are_names [.createVideo "v".toList "/v.mp4".toList 3, .createGroup "g".toList,
      .createVideo "v".toList "/w.mp4".toList 5, .deleteByName "x".toList]).1 "v".toList
      (.video ⟨"v".toList, "/v.mp4".toList, 3⟩) (by decide),
   (C33_keys_are_names [.createVideo "v".toList "/v.mp4".toList 3, .createGroup "g".toList,
      .createVideo "v".toList "/w.mp4".toList 5, .deleteByName "x".toList]).2 "g".toList
      ⟨"g".toList, []⟩ (by decide)⟩

/-! ## Film records with too few or too many chapter fields -/

/-- The body of the read loop on a Film record whose name is not in the entity
store and whose count is a decimal integer `k ≥ 1`: the Film is bound to the
name, with `k` chapters read from the first `k` words that follow the count,
`0` standing for each missing word. -/
theorem Manager.readLine_film_installs (m : Manager) (n f d c : Str) (chs : List Str)
    (hn : goodWord n) (hf : goodWord f) (hd : goodWord d) (hc : intToken c)
    (hpos : 1 ≤ intTokenValue c) (hchs : ∀ w ∈ chs, goodWord w)
    (hfresh : m.mediaCollection n = none) :
    m.readLine (joinWords ("Film".toList :: n :: f :: d :: c :: chs))
      = (⟨m.mediaCollection.assign n (.film ⟨n, f, atoi d,
            some ((chs.take (intTokenValue c).toNat).map atoi
              ++ List.replicate ((intTokenValue c).toNat - chs.length) 0),
            (intTokenValue c).toNat⟩),
          m.mediaGroups⟩, none) := by
  have hcnt : ¬ (m.mediaCollection.count n > 0) := by
    rw [NameMap.count_pos_iff, hfresh]; simp
  have hne : intTokenValue c ≠ 0 := by omega
  have hnn : ¬ (intTokenValue c < 0) := by omega
  have hlen := chapters_read_length (intTokenValue c).toNat chs
  rw [Manager.readLine_film_words m n f d c chs hn hf hd (goodWord_of_isIntToken _ hc.1) hchs,
    atoi_intToken c hc, if_pos hne, if_neg hnn]
  simp only [afterCreate, Manager.createFilm, Film.construct, hlen, le_refl, if_true, hcnt,
    if_false]
  rw [List.take_of_length_le (le_of_eq hlen)]

/-- C35: a Film record with a name and a file path (non-empty, free of white space),
a duration field, a count that is a decimal integer `n ≥ 1` and `k` chapter
fields, read in a catalog whose entity store does not hold the name. The body
of the read loop binds the name to a Film of `n` chapters and the loop goes on.
When `k < n` the chapters are the `atoi` values of the `k` fields followed by
`n - k` values `0`. When `k > n` the chapters are the `atoi` values of the first
`n` fields, and the outcome is the one of the record cut after these `n`
fields: what follows them on the line is ignored. The allocation `new int[n]`
is taken to succeed. -/
theorem C35_film_record_chapter_fields (m : Manager) (n f d c : Str) (chs : List Str)
    (hn : goodWord n) (hf : goodWord f) (hd : goodWord d) (hc : intToken c)
    (hpos : 1 ≤ intTokenValue c) (hchs : ∀ w ∈ chs, goodWord w)
    (hfresh : m.mediaCollection n = none) :
    (chs.length < (intTokenValue c).toNat →
      m.readLine (joinWords ("Film".toList :: n :: f :: d :: c :: chs))
        = (⟨m.mediaCollection.assign n (.film ⟨n, f, atoi d,
              some (chs.map atoi
                ++ List.replicate ((intTokenValue c).toNat - chs.length) 0),
              (intTokenValue c).toNat⟩), m.mediaGroups⟩, none) ∧
      (chs.map atoi ++ List.replicate ((intTokenValue c).toNat - chs.length) 0).length
        = (intTokenValue c).toNat) ∧
    ((intTokenValue c).toNat < chs.length →
      m.readLine (joinWords ("Film".toList :: n :: f :: d :: c :: chs))
        = (⟨m.mediaCollection.assign n (.film ⟨n, f, atoi d,
              some ((chs.take (intTokenValue c).toNat).map atoi),
              (intTokenValue c).toNat⟩), m.mediaGroups⟩, none) ∧
      ((chs.take (intTokenValue c).toNat).map atoi).length = (intTokenValue c).toNat ∧
      m.readLine (joinWords ("Film".toList :: n :: f :: d :: c :: chs))
        = m.readLine (joinWords ("Film".toList :: n :: f :: d :: c
            :: chs.take (intTokenValue c).toNat))) := by
  have hmain := Manager.readLine_film_installs m n f d c chs hn hf hd hc hpos hchs hfresh
  refine ⟨?_, ?_⟩
  · intro hlt
    have htake : chs.take (intTokenValue c).toNat = chs :=
      List.take_of_length_le (by omega)
    rw [htake] at hmain
    refine ⟨hmain, ?_⟩
    simp only [List.length_append, List.length_map, List.length_replicate]
    omega
  · intro hgt
    have hzero : (intTokenValue c).toNat - chs.length = 0 := by omega
    have h1 : m.readLine (joinWords ("Film".toList :: n :: f :: d :: c :: chs))
        = (⟨m.mediaCollection.assign n (.film ⟨n, f, atoi d,
              some ((chs.take (intTokenValue c).toNat).map atoi),
              (intTokenValue c).toNat⟩), m.mediaGroups⟩, none) := by
      rw [hmain, hzero]
      simp
    have hcut := Manager.readLine_film_installs m n f d c (chs.take (intTokenValue c).toNat)
      hn hf hd hc hpos (fun w hw => hchs w (List.mem_of_mem_take hw)) hfresh
    have hlen : (chs.take (intTokenValue c).toNat).length = (intTokenValue c).toNat := by
      simp only [List.length_take]; omega
    refine ⟨h1, by simp only [List.length_map, hlen], ?_⟩
    rw [h1, hcut, hlen, List.take_take]
    simp

set_option maxRecDepth 100000 in
/-- C35, instance: in the empty catalog, the record `Film f1 /z.mp4 20 3 7` with one
chapter field for a count of three, and the record `Film f1 /z.mp4 20 1 7 8 9`
with three fields for a count of one. -/
theorem C35_film_record_chapter_fields_witness :
    (Manager.empty.readLine (joinWords ["Film".toList, "f1".toList, "/z.mp4".toList,
        "20".toList, "3".toList, "7".toList])).1.mediaCollection "f1".toList
      = some (.film ⟨"f1".toList, "/z.mp4".toList, 20, some [7, 0, 0], 3⟩) ∧
    (Manager.empty.readLine (joinWords ["Film".toList, "f1".toList, "/z.mp4".toList,
        "20".toList, "1".toList, "7".toList, "8".toList, "9".toList])).1.mediaCollection
        "f1".toList
      = some (.film ⟨"f1".toList, "/z.mp4".toList, 20, some [7], 1⟩) :=
  ⟨by
    rw [((C35_film_record_chapter_fields Manager.empty "f1".toList "/z.mp4".toList
      "20".toList "3".toList ["7".toList] (by decide) (by decide) (by decide) (by decide)
      (by decide) (by decide) rfl).1 (by decide)).1]
    decide,
   by
    rw [((C35_film_record_chapter_fields Manager.empty "f1".toList "/z.mp4".toList
      "20".toList "1".toList ["7".toList, "8".toList, "9".toList] (by decide) (by decide)
      (by decide) (by decide) (by decide) (by decide) rfl).2 (by decide)).1]
    decide⟩

/-! ## Record of a Video without a name -/

/-- The body of the read loop on the line that `Video::write` appends for a Video
with an empty name: the file path is read as the name, the text of the duration
as the file path, and no word is left for the duration. -/
theorem Manager.readLine_video_empty_name (m : Manager) (p : Str) (d : Int)
    (hp : goodWord p) :
    m.readLine ("Video ".toList ++ [] ++ " ".toList ++ p ++ " ".toList ++ putInt d)
      = afterCreate (m.createVideo p (putInt d) 0) := by
  have hshape : "Video ".toList ++ [] ++ " ".toList ++ p ++ " ".toList ++ putInt d
      = "Video".toList ++ (' ' :: ' ' :: (p ++ (' ' :: (putInt d ++ [])))) := by
    simp
  have h0 : extractWord ("Video".toList ++ (' ' :: ' ' :: (p ++ (' ' :: (putInt d ++ [])))))
      = ("Video".toList, ' ' :: ' ' :: (p ++ (' ' :: (putInt d ++ [])))) :=
    extractWord_word _ _ (by decide) (by decide) rfl
  have h1 : extractWord (' ' :: ' ' :: (p ++ (' ' :: (putInt d ++ []))))
      = (p, ' ' :: (putInt d ++ [])) := by
    rw [extractWord_skip ' ' _ (by decide)]
    exact extractWord_space_word _ _ hp.1 hp.2 rfl
  have h2 : extractWord (' ' :: (putInt d ++ [])) = (putInt d, []) :=
    extractWord_space_word _ _ (putInt_ne_nil _) (putInt_noSpace _) rfl
  have h3 : extractWord [] = ([], []) := rfl
  have h4 : atoi [] = 0 := by decide
  have hv : ("Video".toList = "Photo".toList) = False := by decide
  rw [hshape]
  simp only [Manager.readLine, h0, hv, if_false, if_true, Manager.readVideo, h1, h2, h3, h4]

/-- C36: a Video with an empty name, a file path `p` that is non-empty and free of
white space, and a duration `d` is written by `Video::write` to a file that is
absent or empty. `read` of that file into the empty catalog returns normally
and installs one entity only: under the key `p`, the Video whose name is `p`,
whose file path is the decimal text of `d` and whose duration is `0`. Nothing
is stored under the empty name, and the entity installed is not the Video that
was written. -/
theorem C36_video_empty_name_not_restored (fs : Files) (filename p : Str) (d : Int)
    (hfile : (fs filename).getD [] = []) (hp : goodWord p) :
    ((⟨[], p, d⟩ : Video).write filename fs).2 = none ∧
    Manager.empty.read ((⟨[], p, d⟩ : Video).write filename fs).1 filename
      = (⟨NameMap.assign (fun _ => none) p (.video ⟨p, putInt d, 0⟩), fun _ => none⟩,
          .ok ()) ∧
    (∀ k, ((Manager.empty.read ((⟨[], p, d⟩ : Video).write filename fs).1
        filename).1.mediaCollection k).isSome = true ↔ k = p) ∧
    (Manager.empty.read ((⟨[], p, d⟩ : Video).write filename fs).1
        filename).1.mediaCollection [] = none ∧
    Multimedia.video ⟨p, putInt d, 0⟩ ≠ Multimedia.video ⟨[], p, d⟩ := by
  have hbody : ∀ c ∈ "Video ".toList ++ [] ++ " ".toList ++ p ++ " ".toList ++ putInt d,
      c ≠ '\n' := by
    intro c hc
    simp only [List.mem_append] at hc
    rcases hc with ((((h | h) | h) | h) | h) | h
    · intro hc'; subst hc'; exact absurd h (by decide)
    · cases h
    · intro hc'; subst hc'; exact absurd h (by decide)
    · exact ne_newline_of_noSpace _ hp.2 c h
    · intro hc'; subst hc'; exact absurd h (by decide)
    · exact ne_newline_of_noSpace _ (putInt_noSpace _) c h
  have hw : ((⟨[], p, d⟩ : Video).write filename fs).1 = appendFile fs filename
      (("Video ".toList ++ [] ++ " ".toList ++ p ++ " ".toList ++ putInt d) ++ ['\n']) := by
    simp [Video.write]
  have hread : Manager.empty.read ((⟨[], p, d⟩ : Video).write filename fs).1 filename
      = (⟨NameMap.assign (fun _ => none) p (.video ⟨p, putInt d, 0⟩), fun _ => none⟩,
          .ok ()) := by
    rw [hw, Manager.read_single_line _ _ _ _ hfile hbody]
    simp only [Manager.readLines]
    rw [Manager.readLine_video_empty_name _ _ _ hp]
    simp [afterCreate, Manager.createVideo, Manager.empty, NameMap.count]
  have hpne : p ≠ [] := hp.1
  refine ⟨rfl, hread, ?_, ?_, ?_⟩
  · intro k
    rw [hread]
    simp only [NameMap.assign]
    constructor
    · intro h
      by_cases hk : k = p
      · exact hk
      · rw [if_neg hk] at h; cases h
    · intro h
      rw [if_pos h]; rfl
  · rw [hread]
    simp only [NameMap.assign]
    rw [if_neg (fun h => hpne h.symm)]
  · intro h
    simp only [Multimedia.video.injEq, Video.mk.injEq] at h
    exact hpne h.1

/-- C36, instance: the Video without a name, with the file path `/y.mp4` and the
duration 10, written to the absent file `db`. -/
theorem C36_video_empty_name_not_restored_witness :
    Manager.empty.read ((⟨[], "/y.mp4".toList, 10⟩ : Video).write "db".toList
        (fun _ => none)).1 "db".toList
      = (⟨NameMap.assign (fun _ => none) "/y.mp4".toList
          (.video ⟨"/y.mp4".toList, putInt 10, 0⟩), fun _ => none⟩, .ok ()) :=
  (C36_video_empty_name_not_restored (fun _ => none) "db".toList "/y.mp4".toList 10 rfl
    (by decide)).2.1

/-! ## Copy of the entity map -/

/-- An object placed at one address leaves the objects at the other addresses. -/
theorem Objects.store_other (o : Objects) (a b : Nat) (e : Multimedia) (h : b ≠ a) :
    (o.store a e) b = o b := by
  simp [Objects.store, h]

/-- A release leaves every object that another handle still owns. -/
theorem Objects.release_kept (kept : Nat → Bool) (o : Objects) (released : List Nat) (a : Nat)
    (h : kept a = true) : (o.release kept released) a = o a := by
  simp [Objects.release, h]

/-- Member `createPhoto` leaves every object other than the one it makes. -/
theorem ManagerObj.createPhoto_objects (fresh : Nat) (s : ManagerObj) (name filepath : Str)
    (latitude longitude : Dbl) (a : Nat) (ha : a ≠ fresh) :
    (s.createPhoto fresh name filepath latitude longitude).1.objects a = s.objects a := by
  unfold ManagerObj.createPhoto
  split
  · rfl
  · exact Objects.store_other _ _ _ _ ha

/-- Member `createVideo` leaves every object other than the one it makes. -/
theorem ManagerObj.createVideo_objects (fresh : Nat) (s : ManagerObj) (name filepath : Str)
    (duration : Int) (a : Nat) (ha : a ≠ fresh) :
    (s.createVideo fresh name filepath duration).1.objects a = s.objects a := by
  unfold ManagerObj.createVideo
  split
  · rfl
  · exact Objects.store_other _ _ _ _ ha

/-- Member `createFilm` leaves every object other than the one it makes. -/
theorem ManagerObj.createFilm_objects (fresh : Nat) (s : ManagerObj) (name filepath : Str)
    (duration : Int) (chapters : Option (List Int)) (n_chapters : Nat) (a : Nat)
    (ha : a ≠ fresh) :
    (s.createFilm fresh name filepath duration chapters n_chapters).1.objects a
      = s.objects a := by
  unfold ManagerObj.createFilm
  split
  · rfl
  · split
    · rfl
    · exact Objects.store_other _ _ _ _ ha

/-- Member `copyAndCreateFilm` leaves every object that another handle owns, the
one it makes apart. -/
theorem ManagerObj.copyAndCreateFilm_objects (indet fresh : Nat) (kept : Nat → Bool)
    (s : ManagerObj) (otherFilm : Film) (a : Nat) (ha : a ≠ fresh) (hk : kept a = true) :
    (s.copyAndCreateFilm indet fresh kept otherFilm).1.objects a = s.objects a := by
  unfold ManagerObj.copyAndCreateFilm
  split
  · rfl
  · simp only []
    rw [Objects.release_kept _ _ _ _ hk]
    exact Objects.store_other _ _ _ _ ha

/-- Member `deleteByName` leaves every object that another handle owns. -/
theorem ManagerObj.deleteByName_objects (kept : Nat → Bool) (groupKept : Bool)
    (s : ManagerObj) (name : Str) (a : Nat) (hk : kept a = true) :
    (s.deleteByName kept groupKept name).1.objects a = s.objects a := by
  unfold ManagerObj.deleteByName
  cases s.mediaCollection name with
  | some b => exact Objects.release_kept _ _ _ _ hk
  | none =>
    cases s.mediaGroups name with
    | some g =>
      simp only []
      cases groupKept with
      | true => rfl
      | false => exact Objects.release_kept _ _ _ _ hk
    | none => rfl

/-- The handler around a create call of `read` keeps the state the call left. -/
theorem ManagerObj.afterCreate_state {α : Type} (r : ManagerObj × Except Err α) :
    (ManagerObj.afterCreate r).1 = r.1 := by
  unfold ManagerObj.afterCreate
  cases r.2 with
  | ok x => rfl
  | error e =>
    simp only []
    split <;> rfl

/-- The body of the read loop leaves every object at an address that `new` does not
return. -/
theorem ManagerObj.readLine_objects (alloc : Objects → Nat) (s : ManagerObj) (line : Str)
    (a : Nat) (ha : ∀ o, a ≠ alloc o) : (s.readLine alloc line).1.objects a = s.objects a := by
  unfold ManagerObj.readLine
  simp only []
  split
  · rw [ManagerObj.afterCreate_state]
    exact ManagerObj.createPhoto_objects _ s _ _ _ _ a (ha _)
  · split
    · rw [ManagerObj.afterCreate_state]
      exact ManagerObj.createVideo_objects _ s _ _ _ a (ha _)
    · split
      · split
        · split
          · rfl
          · rw [ManagerObj.afterCreate_state]
            exact ManagerObj.createFilm_objects _ s _ _ _ _ _ a (ha _)
        · rfl
      · rfl

/-- The read loop leaves every object at an address that `new` does not return. -/
theorem ManagerObj.readLines_objects (alloc : Objects → Nat) (a : Nat)
    (ha : ∀ o, a ≠ alloc o) : ∀ (ls : List Str) (s : ManagerObj),
    (s.readLines alloc ls).1.objects a = s.objects a := by
  intro ls
  induction ls with
  | nil => intro s; rfl
  | cons l rest ih =>
    intro s
    unfold ManagerObj.readLines
    cases h : (s.readLine alloc l).2 with
    | none =>
      simp only []
      rw [ih, ManagerObj.readLine_objects alloc s l a ha]
    | some r =>
      simp only []
      exact ManagerObj.readLine_objects alloc s l a ha

/-- One call that spares a copy of the entity map leaves the objects that the copy
reaches. -/
theorem ManagerObj.call_objects (snap : NameMap Nat) (s : ManagerObj) (c : Call)
    (hc : c.spares snap) (k : Str) (a : Nat) (hka : snap k = some a) :
    (s.call c).objects a = s.objects a := by
  cases c with
  | createPhoto fresh name filepath latitude longitude =>
    exact ManagerObj.createPhoto_objects fresh s _ _ _ _ a
      (fun h => hc k (by rw [hka, h]))
  | createVideo fresh name filepath duration =>
    exact ManagerObj.createVideo_objects fresh s _ _ _ a (fun h => hc k (by rw [hka, h]))
  | createFilm fresh name filepath duration chapters n_chapters =>
    exact ManagerObj.createFilm_objects fresh s _ _ _ _ _ a (fun h => hc k (by rw [hka, h]))
  | copyAndCreateFilm indet fresh kept otherFilm =>
    exact ManagerObj.copyAndCreateFilm_objects indet fresh kept s _ a
      (fun h => hc.1 k (by rw [hka, h])) (hc.2 k a hka)
  | deleteByName kept groupKept name =>
    exact ManagerObj.deleteByName_objects kept groupKept s _ a (hc k a hka)
  | read alloc fs filename =>
    show (s.read alloc fs filename).1.objects a = s.objects a
    unfold ManagerObj.read
    cases fs filename with
    | none => rfl
    | some content =>
      exact ManagerObj.readLines_objects alloc a (fun o h => hc o k (by rw [hka, h])) _ s

/-- A sequence of calls that spare a copy of the entity map leaves the objects that
the copy reaches. -/
theorem ManagerObj.calls_objects (snap : NameMap Nat) : ∀ (cs : List Call) (s : ManagerObj),
    (∀ c ∈ cs, c.spares snap) → ∀ (k : Str) (a : Nat), snap k = some a →
    (s.calls cs).objects a = s.objects a := by
  intro cs
  induction cs with
  | nil => intro s _ k a _; rfl
  | cons c rest ih =>
    intro s h k a hka
    show ((s.call c).calls rest).objects a = s.objects a
    rw [ih (s.call c) (fun x hx => h x (by simp [hx])) k a hka]
    exact ManagerObj.call_objects snap s c (h c (by simp)) k a hka

/-- C31: `getMedias` returns the entity store: the same keys with the same handles
(in the catalog of entities, `getMedias` is the store itself). The map returned
is a copy, a value of its own, whose handles own their objects: `new` returns
none of their addresses and no release destroys the objects. After any
sequence of later calls of `createPhoto`, `createVideo`, `createFilm`,
`copyAndCreateFilm`, `deleteByName` and `read` on the Manager, whether they
return or raise, every key of the copy still reaches the entity it reached when
the copy was made. -/
theorem C31_getMedias_copy_unaffected (s : ManagerObj) (later : List Call)
    (hlater : ∀ c ∈ later, c.spares s.getMedias) :
    s.getMedias = s.mediaCollection ∧
    (∀ m : Manager, m.getMedias = m.mediaCollection) ∧
    (∀ k : Str, Objects.reach (s.calls later).objects s.getMedias k
      = Objects.reach s.objects s.getMedias k) := by
  refine ⟨rfl, fun _ => rfl, ?_⟩
  intro k
  unfold Objects.reach
  cases hk : s.getMedias k with
  | none => rfl
  | some a =>
    simp only [Option.bind]
    exact ManagerObj.calls_objects s.getMedias later s hlater k a hk

set_option maxRecDepth 100000 in
/-- C31, instance: the Manager holds the Video `v` at the address `0`. After the copy
is made, `deleteByName` of `v` and `createVideo` of another Video `v` at the
address `1` leave the Video that the copy reaches under `v`, while the map of
the Manager holds the new one. -/
theorem C31_getMedias_copy_unaffected_witness :
    Objects.reach
        ((⟨fun a => if a = 0 then some (.video ⟨"v".toList, "/v.mp4".toList, 3⟩) else none,
          fun k => if k = "v".toList then some 0 else none, fun _ => none⟩ : ManagerObj).calls
          [.deleteByName (fun a => a == 0) false "v".toList,
           .createVideo 1 "v".toList "/w.mp4".toList 5]).objects
        (fun k => if k = "v".toList then some 0 else none) "v".toList
      = some (.video ⟨"v".toList, "/v.mp4".toList, 3⟩) ∧
    Objects.reach
        ((⟨fun a => if a = 0 then some (.video ⟨"v".toList, "/v.mp4".toList, 3⟩) else none,
          fun k => if k = "v".toList then some 0 else none, fun _ => none⟩ : ManagerObj).calls
          [.deleteByName (fun a => a == 0) false "v".toList,
           .createVideo 1 "v".toList "/w.mp4".toList 5]).objects
        ((⟨fun a => if a = 0 then some (.video ⟨"v".toList, "/v.mp4".toList, 3⟩) else none,
          fun k => if k = "v".toList then some 0 else none, fun _ => none⟩ : ManagerObj).calls
          [.deleteByName (fun a => a == 0) false "v".toList,
           .createVideo 1 "v".toList "/w.mp4".toList 5]).mediaCollection "v".toList
      = some (.video ⟨"v".toList, "/w.mp4".toList, 5⟩) :=
  ⟨((C31_getMedias_copy_unaffected
      ⟨fun a => if a = 0 then some (.video ⟨"v".toList, "/v.mp4".toList, 3⟩) else none,
        fun k => if k = "v".toList then some 0 else none, fun _ => none⟩
      [.deleteByName (fun a => a == 0) false "v".toList,
       .createVideo 1 "v".toList "/w.mp4".toList 5]
      (by
        intro c hc
        simp only [List.mem_cons, List.mem_singleton, List.not_mem_nil, or_false] at hc
        rcases hc with rfl | rfl
        · intro k a h
          simp only [ManagerObj.getMedias] at h
          split at h
          · cases h; rfl
          · cases h
        · intro k h
          simp only [ManagerObj.getMedias] at h
          split at h
          · cases h
          · cases h)).2.2 "v".toList).trans (by decide),
   by decide⟩

/-! ## Count and array of a Film -/

/-- The values read from an array are as many as were asked for. -/
theorem Heap.readArray_length (h : Heap) (c n : Nat) (xs : List Int)
    (hr : h.readArray c n = .ok xs) : xs.length = n := by
  unfold Heap.readArray at hr
  split at hr
  · split at hr
    · cases hr
      rename_i hle
      simp [List.length_take, hle]
    · cases hr
  · cases hr

/-- The Film that the constructor builds from a non-null source owns an array of as
many values as its count. -/
theorem Film.construct_counted (name filepath : Str) (duration : Int) (xs : List Int)
    (n : Nat) (f : Film) (h : Film.construct name filepath duration (some xs) n = .ok f) :
    f.chapters = some (xs.take n) ∧ f.n_chapters = n ∧ (xs.take n).length = n := by
  unfold Film.construct at h
  simp only [] at h
  split at h
  · cases h
    rename_i hle
    exact ⟨rfl, rfl, by simp [List.length_take, hle]⟩
  · cases h

/-- After `setChapters` returns, the count of the Film is the number of values of
the array it owns. -/
theorem FilmObj.setChapters_counted (fresh : Nat) (h h2 : Heap) (self f2 : FilmObj)
    (c : Option Nat) (n : Nat) (hok : FilmObj.setChapters fresh h self c n = .ok (f2, h2)) :
    f2.counted h2 := by
  unfold FilmObj.setChapters at hok
  cases hr : h.release self.chapters with
  | error e => rw [hr] at hok; cases hok
  | ok h1 =>
    rw [hr] at hok
    simp only at hok
    cases c with
    | none =>
      simp only [Except.ok.injEq, Prod.mk.injEq] at hok
      rw [← hok.1]; rfl
    | some p =>
      simp only at hok
      split at hok
      · simp only [Except.ok.injEq, Prod.mk.injEq] at hok
        rw [← hok.1]; rfl
      · cases hread : h1.readArray p n with
        | error e => rw [hread] at hok; cases hok
        | ok xs =>
          rw [hread] at hok
          simp only [Except.ok.injEq, Prod.mk.injEq] at hok
          rw [← hok.1, ← hok.2]
          exact ⟨xs, by simp [Heap.store], Heap.readArray_length h1 p n xs hread⟩

/-- After a copy assignment returns, the count of the target is the number of
values of the array it owns, when that held for the target and for the source
before. -/
theorem FilmObj.assign_counted (same : Bool) (fresh : Nat) (h h2 : Heap)
    (self otherFilm f2 : FilmObj) (hself : self.counted h) (hother : otherFilm.counted h)
    (hok : FilmObj.assign same fresh h self otherFilm = .ok (f2, h2)) : f2.counted h2 := by
  unfold FilmObj.assign at hok
  cases same with
  | true =>
    simp only [if_true, Except.ok.injEq, Prod.mk.injEq] at hok
    rw [← hok.1, ← hok.2]; exact hself
  | false =>
    simp only [Bool.false_eq_true, if_false] at hok
    cases hr : h.release self.chapters with
    | error e => rw [hr] at hok; cases hok
    | ok h1 =>
      rw [hr] at hok
      simp only at hok
      cases hp : otherFilm.chapters with
      | none =>
        rw [hp] at hok
        simp only [Except.ok.injEq, Prod.mk.injEq] at hok
        rw [← hok.1]
        unfold FilmObj.counted at hother ⊢
        rw [hp] at hother
        exact hother
      | some p =>
        rw [hp] at hok
        simp only at hok
        split at hok
        · cases hread : h1.readArray p otherFilm.n_chapters with
          | error e => rw [hread] at hok; cases hok
          | ok xs =>
            rw [hread] at hok
            simp only [Except.ok.injEq, Prod.mk.injEq] at hok
            rw [← hok.1, ← hok.2]
            exact ⟨xs, by simp [Heap.store], Heap.readArray_length h1 p _ xs hread⟩
        · rename_i hn
          simp only [Except.ok.injEq, Prod.mk.injEq] at hok
          rw [← hok.1]
          show otherFilm.n_chapters = 0
          omega

/-- C34 (code at the failing input): the Film `f` made by the constructor owns the
array `[10, 20]` at the address `0`; `setChapters(nullptr, 0)` leaves it with a
null pointer and the count `0`. The copy constructor never assigns the count of
the new object: when the storage of the copy holds `3` there, the copy has a
null pointer, no array to read, and the count `3`; `copyAndCreateFilm` installs
that Film. -/
theorem C34_copy_count_without_array :
    (∃ h1 : Heap,
      FilmObj.setChapters 1 (fun a => if a = 0 then some [10, 20] else none)
          ⟨"f".toList, "p".toList, 20, some 0, 2⟩ none 0
        = .ok (⟨"f".toList, "p".toList, 20, none, 0⟩, h1) ∧
      FilmObj.copyConstruct 3 1 h1 ⟨"f".toList, "p".toList, 20, none, 0⟩
        = .ok (⟨"f".toList, "p".toList, 20, none, 3⟩, h1) ∧
      FilmObj.seq h1 ⟨"f".toList, "p".toList, 20, none, 3⟩ = none ∧
      ¬ FilmObj.counted h1 ⟨"f".toList, "p".toList, 20, none, 3⟩) ∧
    Film.copyConstruct 3 ⟨"f".toList, "p".toList, 20, none, 0⟩
      = .ok ⟨"f".toList, "p".toList, 20, none, 3⟩ ∧
    (Manager.empty.copyAndCreateFilm 3 ⟨"f".toList, "p".toList, 20, none, 0⟩).1.mediaCollection
        "f".toList
      = some (.film ⟨"f".toList, "p".toList, 20, none, 3⟩) :=
  ⟨⟨_, rfl, rfl, rfl, fun h => (by decide : (3 : Nat) ≠ 0) h⟩, by decide, by decide⟩

end MediaCatalog
